import Mathlib

/-! # Hash-chained ledger (`server/blockchain/ledger.js`)

A shallow embedding of the `Block` and `Blockchain` classes and the properties of the
ledger that follow from the code.

Modelling conventions

* `crypto.createHash(sha256)` is SHA-256 itself (`Sha256.digestHex`), computed over the
  UTF-8 bytes of the input string, so every concrete evaluation below is the value the
  JavaScript program computes on the same input.
* Payloads are JSON values (`Json`).  Numbers are integers; an object is the list of its
  own properties in insertion order (keys pairwise distinct, none of them an array index).
* The clock (`Date.now()`, `new Date().toISOString()`) and the random transaction id are
  inputs of the operation that reads them.
* The mining loop is unbounded in the source; `Block.mineBlock` takes the number of
  iterations it may spend and returns `none` when that budget is exhausted.
* A method that mutates the ledger returns its result together with the ledger after the
  call, also when it throws.
* A read-only method that can throw returns `Except Err`.
* `String.prototype.toLowerCase` and `Date.parse` are parameters of the search (`Host`);
  `asciiHost` is their behaviour on ASCII text and on ISO dates, for concrete evaluations.
* The callers in `routes/contracts.js` and `routes/blockchain.js` are modelled by the
  payloads they build and by the loop of the verification report.
-/

namespace Ledger

/-! ## SHA-256 (FIPS 180-4) over 32-bit words held in `Nat` -/

namespace Sha256

/-- Round constants (FIPS 180-4, 4.2.2). -/
def K : List Nat :=
  [0x428a2f98, 0x71374491, 0xb5c0fbcf, 0xe9b5dba5, 0x3956c25b, 0x59f111f1, 0x923f82a4, 0xab1c5ed5,
   0xd807aa98, 0x12835b01, 0x243185be, 0x550c7dc3, 0x72be5d74, 0x80deb1fe, 0x9bdc06a7, 0xc19bf174,
   0xe49b69c1, 0xefbe4786, 0x0fc19dc6, 0x240ca1cc, 0x2de92c6f, 0x4a7484aa, 0x5cb0a9dc, 0x76f988da,
   0x983e5152, 0xa831c66d, 0xb00327c8, 0xbf597fc7, 0xc6e00bf3, 0xd5a79147, 0x06ca6351, 0x14292967,
   0x27b70a85, 0x2e1b2138, 0x4d2c6dfc, 0x53380d13, 0x650a7354, 0x766a0abb, 0x81c2c92e, 0x92722c85,
   0xa2bfe8a1, 0xa81a664b, 0xc24b8b70, 0xc76c51a3, 0xd192e819, 0xd6990624, 0xf40e3585, 0x106aa070,
   0x19a4c116, 0x1e376c08, 0x2748774c, 0x34b0bcb5, 0x391c0cb3, 0x4ed8aa4a, 0x5b9cca4f, 0x682e6ff3,
   0x748f82ee, 0x78a5636f, 0x84c87814, 0x8cc70208, 0x90befffa, 0xa4506ceb, 0xbef9a3f7, 0xc67178f2]

/-- Modulus of 32-bit word arithmetic. -/
def w32 : Nat := 4294967296

/-- Rotate the 32-bit word `x` right by `n` bits. -/
def rotr (x n : Nat) : Nat :=
  Nat.mod (Nat.lor (Nat.shiftRight x n) (Nat.shiftLeft x (Nat.sub 32 n))) w32

def bsig0 (x : Nat) : Nat := Nat.xor (Nat.xor (rotr x 2) (rotr x 13)) (rotr x 22)

def bsig1 (x : Nat) : Nat := Nat.xor (Nat.xor (rotr x 6) (rotr x 11)) (rotr x 25)

def ssig0 (x : Nat) : Nat := Nat.xor (Nat.xor (rotr x 7) (rotr x 18)) (Nat.shiftRight x 3)

def ssig1 (x : Nat) : Nat := Nat.xor (Nat.xor (rotr x 17) (rotr x 19)) (Nat.shiftRight x 10)

/-- Choice: the bits of `y` where `x` is set, those of `z` where it is not. -/
def ch (x y z : Nat) : Nat := Nat.xor (Nat.land x y) (Nat.land (Nat.sub (w32 - 1) x) z)

/-- Bitwise majority. -/
def maj (x y z : Nat) : Nat := Nat.xor (Nat.xor (Nat.land x y) (Nat.land x z)) (Nat.land y z)

/-- UTF-8 encoding of one code point. -/
def utf8Bytes (c : Nat) : List Nat :=
  if c < 0x80 then [c]
  else if c < 0x800 then [0xC0 + c / 64, 0x80 + c % 64]
  else if c < 0x10000 then [0xE0 + c / 4096, 0x80 + (c / 64) % 64, 0x80 + c % 64]
  else [0xF0 + c / 262144, 0x80 + (c / 4096) % 64, 0x80 + (c / 64) % 64, 0x80 + c % 64]

/-- UTF-8 bytes of a string: what `hash.update(string)` feeds to the digest. -/
def utf8 (s : String) : List Nat := s.data.flatMap (fun c => utf8Bytes c.toNat)

/-- Big-endian bytes of `n`, the `k` lowest ones. -/
def beBytes : Nat → Nat → List Nat
  | 0, _ => []
  | k + 1, n => (n / 256 ^ k) % 256 :: beBytes k n

/-- Padding: a single 1 bit, zero bits, and the 64-bit message length, up to a multiple
of 64 bytes. -/
def pad (msg : List Nat) : List Nat :=
  msg ++ 0x80 :: List.replicate ((119 - msg.length % 64) % 64) 0 ++ beBytes 8 (8 * msg.length)

/-- The first `n` big-endian 32-bit words of a byte list. -/
def toWords : Nat → List Nat → List Nat
  | 0, _ => []
  | n + 1, a :: b :: c :: d :: rest => (((a * 256 + b) * 256 + c) * 256 + d) :: toWords n rest
  | _ + 1, _ => []

/-- Message schedule; `ws` holds the words computed so far, the newest first, so the
next word is built from the 2nd, 7th, 15th and 16th of them. -/
def schedule : Nat → List Nat → List Nat
  | n + 1, ws@(_ :: w2 :: _ :: _ :: _ :: _ :: w7 :: _ :: _ :: _ :: _ :: _ :: _ :: _ :: w15 :: w16 :: _) =>
    schedule n ((ssig1 w2 + w7 + ssig0 w15 + w16) % w32 :: ws)
  | _, ws => ws

/-- The eight working variables. -/
structure Regs where
  a : Nat
  b : Nat
  c : Nat
  d : Nat
  e : Nat
  f : Nat
  g : Nat
  h : Nat

/-- One round of the compression function, on the pair (round constant, schedule word). -/
def round : Regs → Nat × Nat → Regs
  | ⟨a, b, c, d, e, f, g, h⟩, (k, w) =>
    ⟨((h + bsig1 e + ch e f g + k + w) + (bsig0 a + maj a b c)) % w32, a, b, c,
     (d + (h + bsig1 e + ch e f g + k + w)) % w32, e, f, g⟩

/-- Compression of one 16-word block into the running hash value. -/
def compress (h : Regs) (block : List Nat) : Regs :=
  match (K.zip (schedule 48 block.reverse).reverse).foldl round h with
  | ⟨a, b, c, d, e, f, g, hh⟩ =>
    ⟨(h.a + a) % w32, (h.b + b) % w32, (h.c + c) % w32, (h.d + d) % w32,
     (h.e + e) % w32, (h.f + f) % w32, (h.g + g) % w32, (h.h + hh) % w32⟩

/-- Compression of `n` consecutive blocks. -/
def blocks : Nat → List Nat → Regs → Regs
  | 0, _, h => h
  | n + 1, ws, h => blocks n (ws.drop 16) (compress h (ws.take 16))

/-- Lower-case hexadecimal digit. -/
def hexDigit (n : Nat) : Char := "0123456789abcdef".data.getD n '0'

/-- Eight hexadecimal digits of a 32-bit word. -/
def hexWord (w : Nat) : List Char :=
  (List.range 8).map (fun i => hexDigit ((w / 16 ^ (7 - i)) % 16))

/-- SHA-256 of the UTF-8 bytes of `s`, as 64 lower-case hexadecimal digits. -/
def digestHex (s : String) : String :=
  let bs := pad (utf8 s)
  match blocks (bs.length / 64) (toWords (bs.length / 4) bs)
    ⟨0x6a09e667, 0xbb67ae85, 0x3c6ef372, 0xa54ff53a,
     0x510e527f, 0x9b05688c, 0x1f83d9ab, 0x5be0cd19⟩ with
  | ⟨a, b, c, d, e, f, g, h⟩ => String.mk ([a, b, c, d, e, f, g, h].flatMap hexWord)

end Sha256

/-! ## JSON payloads and `JSON.stringify` -/

/-- A JSON value; an object is the list of its properties in insertion order. -/
inductive Json where
  | null
  | bool (b : Bool)
  | num (n : Int)
  | str (s : String)
  | arr (xs : List Json)
  | obj (kvs : List (String × Json))

/-- Escape of one character inside a JSON string literal (`QuoteJSONString`). -/
def quoteChar (c : Char) : List Char :=
  if c.toNat = 34 then [Char.ofNat 92, Char.ofNat 34]
  else if c.toNat = 92 then [Char.ofNat 92, Char.ofNat 92]
  else if c.toNat = 8 then [Char.ofNat 92, 'b']
  else if c.toNat = 12 then [Char.ofNat 92, 'f']
  else if c.toNat = 10 then [Char.ofNat 92, 'n']
  else if c.toNat = 13 then [Char.ofNat 92, 'r']
  else if c.toNat = 9 then [Char.ofNat 92, 't']
  else if c.toNat < 32 then
    [Char.ofNat 92, 'u', '0', '0', Sha256.hexDigit (c.toNat / 16), Sha256.hexDigit (c.toNat % 16)]
  else [c]

/-- JSON string literal for `s`. -/
def quote (s : String) : String :=
  String.mk (Char.ofNat 34 :: s.data.flatMap quoteChar ++ [Char.ofNat 34])

mutual
/-- Serialisation `JSON.stringify(v)`: no white space, properties in insertion order. -/
def Json.stringify : Json → String
  | .null => "null"
  | .bool b => if b then "true" else "false"
  | .num n => toString n
  | .str s => quote s
  | .arr xs => "[" ++ Json.stringifyElems xs ++ "]"
  | .obj kvs => "\x7b" ++ Json.stringifyProps kvs ++ "\x7d"
/-- Comma-separated elements of an array. -/
def Json.stringifyElems : List Json → String
  | [] => ""
  | [x] => x.stringify
  | x :: y :: xs => x.stringify ++ "," ++ Json.stringifyElems (y :: xs)
/-- Comma-separated `key:value` properties of an object. -/
def Json.stringifyProps : List (String × Json) → String
  | [] => ""
  | [(k, v)] => quote k ++ ":" ++ v.stringify
  | (k, v) :: p :: ps => quote k ++ ":" ++ v.stringify ++ "," ++ Json.stringifyProps (p :: ps)
end

/-- Property read `v.key` on a value that is not `null`; `none` is `undefined`. -/
def Json.prop : Json → String → Option Json
  | .obj kvs, key => (kvs.find? (fun kv => kv.1 == key)).map (fun kv => kv.2)
  | _, _ => none

/-- JavaScript truthiness of a possibly undefined value (the negation of `!v`). -/
def truthy : Option Json → Bool
  | none => false
  | some .null => false
  | some (.bool b) => b
  | some (.num n) => n != 0
  | some (.str s) => s != ""
  | some (.arr _) => true
  | some (.obj _) => true

/-- Assignment of property `key` in a property list: an existing key keeps its place. -/
def setProp : List (String × Json) → String → Json → List (String × Json)
  | [], key, v => [(key, v)]
  | (k, w) :: rest, key, v =>
    if k == key then (k, v) :: rest else (k, w) :: setProp rest key v

/-- Own enumerable properties copied by the object spread `{...v}`. -/
def Json.spread : Json → List (String × Json)
  | .obj kvs => kvs
  | .arr xs => (List.range xs.length).zip xs |>.map (fun p => (toString p.1, p.2))
  | .str s => (List.range s.length).zip s.data |>.map (fun p => (toString p.1, Json.str p.2.toString))
  | _ => []

/-! ## Outcomes of a call -/

/-- The ways a call can fail to return. -/
inductive Err where
  /-- A JavaScript exception with this message. -/
  | thrown (msg : String)
  /-- The mining loop was still running when the iteration budget ran out. -/
  | outOfFuel
deriving DecidableEq, Repr

/-- The message of the exception a call ended with, if it threw. -/
def thrownMsg {α : Type} : Except Err α → Option String
  | .error (.thrown msg) => some msg
  | _ => none

/-! ## `class Block` -/

/-- The value held by the `nonce` field of a block. -/
inductive Nonce where
  /-- The field has not been assigned yet. -/
  | undefined
  | num (n : Nat)
  /-- The result of incrementing `undefined`. -/
  | nan
deriving DecidableEq, Repr

/-- String conversion of the nonce in a string concatenation. -/
def Nonce.toString : Nonce → String
  | .undefined => "undefined"
  | .num n => ToString.toString n
  | .nan => "NaN"

/-- The increment `this.nonce++`. -/
def Nonce.incr : Nonce → Nonce
  | .num n => .num (n + 1)
  | _ => .nan

/-- A block of the chain, with the fields the constructor assigns. -/
structure Block where
  index : Nat
  timestamp : Nat
  data : Json
  prevHash : String
  hash : String
  validatedBy : String
  nonce : Nonce

/-- The digest `crypto.createHash(sha256).update(s).digest(hex)`. -/
def sha256Hex (s : String) : String := Sha256.digestHex s

/-- Method `calculateHash()`: SHA-256 of
`index + prevHash + JSON.stringify(data) + timestamp + nonce`. -/
def Block.calculateHash (self : Block) : String :=
  sha256Hex (toString self.index ++ self.prevHash ++ self.data.stringify
    ++ toString self.timestamp ++ self.nonce.toString)

/-- Constructor `new Block(index, timestamp, data, prevHash)`, one assignment after the
other: `hash` is computed before `validatedBy` and `nonce` are assigned. -/
def Block.new (index timestamp : Nat) (data : Json) (prevHash : String) : Block :=
  let this : Block :=
    { index := index, timestamp := timestamp, data := data, prevHash := prevHash,
      hash := "", validatedBy := "", nonce := .undefined }
  let this := { this with hash := this.calculateHash }
  let this := { this with validatedBy := "© Pranav Koradiya" }
  { this with nonce := .num 0 }

/-- JavaScript `s.substring(0, n)`. -/
def substring0 (s : String) (n : Nat) : String := String.mk (s.data.take n)

/-- The string `Array(difficulty + 1).join(0)` of `difficulty` zeros. -/
def target (difficulty : Nat) : String := String.mk (List.replicate difficulty '0')

/-- One iteration of the mining loop: `this.nonce++; this.hash = this.calculateHash()`. -/
def Block.mineStep (self : Block) : Block :=
  let this := { self with nonce := self.nonce.incr }
  { this with hash := this.calculateHash }

/-- Method `mineBlock(difficulty)` with at most `fuel` iterations of its loop; `none` when
the loop condition still holds after `fuel` iterations. -/
def Block.mineBlock (self : Block) (difficulty : Nat) : Nat → Option Block
  | 0 => if substring0 self.hash difficulty != target difficulty then none else some self
  | fuel + 1 =>
    if substring0 self.hash difficulty != target difficulty then
      self.mineStep.mineBlock difficulty fuel
    else some self

/-! ## `class Blockchain` -/

/-- The ledger: the fields the `Blockchain` constructor assigns. -/
structure Blockchain where
  chain : List Block
  difficulty : Nat
  pendingTransactions : List Json
  miningReward : Nat
  totalTransactions : Nat

/-- Method `createGenesisBlock()`; `iso` is `new Date().toISOString()` and `now` is
`Date.now()`. -/
def Blockchain.createGenesisBlock (iso : String) (now : Nat) : Block :=
  let genesisData := Json.obj
    [("type", .str "genesis"),
     ("message", .str "Genesis Block – Blockchain Ledger System"),
     ("creator", .str "© Pranav Koradiya"),
     ("timestamp", .str iso)]
  Block.new 0 now genesisData "0"

/-- Constructor `new Blockchain()`. -/
def Blockchain.new (iso : String) (now : Nat) : Blockchain :=
  { chain := [Blockchain.createGenesisBlock iso now],
    difficulty := 2,
    pendingTransactions := [],
    miningReward := 100,
    totalTransactions := 0 }

/-- Method `getLatestBlock()`; `none` is `undefined`. -/
def Blockchain.getLatestBlock (self : Blockchain) : Option Block :=
  self.chain[self.chain.length - 1]?

/-- Method `generateSignature(data)`. -/
def Blockchain.generateSignature (data : Json) : String :=
  sha256Hex (data.stringify ++ "© Pranav Koradiya")

/-- Message of the `TypeError` raised by a property read on `undefined` or `null`. -/
def typeErrorMsg : String := "TypeError: Cannot read properties of undefined or null"

/-- Method `addBlock(data)`; `now` is `Date.now()`, `fuel` bounds the mining loop. -/
def Blockchain.addBlock (self : Blockchain) (data : Json) (now fuel : Nat) :
    Except Err Block × Blockchain :=
  match self.getLatestBlock with
  | none => (.error (.thrown typeErrorMsg), self)
  | some prevBlock =>
    let newBlock := Block.new self.chain.length now data prevBlock.hash
    match newBlock.mineBlock self.difficulty fuel with
    | none => (.error .outOfFuel, self)
    | some mined => (.ok mined, { self with chain := self.chain ++ [mined] })

/-- The object `{transaction, block}` returned by `addTransaction`. -/
structure TxResult where
  transaction : Json
  block : Block

/-- Message of the validation error of `addTransaction`. -/
def validationMsg : String := "Transaction must include description and amount"

/-- The object literal `enhancedTransaction` of `addTransaction`: the submitted payload
with `id`, `timestamp`, `blockIndex`, `status` and `signature` assigned in this order. -/
def Blockchain.enhancedTransaction (self : Blockchain) (transactionData : Json)
    (id iso : String) : Json :=
  Json.obj
    (setProp (setProp (setProp (setProp (setProp transactionData.spread
      "id" (.str id))
      "timestamp" (.str iso))
      "blockIndex" (.num self.chain.length))
      "status" (.str "validated"))
      "signature" (.str (Blockchain.generateSignature transactionData)))

/-- Method `addTransaction(transactionData)`; `id` is the generated transaction id, `iso`
is `new Date().toISOString()`, `now` is the `Date.now()` read by `addBlock`. -/
def Blockchain.addTransaction (self : Blockchain) (transactionData : Json) (id iso : String)
    (now fuel : Nat) : Except Err TxResult × Blockchain :=
  match transactionData with
  | .null => (.error (.thrown typeErrorMsg), self)
  | _ =>
    if !truthy (transactionData.prop "description") || !truthy (transactionData.prop "amount") then
      (.error (.thrown validationMsg), self)
    else
      match self.addBlock (self.enhancedTransaction transactionData id iso) now fuel with
      | (.error e, s) => (.error e, s)
      | (.ok newBlock, s) =>
        (.ok { transaction := self.enhancedTransaction transactionData id iso, block := newBlock },
         { s with totalTransactions := s.totalTransactions + 1 })

/-- The object returned by `isValid()`. -/
structure Verdict where
  valid : Bool
  error : Option String := none
  blockIndex : Option Nat := none
  message : Option String := none
deriving DecidableEq, Repr

/-- Body of the loop of `isValid()` at position `i`: the verdict it returns, or `none`
when both checks pass and the loop goes on. -/
def Blockchain.checkBlock (chain : List Block) (i : Nat) : Option Verdict :=
  match chain[i]?, chain[i - 1]? with
  | some currentBlock, some previousBlock =>
    if currentBlock.hash != currentBlock.calculateHash then
      some { valid := false, error := some ("Invalid hash at block " ++ toString i),
             blockIndex := some i }
    else if currentBlock.prevHash != previousBlock.hash then
      some { valid := false, error := some ("Invalid previous hash at block " ++ toString i),
             blockIndex := some i }
    else none
  | _, _ => none

/-- Method `isValid()`: the loop over `i = 1, ..., chain.length - 1` returns at the first
failing check. -/
def Blockchain.isValid (self : Blockchain) : Verdict :=
  match (List.range' 1 (self.chain.length - 1)).findSome? (Blockchain.checkBlock self.chain) with
  | some verdict => verdict
  | none => { valid := true, message := some "Blockchain integrity verified" }

/-! ## Reachable ledgers -/

/-- Ledgers reached from `new Blockchain()` by calls of `addBlock` and `addTransaction`
that returned. -/
inductive Reachable : Blockchain → Prop where
  | fresh (iso : String) (now : Nat) : Reachable (Blockchain.new iso now)
  | addBlock {s : Blockchain} (data : Json) (now fuel : Nat) :
      Reachable s → (s.addBlock data now fuel).1.isOk = true →
      Reachable (s.addBlock data now fuel).2
  | addTransaction {s : Blockchain} (transactionData : Json) (id iso : String) (now fuel : Nat) :
      Reachable s → (s.addTransaction transactionData id iso now fuel).1.isOk = true →
      Reachable (s.addTransaction transactionData id iso now fuel).2

/-- The hash check of `isValid()` passes at position `i`. -/
def hashCheck (chain : List Block) (i : Nat) : Prop :=
  ∃ cur, chain[i]? = some cur ∧ cur.hash = cur.calculateHash

/-- The link check of `isValid()` passes at position `i`. -/
def linkCheck (chain : List Block) (i : Nat) : Prop :=
  ∃ cur prev, chain[i]? = some cur ∧ chain[i - 1]? = some prev ∧ cur.prevHash = prev.hash

/-! ## Tampering with a stored block -/

/-- An overwrite of one stored field of a block with the value `v`. -/
inductive Tamper where
  | index (v : Nat)
  | timestamp (v : Nat)
  | data (v : Json)
  | prevHash (v : String)
  | nonce (v : Nat)
  | hash (v : String)
  | validatedBy (v : String)

/-- The block after the overwrite. -/
def Block.tamper (b : Block) : Tamper → Block
  | .index v => { b with index := v }
  | .timestamp v => { b with timestamp := v }
  | .data v => { b with data := v }
  | .prevHash v => { b with prevHash := v }
  | .nonce v => { b with nonce := .num v }
  | .hash v => { b with hash := v }
  | .validatedBy v => { b with validatedBy := v }

/-- The overwrite stores a value different from the one the block held. -/
def Tamper.changes (b : Block) : Tamper → Prop
  | .index v => v ≠ b.index
  | .timestamp v => v ≠ b.timestamp
  | .data v => v ≠ b.data
  | .prevHash v => v ≠ b.prevHash
  | .nonce v => Nonce.num v ≠ b.nonce
  | .hash v => v ≠ b.hash
  | .validatedBy v => v ≠ b.validatedBy

/-- The overwrite shows in the hash check: it replaces the stored hash by a different
value, or it changes a hashed field so that the recomputed hash is no longer the one the
block had. An overwrite of `validatedBy` never does. -/
def Tamper.detectable (b : Block) : Tamper → Prop
  | .hash v => v ≠ b.hash
  | .validatedBy _ => False
  | .index v => (b.tamper (.index v)).calculateHash ≠ b.calculateHash
  | .timestamp v => (b.tamper (.timestamp v)).calculateHash ≠ b.calculateHash
  | .data v => (b.tamper (.data v)).calculateHash ≠ b.calculateHash
  | .prevHash v => (b.tamper (.prevHash v)).calculateHash ≠ b.calculateHash
  | .nonce v => (b.tamper (.nonce v)).calculateHash ≠ b.calculateHash

instance Tamper.decDetectable (b : Block) : (t : Tamper) → Decidable (t.detectable b)
  | .hash v => inferInstanceAs (Decidable (v ≠ b.hash))
  | .validatedBy _ => inferInstanceAs (Decidable False)
  | .index v =>
    inferInstanceAs (Decidable ((b.tamper (.index v)).calculateHash ≠ b.calculateHash))
  | .timestamp v =>
    inferInstanceAs (Decidable ((b.tamper (.timestamp v)).calculateHash ≠ b.calculateHash))
  | .data v =>
    inferInstanceAs (Decidable ((b.tamper (.data v)).calculateHash ≠ b.calculateHash))
  | .prevHash v =>
    inferInstanceAs (Decidable ((b.tamper (.prevHash v)).calculateHash ≠ b.calculateHash))
  | .nonce v =>
    inferInstanceAs (Decidable ((b.tamper (.nonce v)).calculateHash ≠ b.calculateHash))

/-- The ledger after the block at position `i` has been overwritten in place. -/
def Blockchain.tamperAt (self : Blockchain) (i : Nat) (t : Tamper) : Blockchain :=
  match self.chain[i]? with
  | some b => { self with chain := self.chain.set i (b.tamper t) }
  | none => self

/-! ## Concrete ledgers -/

/-- A ledger constructed on 2023-11-14 at 22:13:20 UTC. -/
def genesisLedger : Blockchain := Blockchain.new "2023-11-14T22:13:20.000Z" 1700000000000

/-- A transaction payload. -/
def rentPayload : Json := .obj [("description", .str "Office rent"), ("amount", .num 500)]

/-- A payload that carries a description and a numeric amount, the amount being 0. -/
def zeroAmountPayload : Json := .obj [("description", .str "Refund"), ("amount", .num 0)]

/-- A payload without an amount. -/
def noAmountPayload : Json := .obj [("description", .str "Office rent")]

/-- The rent payload with another amount. -/
def forgedPayload : Json := .obj [("description", .str "Office rent"), ("amount", .num 5)]

/-- The ledger after `addTransaction(rentPayload)` 1237 ms later: mining ends at nonce 1. -/
def minedLedger : Blockchain :=
  (genesisLedger.addTransaction rentPayload "0123456789ABCDEF0123456789ABCDEF"
    "2023-11-14T22:13:21.000Z" 1700000001237 8).2

/-- The ledger after `addTransaction(rentPayload)` 1042 ms later: the hash computed by the
constructor already starts with two zeros, so the mining loop is not entered. -/
def unminedLedger : Blockchain :=
  (genesisLedger.addTransaction rentPayload "0123456789ABCDEF0123456789ABCDEF"
    "2023-11-14T22:13:21.000Z" 1700000001042 8).2

/-! ## Decidable equality of payloads, blocks and ledgers -/

mutual
/-- Decision procedure for equality of JSON values. -/
def Json.decEq : (a b : Json) → Decidable (a = b)
  | .null, .null => isTrue rfl
  | .null, .bool _ => isFalse nofun
  | .null, .num _ => isFalse nofun
  | .null, .str _ => isFalse nofun
  | .null, .arr _ => isFalse nofun
  | .null, .obj _ => isFalse nofun
  | .bool _, .null => isFalse nofun
  | .bool x, .bool y =>
    if h : x = y then isTrue (congrArg Json.bool h) else isFalse (fun e => h (Json.bool.inj e))
  | .bool _, .num _ => isFalse nofun
  | .bool _, .str _ => isFalse nofun
  | .bool _, .arr _ => isFalse nofun
  | .bool _, .obj _ => isFalse nofun
  | .num _, .null => isFalse nofun
  | .num _, .bool _ => isFalse nofun
  | .num x, .num y =>
    if h : x = y then isTrue (congrArg Json.num h) else isFalse (fun e => h (Json.num.inj e))
  | .num _, .str _ => isFalse nofun
  | .num _, .arr _ => isFalse nofun
  | .num _, .obj _ => isFalse nofun
  | .str _, .null => isFalse nofun
  | .str _, .bool _ => isFalse nofun
  | .str _, .num _ => isFalse nofun
  | .str x, .str y =>
    if h : x = y then isTrue (congrArg Json.str h) else isFalse (fun e => h (Json.str.inj e))
  | .str _, .arr _ => isFalse nofun
  | .str _, .obj _ => isFalse nofun
  | .arr _, .null => isFalse nofun
  | .arr _, .bool _ => isFalse nofun
  | .arr _, .num _ => isFalse nofun
  | .arr _, .str _ => isFalse nofun
  | .arr xs, .arr ys =>
    match Json.decEqElems xs ys with
    | isTrue h => isTrue (congrArg Json.arr h)
    | isFalse h => isFalse (fun e => h (Json.arr.inj e))
  | .arr _, .obj _ => isFalse nofun
  | .obj _, .null => isFalse nofun
  | .obj _, .bool _ => isFalse nofun
  | .obj _, .num _ => isFalse nofun
  | .obj _, .str _ => isFalse nofun
  | .obj _, .arr _ => isFalse nofun
  | .obj xs, .obj ys =>
    match Json.decEqProps xs ys with
    | isTrue h => isTrue (congrArg Json.obj h)
    | isFalse h => isFalse (fun e => h (Json.obj.inj e))
/-- Decision procedure for equality of arrays. -/
def Json.decEqElems : (xs ys : List Json) → Decidable (xs = ys)
  | [], [] => isTrue rfl
  | [], _ :: _ => isFalse nofun
  | _ :: _, [] => isFalse nofun
  | x :: xs, y :: ys =>
    match Json.decEq x y, Json.decEqElems xs ys with
    | isTrue h, isTrue t => isTrue (by rw [h, t])
    | isFalse h, _ => isFalse (fun e => h (List.cons.inj e).1)
    | _, isFalse t => isFalse (fun e => t (List.cons.inj e).2)
/-- Decision procedure for equality of property lists. -/
def Json.decEqProps : (xs ys : List (String × Json)) → Decidable (xs = ys)
  | [], [] => isTrue rfl
  | [], _ :: _ => isFalse nofun
  | _ :: _, [] => isFalse nofun
  | (k, x) :: xs, (l, y) :: ys =>
    if hk : k = l then
      match Json.decEq x y, Json.decEqProps xs ys with
      | isTrue h, isTrue t => isTrue (by rw [hk, h, t])
      | isFalse h, _ => isFalse (fun e => h (Prod.mk.inj (List.cons.inj e).1).2)
      | _, isFalse t => isFalse (fun e => t (List.cons.inj e).2)
    else isFalse (fun e => hk (Prod.mk.inj (List.cons.inj e).1).1)
end

instance : DecidableEq Json := Json.decEq

deriving instance DecidableEq for Block

deriving instance DecidableEq for Blockchain

deriving instance DecidableEq for TxResult

deriving instance DecidableEq for Except

/-! ## Queries -/

/-- Message of the error of `getBlock`. -/
def outOfRangeMsg : String := "Block index out of range"

/-- Method `getBlock(index)` for an integer `index`; the value `none` is `undefined`. -/
def Blockchain.getBlock (self : Blockchain) (index : Int) : Except Err (Option Block) :=
  if index < 0 || index ≥ self.chain.length then .error (.thrown outOfRangeMsg)
  else .ok self.chain[index.toNat]?

/-- The object returned by `getStats()`. -/
structure Stats where
  totalBlocks : Nat
  totalTransactions : Nat
  latestBlockHash : String
  chainValid : Bool
  difficulty : Nat
  createdBy : String
deriving DecidableEq, Repr

/-- Method `getStats()`; reading `.hash` of the latest block throws on an empty chain. -/
def Blockchain.getStats (self : Blockchain) : Except Err Stats :=
  match self.getLatestBlock with
  | none => .error (.thrown typeErrorMsg)
  | some latest =>
    .ok { totalBlocks := self.chain.length,
          totalTransactions := self.totalTransactions,
          latestBlockHash := latest.hash,
          chainValid := self.isValid.valid,
          difficulty := self.difficulty,
          createdBy := "© Pranav Koradiya" }

/-! ## Ledgers with the number of calls that built them -/

/-- The ledger `s` is reached from `new Blockchain()` by `nb` calls of `addBlock` and `nt`
calls of `addTransaction` that returned, in any order. -/
inductive Built : Nat → Nat → Blockchain → Prop where
  | fresh (iso : String) (now : Nat) : Built 0 0 (Blockchain.new iso now)
  | addBlock {nb nt : Nat} {s : Blockchain} (data : Json) (now fuel : Nat) :
      Built nb nt s → (s.addBlock data now fuel).1.isOk = true →
      Built (nb + 1) nt (s.addBlock data now fuel).2
  | addTransaction {nb nt : Nat} {s : Blockchain} (transactionData : Json) (id iso : String)
      (now fuel : Nat) :
      Built nb nt s → (s.addTransaction transactionData id iso now fuel).1.isOk = true →
      Built nb (nt + 1) (s.addTransaction transactionData id iso now fuel).2

/-! ## More concrete inputs -/

/-- A payload that records an event and is no transaction. -/
def eventPayload : Json :=
  .obj [("type", .str "contract_executed"), ("contractId", .str "SC-001")]

/-- The ledger after `addBlock(eventPayload)` on the fresh ledger: mining ends at nonce 1. -/
def rawLedger : Blockchain := (genesisLedger.addBlock eventPayload 1700000002117 8).2

/-- The block `addBlock(eventPayload)` constructs on the fresh ledger, after one iteration
of the mining loop. -/
def rawBlock : Block :=
  (Block.new 1 1700000002117 eventPayload
    "c5b7d44f4247f80ca685431597f3b2af69284f4e3237483c54979fa8ed1b03a2").mineStep

/-- The rent payload with its two fields in the other order. -/
def reorderedPayload : Json := .obj [("amount", .num 500), ("description", .str "Office rent")]


/-! ## Read-only views: `getSummary` and `getAllBlocks` -/

/-- The largest time value of a `Date`, in milliseconds since the epoch. -/
def maxTime : Nat := 8640000000000000

/-- Decimal digits of `n`, padded with zeros on the left to at least `width` digits. -/
def padDigits (width n : Nat) : String :=
  String.mk (List.replicate (width - (toString n).length) '0') ++ toString n

/-- Year of the ISO format: four digits up to 9999, a sign and six digits above. -/
def isoYear (y : Nat) : String :=
  if y ≤ 9999 then padDigits 4 y else "+" ++ padDigits 6 y

/-- The string `new Date(t).toISOString()` for a time value `0 ≤ t ≤ maxTime`: the UTC
calendar date of day `t / 86400000` and the time of day, `YYYY-MM-DDTHH:mm:ss.sssZ`. -/
def isoString (t : Nat) : String :=
  let z := t / 86400000 + 719468
  let ms := t % 86400000
  let era := z / 146097
  let doe := z % 146097
  let yoe := (doe - doe / 1460 + doe / 36524 - doe / 146096) / 365
  let doy := doe - (365 * yoe + yoe / 4 - yoe / 100)
  let mp := (5 * doy + 2) / 153
  let d := doy - (153 * mp + 2) / 5 + 1
  let m := if mp < 10 then mp + 3 else mp - 9
  let y := if m ≤ 2 then yoe + era * 400 + 1 else yoe + era * 400
  isoYear y ++ "-" ++ padDigits 2 m ++ "-" ++ padDigits 2 d ++ "T" ++
    padDigits 2 (ms / 3600000) ++ ":" ++ padDigits 2 (ms / 60000 % 60) ++ ":" ++
    padDigits 2 (ms / 1000 % 60) ++ "." ++ padDigits 3 (ms % 1000) ++ "Z"

/-- The `length` of a JavaScript string: its number of UTF-16 code units. -/
def jsLength (s : String) : Nat :=
  s.data.foldl (fun n c => n + (if c.toNat < 65536 then 1 else 2)) 0

/-- The object returned by `getSummary()`. -/
structure Summary where
  index : Nat
  timestamp : String
  hash : String
  prevHash : String
  validatedBy : String
  transactionCount : Nat
  dataSize : Nat
deriving DecidableEq, Repr

/-- Message of the `RangeError` raised by `toISOString()` on an invalid date. -/
def invalidTimeMsg : String := "RangeError: Invalid time value"

/-- The value `Array.isArray(data) ? data.length : 1`. -/
def transactionCountOf : Json → Nat
  | .arr xs => xs.length
  | _ => 1

/-- Method `getSummary()`; `new Date(this.timestamp).toISOString()` throws when the
timestamp is not a valid time value. -/
def Block.getSummary (self : Block) : Except Err Summary :=
  if self.timestamp ≤ maxTime then
    .ok { index := self.index,
          timestamp := isoString self.timestamp,
          hash := self.hash,
          prevHash := self.prevHash,
          validatedBy := self.validatedBy,
          transactionCount := transactionCountOf self.data,
          dataSize := jsLength self.data.stringify }
  else .error (.thrown invalidTimeMsg)

/-- An element of the array returned by `getAllBlocks()`: the properties of the summary
followed by `data`. -/
structure BlockEntry extends Summary where
  data : Json
deriving DecidableEq

/-- The callback of `getAllBlocks()` mapped over the blocks in order; the first exception
ends the call. -/
def Blockchain.summaries : List Block → Except Err (List BlockEntry)
  | [] => .ok []
  | block :: rest =>
    match block.getSummary with
    | .error e => .error e
    | .ok summary =>
      match Blockchain.summaries rest with
      | .error e => .error e
      | .ok entries => .ok ({ summary with data := block.data } :: entries)

/-- Method `getAllBlocks()`. -/
def Blockchain.getAllBlocks (self : Blockchain) : Except Err (List BlockEntry) :=
  Blockchain.summaries self.chain

/-! ## `searchTransactions` -/

/-- The two library functions the search relies on: `String.prototype.toLowerCase` and
`Date.parse` (`none` is `NaN`, an invalid date). -/
structure Host where
  toLowerCase : String → String
  dateParse : String → Option Int

/-- Whether the characters `hay` begin with the characters `needle`. -/
def beginsWith : List Char → List Char → Bool
  | _, [] => true
  | [], _ :: _ => false
  | x :: xs, y :: ys => x == y && beginsWith xs ys

/-- Whether `needle` occurs in `hay` as a contiguous run of characters. -/
def includesChars : List Char → List Char → Bool
  | [], needle => beginsWith [] needle
  | x :: xs, needle => beginsWith (x :: xs) needle || includesChars xs needle

/-- JavaScript `hay.includes(needle)`. -/
def includes (hay needle : String) : Bool := includesChars hay.data needle.data

mutual
/-- String conversion `String(v)` of a value; an array is its elements joined by commas. -/
def Json.jsString : Json → String
  | .null => "null"
  | .bool b => if b then "true" else "false"
  | .num n => toString n
  | .str s => s
  | .arr xs => Json.joinElems xs
  | .obj _ => "[object Object]"
/-- The string `xs.join()`: `null` elements are written as the empty string. -/
def Json.joinElems : List Json → String
  | [] => ""
  | [x] => Json.joinElem x
  | x :: y :: xs => Json.joinElem x ++ "," ++ Json.joinElems (y :: xs)
/-- The text of one element in `join`. -/
def Json.joinElem : Json → String
  | .null => ""
  | .bool b => if b then "true" else "false"
  | .num n => toString n
  | .str s => s
  | .arr xs => Json.joinElems xs
  | .obj _ => "[object Object]"
end

/-- Time value of `new Date(v)` for a possibly undefined value `v`; `none` is an invalid
date. A string is parsed, `null` and booleans are converted to numbers, a number is
clipped to the range of time values, an array or object is converted to a string first. -/
def Host.timeValue (host : Host) : Option Json → Option Int
  | none => none
  | some .null => some 0
  | some (.bool b) => some (if b then 1 else 0)
  | some (.num n) => if n.natAbs ≤ maxTime then some n else none
  | some (.str s) => host.dateParse s
  | some (.arr xs) => host.dateParse (Json.arr xs).jsString
  | some (.obj kvs) => host.dateParse (Json.obj kvs).jsString

/-- The comparison `a < b` of two dates: false when one of them is invalid. -/
def dateLt : Option Int → Option Int → Bool
  | some x, some y => x < y
  | _, _ => false

/-- The argument of `searchTransactions`: each criterion is a string or absent. -/
structure Criteria where
  description : Option String := none
  accountType : Option String := none
  dateFrom : Option String := none
  dateTo : Option String := none

/-- An element of the array returned by `searchTransactions`. -/
structure SearchHit where
  blockIndex : Nat
  transaction : Json
  blockHash : String
deriving DecidableEq

/-- The guard `block.data && typeof block.data === object && block.data.type !== genesis`. -/
def searchable (data : Json) : Bool :=
  match data with
  | .obj _ => data.prop "type" != some (.str "genesis")
  | .arr _ => data.prop "type" != some (.str "genesis")
  | _ => false

/-- Message of the `TypeError` raised by calling `toLowerCase` on a value without it. -/
def notAFunctionMsg : String := "TypeError: block.data.description?.toLowerCase is not a function"

/-- The value of `!block.data.description?.toLowerCase().includes(c.toLowerCase())`:
an absent or `null` description ends the optional chain with `undefined`; a description
that is not a string has no `toLowerCase` and the call throws. -/
def Host.descriptionMisses (host : Host) (data : Json) (c : String) : Except Err Bool :=
  match data.prop "description" with
  | none => .ok true
  | some .null => .ok true
  | some (.str d) => .ok (!includes (host.toLowerCase d) (host.toLowerCase c))
  | some _ => .error (.thrown notAFunctionMsg)

/-- Whether a criterion is supplied: `undefined` and the empty string are falsy. -/
def supplied : Option String → Option String
  | some "" => none
  | c => c

/-- The four `if` statements of the search on one payload: the final value of `matches`,
or the exception of the description test. -/
def Host.matchesAll (host : Host) (criteria : Criteria) (data : Json) : Except Err Bool :=
  let byDescription : Except Err Bool :=
    match supplied criteria.description with
    | none => .ok true
    | some c =>
      match host.descriptionMisses data c with
      | .error e => .error e
      | .ok misses => .ok (!misses)
  let byAccountType : Bool :=
    match supplied criteria.accountType with
    | none => true
    | some a => !(data.prop "accountType" != some (.str a))
  let byDateFrom : Bool :=
    match supplied criteria.dateFrom with
    | none => true
    | some f => !dateLt (host.timeValue (data.prop "timestamp")) (host.timeValue (some (.str f)))
  let byDateTo : Bool :=
    match supplied criteria.dateTo with
    | none => true
    | some t => !dateLt (host.timeValue (some (.str t))) (host.timeValue (data.prop "timestamp"))
  match byDescription with
  | .error e => .error e
  | .ok m => .ok (m && byAccountType && byDateFrom && byDateTo)

/-- The entry pushed for a matching block. -/
def Block.hit (block : Block) : SearchHit :=
  { blockIndex := block.index, transaction := block.data, blockHash := block.hash }

/-- The callback of `forEach` on one block: the entry it pushes, if any. -/
def Host.visit (host : Host) (criteria : Criteria) (block : Block) :
    Except Err (Option SearchHit) :=
  if searchable block.data then
    match host.matchesAll criteria block.data with
    | .error e => .error e
    | .ok true => .ok (some block.hit)
    | .ok false => .ok none
  else .ok none

/-- The loop `chain.forEach(...)`: the entries pushed, in order. -/
def Host.scan (host : Host) (criteria : Criteria) : List Block → Except Err (List SearchHit)
  | [] => .ok []
  | block :: rest =>
    match host.visit criteria block with
    | .error e => .error e
    | .ok found =>
      match host.scan criteria rest with
      | .error e => .error e
      | .ok results => .ok (found.toList ++ results)

/-- Method `searchTransactions(criteria)`. -/
def Blockchain.searchTransactions (self : Blockchain) (host : Host) (criteria : Criteria) :
    Except Err (List SearchHit) :=
  host.scan criteria self.chain

/-- Digits of a decimal numeral; `none` when a character is not a digit. -/
def digitsValue : List Char → Option Nat
  | [] => some 0
  | cs => cs.foldl (fun acc c =>
      match acc with
      | some n => if c.isDigit then some (10 * n + (c.toNat - 48)) else none
      | none => none) (some 0)

/-- Days from the epoch to the civil date `y-m-d` (`y ≥ 1970`, `1 ≤ m ≤ 12`). -/
def daysFromCivil (y m d : Nat) : Nat :=
  let y1 := if m ≤ 2 then y - 1 else y
  let era := y1 / 400
  let yoe := y1 % 400
  let mp := (m + 9) % 12
  let doy := (153 * mp + 2) / 5 + d - 1
  era * 146097 + (yoe * 365 + yoe / 4 - yoe / 100 + doy) - 719468

/-- Parser of the two date formats used here: `YYYY-MM-DDTHH:mm:ss.sssZ`, as written by
`toISOString`, and the date-only `YYYY-MM-DD` (midnight UTC), for years 1970 to 9999. A
string is accepted only when `isoString` writes it back, so every accepted string is the
ISO text of the time value returned, as it is for `Date.parse`. -/
def isoParse (s : String) : Option Int :=
  let full := if s.length = 10 then s ++ "T00:00:00.000Z" else s
  let cs := full.data
  match digitsValue (cs.take 4), digitsValue ((cs.drop 5).take 2),
      digitsValue ((cs.drop 8).take 2), digitsValue ((cs.drop 11).take 2),
      digitsValue ((cs.drop 14).take 2), digitsValue ((cs.drop 17).take 2),
      digitsValue ((cs.drop 20).take 3) with
  | some y, some m, some d, some hh, some mm, some ss, some ms =>
    if 1970 ≤ y ∧ 1 ≤ m ∧ m ≤ 12 then
      let t := daysFromCivil y m d * 86400000 + hh * 3600000 + mm * 60000 + ss * 1000 + ms
      if isoString t = full then some (t : Int) else none
    else none
  | _, _, _, _, _, _, _ => none

/-- The host functions on ASCII text and on the two ISO date formats of `isoParse`. -/
def asciiHost : Host :=
  { toLowerCase := fun s => String.mk (s.data.map Char.toLower),
    dateParse := isoParse }

/-! ## `getRecentTransactions` -/

/-- JavaScript `xs.slice(start)` for an integer `start`: a negative `start` counts from
the end. -/
def jsSlice {α : Type} (xs : List α) (start : Int) : List α :=
  if start < 0 then xs.drop (xs.length - start.natAbs) else xs.drop start.toNat

/-- An element of the array returned by `getRecentTransactions`. -/
structure RecentEntry where
  blockIndex : Nat
  transaction : Json
  timestamp : Nat
  hash : String
deriving DecidableEq

/-- The filter `block => block.data.type !== genesis` over the blocks in order; reading
`type` on a `null` payload throws. -/
def Blockchain.nonGenesis : List Block → Except Err (List Block)
  | [] => .ok []
  | block :: rest =>
    match block.data with
    | .null => .error (.thrown typeErrorMsg)
    | data =>
      match Blockchain.nonGenesis rest with
      | .error e => .error e
      | .ok kept =>
        .ok (if data.prop "type" != some (.str "genesis") then block :: kept else kept)

/-- The entry built by the `map` callback of `getRecentTransactions`. -/
def Block.recent (block : Block) : RecentEntry :=
  { blockIndex := block.index, transaction := block.data, timestamp := block.timestamp,
    hash := block.hash }

/-- Method `getRecentTransactions(limit)` for an integer `limit`:
`chain.slice(-limit).filter(...).map(...).reverse()`. -/
def Blockchain.getRecentTransactions (self : Blockchain) (limit : Int) :
    Except Err (List RecentEntry) :=
  (Blockchain.nonGenesis (jsSlice self.chain (-limit))).map
    (fun kept => (kept.map Block.recent).reverse)

/-! ## Callers in the routes -/

/-- The object `executionData` built by `POST /:id/execute`. -/
def executionData (contractId executedBy executionDate : String) (amount : Int)
    (partyA partyB : String) : Json :=
  .obj [("type", .str "contract_execution"),
        ("contractId", .str contractId),
        ("executedBy", .str executedBy),
        ("executionDate", .str executionDate),
        ("amount", .num amount),
        ("parties", .arr [.str partyA, .str partyB])]

/-- The object `cancellationData` built by `POST /:id/cancel`; `reason` is the value read
from the request body, replaced by a default text when it is falsy. -/
def cancellationData (contractId cancelledBy cancellationDate : String)
    (reason : Option Json) : Json :=
  .obj [("type", .str "contract_cancellation"),
        ("contractId", .str contractId),
        ("cancelledBy", .str cancelledBy),
        ("cancellationDate", .str cancellationDate),
        ("reason", match reason with
          | some r => if truthy (some r) then r else .str "No reason provided"
          | none => .str "No reason provided")]

/-- An element of `details` in the report of `GET /verify`. -/
structure BlockVerification where
  blockIndex : Nat
  hashValid : Bool
  linkValid : Bool
  timestamp : Nat
  status : String
  error : Option String
deriving DecidableEq

/-- Body of the loop of `GET /verify` at position `i`: the entry pushed to `details`. -/
def verifyBlock (chain : List Block) (i : Nat) : Option BlockVerification :=
  match chain[i]?, chain[i - 1]? with
  | some currentBlock, some previousBlock =>
    let hashValid := currentBlock.hash == currentBlock.calculateHash
    let linkValid := currentBlock.prevHash == previousBlock.hash
    if !hashValid then
      some { blockIndex := i, hashValid := hashValid, linkValid := linkValid,
             timestamp := currentBlock.timestamp, status := "invalid",
             error := some "Hash mismatch" }
    else if !linkValid then
      some { blockIndex := i, hashValid := hashValid, linkValid := linkValid,
             timestamp := currentBlock.timestamp, status := "invalid",
             error := some "Previous hash mismatch" }
    else
      some { blockIndex := i, hashValid := hashValid, linkValid := linkValid,
             timestamp := currentBlock.timestamp, status := "valid", error := none }
  | _, _ => none

/-- The array `details` of the report of `GET /verify`: one entry for each
`i = 1, ..., chain.length - 1`. -/
def verifyDetails (self : Blockchain) : List BlockVerification :=
  (List.range' 1 (self.chain.length - 1)).filterMap (verifyBlock self.chain)

/-! ## Matching of a payload, stated without the control flow of the search -/

/-- Whether the description of a payload is a string that contains the criterion, both
lower-cased. -/
def Host.describedBy (host : Host) (data : Json) (c : String) : Bool :=
  match data.prop "description" with
  | some (.str d) => includes (host.toLowerCase d) (host.toLowerCase c)
  | _ => false

/-- Whether a payload matches every supplied criterion: its description contains the
description criterion, case ignored; its account type is the account type asked for; its
timestamp is not before `dateFrom` and not after `dateTo`. -/
def Host.payloadMatches (host : Host) (criteria : Criteria) (data : Json) : Bool :=
  (match supplied criteria.description with
    | none => true
    | some c => host.describedBy data c) &&
  (match supplied criteria.accountType with
    | none => true
    | some a => data.prop "accountType" == some (.str a)) &&
  (match supplied criteria.dateFrom with
    | none => true
    | some f => !dateLt (host.timeValue (data.prop "timestamp")) (host.dateParse f)) &&
  (match supplied criteria.dateTo with
    | none => true
    | some t => !dateLt (host.dateParse t) (host.timeValue (data.prop "timestamp")))

/-- Whether the description of a payload is a string, `null` or absent. -/
def textDescription (data : Json) : Bool :=
  match data.prop "description" with
  | none => true
  | some .null => true
  | some (.str _) => true
  | some _ => false

/-- Whether a payload is not `null` and its `type` is not `genesis`. -/
def untagged (data : Json) : Bool :=
  match data with
  | .null => false
  | _ => data.prop "type" != some (.str "genesis")

/-- A date criterion together with the time value it stands for: the criterion is absent
and there is no bound, or it is a non-empty string that parses to the bound. -/
def Host.parsesTo (host : Host) (c : Option String) (bound : Option Int) : Prop :=
  match c with
  | none => bound = none
  | some s => s ≠ "" ∧ bound ≠ none ∧ host.dateParse s = bound

/-! ## Concrete ledgers for the queries -/

/-- A transaction payload whose `type` is `genesis`. -/
def taggedPayload : Json :=
  .obj [("type", .str "genesis"), ("description", .str "Office rent"), ("amount", .num 500)]

/-- The ledger after `addTransaction(taggedPayload)` on the fresh ledger. -/
def taggedLedger : Blockchain :=
  (genesisLedger.addTransaction taggedPayload "0123456789ABCDEF0123456789ABCDEF"
    "2023-11-14T22:13:21.000Z" 1700000001492 8).2

/-- A second transaction payload. -/
def fuelPayload : Json :=
  .obj [("description", .str "Fuel invoice"), ("amount", .num 120),
        ("accountType", .str "expense")]

/-- A third transaction payload. -/
def dutyPayload : Json :=
  .obj [("description", .str "Customs duty"), ("amount", .num 75),
        ("accountType", .str "expense")]

/-- The ledger `minedLedger` after `addTransaction(fuelPayload)` on 2023-11-15. -/
def twoLedger : Blockchain :=
  (minedLedger.addTransaction fuelPayload "1111111111111111AAAAAAAAAAAAAAAA"
    "2023-11-15T08:00:00.000Z" 1700035200069 8).2

/-- The ledger `twoLedger` after `addTransaction(dutyPayload)` on 2023-11-16: the genesis
block followed by three transactions. -/
def threeLedger : Blockchain :=
  (twoLedger.addTransaction dutyPayload "2222222222222222BBBBBBBBBBBBBBBB"
    "2023-11-16T09:30:00.000Z" 1700127000191 8).2

/-- The three transaction blocks of `threeLedger`, written out. -/
def rentBlock : Block :=
  { index := 1, timestamp := 1700000001237,
    data := .obj [("description", .str "Office rent"), ("amount", .num 500),
      ("id", .str "0123456789ABCDEF0123456789ABCDEF"),
      ("timestamp", .str "2023-11-14T22:13:21.000Z"), ("blockIndex", .num 1),
      ("status", .str "validated"),
      ("signature", .str "e0f11d80b1b5c74def7868c8c4ebc8a1f04dca092d7029027c9502dac6a9bc6a")],
    prevHash := "c5b7d44f4247f80ca685431597f3b2af69284f4e3237483c54979fa8ed1b03a2",
    hash := "00c74b29b30b4f1da3d8b9c911af0fa33b079d2945e9ca4feed0cf57cefbfae8",
    validatedBy := "© Pranav Koradiya", nonce := .num 1 }

/-- The block of the second transaction of `threeLedger`. -/
def fuelBlock : Block :=
  { index := 2, timestamp := 1700035200069,
    data := .obj [("description", .str "Fuel invoice"), ("amount", .num 120),
      ("accountType", .str "expense"), ("id", .str "1111111111111111AAAAAAAAAAAAAAAA"),
      ("timestamp", .str "2023-11-15T08:00:00.000Z"), ("blockIndex", .num 2),
      ("status", .str "validated"),
      ("signature", .str "2857db4d60eb6e23b837925784905593687fad21c8b359839ec18627297fe23d")],
    prevHash := "00c74b29b30b4f1da3d8b9c911af0fa33b079d2945e9ca4feed0cf57cefbfae8",
    hash := "0063ca2b7cfd36adecb68c21788ba74b8597af0fac60e3185bd9d2cfd6e16724",
    validatedBy := "© Pranav Koradiya", nonce := .num 1 }

/-- The block of the third transaction of `threeLedger`. -/
def dutyBlock : Block :=
  { index := 3, timestamp := 1700127000191,
    data := .obj [("description", .str "Customs duty"), ("amount", .num 75),
      ("accountType", .str "expense"), ("id", .str "2222222222222222BBBBBBBBBBBBBBBB"),
      ("timestamp", .str "2023-11-16T09:30:00.000Z"), ("blockIndex", .num 3),
      ("status", .str "validated"),
      ("signature", .str "64bfc4d2dd06fbad610e958e4845e44d50ead9506e8245636a1326f1c06d5136")],
    prevHash := "0063ca2b7cfd36adecb68c21788ba74b8597af0fac60e3185bd9d2cfd6e16724",
    hash := "00ab09e05f519a4616992e4c265878574634cfec25d9d037fb3e99507c85b112",
    validatedBy := "© Pranav Koradiya", nonce := .num 1 }

/-- A block whose payload is a sequence of two records. -/
def batchBlock : Block := Block.new 1 1700000001237 (.arr [rentPayload, forgedPayload]) "00ab"

/-- The block appended to make `taggedLedger`, written out. -/
def taggedBlock : Block :=
  { index := 1, timestamp := 1700000001492,
    data := .obj [("type", .str "genesis"), ("description", .str "Office rent"),
      ("amount", .num 500), ("id", .str "0123456789ABCDEF0123456789ABCDEF"),
      ("timestamp", .str "2023-11-14T22:13:21.000Z"), ("blockIndex", .num 1),
      ("status", .str "validated"),
      ("signature", .str "254cde6ca78c1e37ec841259bdb399f664d3aa078e98708858202db69a21de93")],
    prevHash := "c5b7d44f4247f80ca685431597f3b2af69284f4e3237483c54979fa8ed1b03a2",
    hash := "005ae0ef90e8066377f450e2ff97aa8cc4906fd53ef3300deda85466ae80098f",
    validatedBy := "© Pranav Koradiya", nonce := .num 1 }

/-- The first block of `genesisLedger`. -/
def firstBlock : Block :=
  Blockchain.createGenesisBlock "2023-11-14T22:13:20.000Z" 1700000000000


/-! ## The mining loop, iteration by iteration -/

/-- The block after `k` iterations of the loop of `mineBlock`. -/
def Block.mineIter (self : Block) : Nat → Block
  | 0 => self
  | k + 1 => self.mineStep.mineIter k

/-- Whether the loop condition of `mineBlock(difficulty)` is false after `k` iterations:
the hash then starts with `difficulty` zeros. -/
def Block.solvedAt (self : Block) (difficulty k : Nat) : Bool :=
  substring0 (self.mineIter k).hash difficulty == target difficulty

/-- A transaction payload whose description is a number. -/
def numberPayload : Json := .obj [("description", .num 5), ("amount", .num 1)]

/-- The ledger after `addTransaction(numberPayload)` on the fresh ledger. -/
def numberLedger : Blockchain :=
  (genesisLedger.addTransaction numberPayload "0123456789ABCDEF0123456789ABCDEF"
    "2023-11-14T22:13:21.000Z" 1700000001444 8).2

/-- The block appended to make `numberLedger`, written out. -/
def numberBlock : Block :=
  { index := 1, timestamp := 1700000001444,
    data := .obj [("description", .num 5), ("amount", .num 1),
      ("id", .str "0123456789ABCDEF0123456789ABCDEF"),
      ("timestamp", .str "2023-11-14T22:13:21.000Z"), ("blockIndex", .num 1),
      ("status", .str "validated"),
      ("signature", .str "af630e971b2d45b93cb51d01a1d24fc33ce2c104f018f0cf6e337d56722cd728")],
    prevHash := "c5b7d44f4247f80ca685431597f3b2af69284f4e3237483c54979fa8ed1b03a2",
    hash := "00ee4b253d07916c9651d257b3fc45c769f84d0183ecc8fe7f9bcc7660550c7d",
    validatedBy := "© Pranav Koradiya", nonce := .num 1 }

/-! ## Mining and appending -/

theorem mineStep_fields (b : Block) :
    b.mineStep.index = b.index ∧ b.mineStep.timestamp = b.timestamp ∧
    b.mineStep.data = b.data ∧ b.mineStep.prevHash = b.prevHash ∧
    b.mineStep.validatedBy = b.validatedBy := by
  simp [Block.mineStep]

/-- Mining only touches `nonce` and `hash`. -/
theorem mineBlock_fields {b m : Block} {d fuel : Nat} (h : b.mineBlock d fuel = some m) :
    m.index = b.index ∧ m.timestamp = b.timestamp ∧ m.data = b.data ∧
    m.prevHash = b.prevHash ∧ m.validatedBy = b.validatedBy := by
  induction fuel generalizing b with
  | zero =>
    simp only [Block.mineBlock] at h
    split at h
    · cases h
    · cases h; simp
  | succ n ih =>
    simp only [Block.mineBlock] at h
    split at h
    · have h1 := ih h
      have h2 := mineStep_fields b
      simp only [h1, h2, and_self]
    · cases h; simp

/-- A call of `addBlock` that returns has appended the mined block. -/
theorem addBlock_ok {s : Blockchain} {data : Json} {now fuel : Nat}
    (h : (s.addBlock data now fuel).1.isOk = true) :
    ∃ prev m, s.getLatestBlock = some prev ∧
      (Block.new s.chain.length now data prev.hash).mineBlock s.difficulty fuel = some m ∧
      s.addBlock data now fuel = (.ok m, { s with chain := s.chain ++ [m] }) := by
  unfold Blockchain.addBlock at h ⊢
  cases hl : s.getLatestBlock with
  | none => simp [hl, Except.isOk, Except.toBool] at h
  | some prev =>
    simp only [hl] at h ⊢
    cases hm : (Block.new s.chain.length now data prev.hash).mineBlock s.difficulty fuel with
    | none => simp [hm, Except.isOk, Except.toBool] at h
    | some m => exact ⟨prev, m, rfl, hm, rfl⟩

/-- A call of `addBlock` that does not return leaves the ledger as it was. -/
theorem addBlock_error {s : Blockchain} {data : Json} {now fuel : Nat}
    (h : (s.addBlock data now fuel).1.isOk = false) :
    (s.addBlock data now fuel).2 = s := by
  unfold Blockchain.addBlock at h ⊢
  cases hl : s.getLatestBlock with
  | none => rfl
  | some prev =>
    simp only [hl] at h ⊢
    cases hm : (Block.new s.chain.length now data prev.hash).mineBlock s.difficulty fuel with
    | none => rfl
    | some m => simp [hm, Except.isOk, Except.toBool] at h

/-- A call of `addTransaction` that returns has run `addBlock` on the decorated payload
and incremented the counter. -/
theorem addTransaction_ok {s : Blockchain} {td : Json} {id iso : String} {now fuel : Nat}
    (h : (s.addTransaction td id iso now fuel).1.isOk = true) :
    (s.addBlock (s.enhancedTransaction td id iso) now fuel).1.isOk = true ∧
      (s.addTransaction td id iso now fuel).2 =
        { (s.addBlock (s.enhancedTransaction td id iso) now fuel).2 with
          totalTransactions :=
            (s.addBlock (s.enhancedTransaction td id iso) now fuel).2.totalTransactions + 1 } := by
  unfold Blockchain.addTransaction at h ⊢
  split at h
  · simp [Except.isOk, Except.toBool] at h
  · split at h
    · simp [Except.isOk, Except.toBool] at h
    · rename_i hcond
      simp only [hcond, if_false]
      rcases hres : s.addBlock (s.enhancedTransaction td id iso) now fuel with ⟨r, s1⟩
      cases r with
      | error e => simp [hres, Except.isOk, Except.toBool] at h
      | ok b => simp [hres, Except.isOk, Except.toBool]

/-! ## The link invariant -/

theorem linkCheck_append {chain : List Block} {prev m : Block}
    (hl : chain[chain.length - 1]? = some prev) (hm : m.prevHash = prev.hash)
    (hinv : ∀ i, 1 ≤ i → i < chain.length → linkCheck chain i) :
    ∀ i, 1 ≤ i → i < (chain ++ [m]).length → linkCheck (chain ++ [m]) i := by
  intro i h1 hlt
  have hne : 0 < chain.length := by
    rcases Nat.eq_zero_or_pos chain.length with h0 | h0
    · have : chain = [] := List.length_eq_zero.mp h0
      subst this
      simp at hl
    · exact h0
  simp only [List.length_append, List.length_singleton] at hlt
  by_cases hi : i < chain.length
  · obtain ⟨cur, prv, hc, hp, hcp⟩ := hinv i h1 hi
    refine ⟨cur, prv, ?_, ?_, hcp⟩
    · rw [List.getElem?_append_left hi]; exact hc
    · rw [List.getElem?_append_left (by omega)]; exact hp
  · have hieq : i = chain.length := by omega
    subst hieq
    refine ⟨m, prev, ?_, ?_, hm⟩
    · simp
    · rw [List.getElem?_append_left (by omega)]; exact hl

/-- Every reachable ledger has a non-empty chain in which each block points to the hash
of its predecessor. -/
theorem reachable_linked {s : Blockchain} (h : Reachable s) :
    s.chain ≠ [] ∧ ∀ i, 1 ≤ i → i < s.chain.length → linkCheck s.chain i := by
  induction h with
  | fresh iso now =>
    refine ⟨by simp [Blockchain.new], ?_⟩
    intro i h1 hlt
    simp [Blockchain.new] at hlt
    omega
  | addBlock data now fuel _ hok ih =>
    obtain ⟨prev, m, hl, hm, heq⟩ := addBlock_ok hok
    rw [heq]
    refine ⟨by simp, ?_⟩
    have hp : m.prevHash = prev.hash := by
      rw [(mineBlock_fields hm).2.2.2.1]; rfl
    exact linkCheck_append hl hp ih.2
  | addTransaction td id iso now fuel _ hok ih =>
    obtain ⟨hok1, heq1⟩ := addTransaction_ok hok
    obtain ⟨prev, m, hl, hm, heq⟩ := addBlock_ok hok1
    rw [heq1, heq]
    refine ⟨by simp, ?_⟩
    have hp : m.prevHash = prev.hash := by
      rw [(mineBlock_fields hm).2.2.2.1]; rfl
    exact linkCheck_append hl hp ih.2

/-! ## Test vectors of the digest -/

theorem sha256Hex_abc :
    sha256Hex "abc" = "ba7816bf8f01cfea414140de5dae2223b00361a396177a9cb410ff61f20015ad" := by
  decide!

theorem sha256Hex_empty :
    sha256Hex "" = "e3b0c44298fc1c149afbf4c8996fb92427ae41e4649b934ca495991b7852b855" := by
  decide!

theorem sha256Hex_two_blocks :
    sha256Hex "abcdbcdecdefdefgefghfghighijhijkijkljklmklmnlmnomnopnopq" =
      "248d6a61d20638b8e5c026930c3e6039a33ce45964ff2167f6ecedd419db06c1" := by
  decide!

/-! ## The concrete ledgers are reachable -/

theorem genesisLedger_reachable : Reachable genesisLedger :=
  Reachable.fresh _ _

theorem minedLedger_reachable : Reachable minedLedger :=
  Reachable.addTransaction rentPayload "0123456789ABCDEF0123456789ABCDEF"
    "2023-11-14T22:13:21.000Z" 1700000001237 8 genesisLedger_reachable (by decide!)

theorem unminedLedger_reachable : Reachable unminedLedger :=
  Reachable.addTransaction rentPayload "0123456789ABCDEF0123456789ABCDEF"
    "2023-11-14T22:13:21.000Z" 1700000001042 8 genesisLedger_reachable (by decide!)

/-! ## Claims -/

/-- C1 (defect in the code): `isValid()` on an untouched chain should return valid, but on
the reachable ledger `unminedLedger`, whose block 1 was appended by `addTransaction` and
never modified, it returns `valid = false` with `Invalid hash at block 1`: the hash the
constructor computed (over an unassigned nonce) already met the difficulty, so mining
never recomputed it. -/
theorem isValid_rejects_untouched_ledger :
    Reachable unminedLedger ∧
    unminedLedger.isValid =
      { valid := false, error := some "Invalid hash at block 1", blockIndex := some 1 } :=
  ⟨unminedLedger_reachable, by decide!⟩

/-- C2: in every reachable ledger, for every `i` with `1 ≤ i < chain.length`,
`chain[i].prevHash` equals `chain[i-1].hash`. -/
theorem reachable_prevHash_eq (s : Blockchain) (h : Reachable s) (i : Nat) (h1 : 1 ≤ i)
    (hlt : i < s.chain.length) :
    ∃ cur prev, s.chain[i]? = some cur ∧ s.chain[i - 1]? = some prev ∧
      cur.prevHash = prev.hash :=
  (reachable_linked h).2 i h1 hlt

/-- Witness of C2 on the ledger with one mined transaction block. -/
theorem reachable_prevHash_eq_witness :
    ∃ cur prev, minedLedger.chain[1]? = some cur ∧ minedLedger.chain[1 - 1]? = some prev ∧
      cur.prevHash = prev.hash :=
  reachable_prevHash_eq minedLedger minedLedger_reachable 1 (by decide) (by decide!)

/-- C3 (defect in the code): the stored hash of every block, genesis included, should
equal the recomputed one, but the genesis block of a fresh ledger stores the hash the
constructor computed before `nonce` was assigned, and `calculateHash()` gives another
value. -/
theorem genesis_hash_differs_from_recomputed :
    Reachable genesisLedger ∧
    genesisLedger.chain.map (fun b => (b.index, b.hash, b.calculateHash)) =
      [(0, "c5b7d44f4247f80ca685431597f3b2af69284f4e3237483c54979fa8ed1b03a2",
           "d9348c512acd592a0ae11d305b49c2dac1bfb04466b369834b63776da2a91c8f")] :=
  ⟨genesisLedger_reachable, by decide!⟩

/-- C4 (defect in the code): a newly constructed block should store the hash computed
with nonce 0, but `new Block(7, 1700000000000, rentPayload, 00ab)` has `nonce = 0` and a
`hash` that is the digest of the input ending in `undefined`, not `calculateHash()`. -/
theorem constructor_hash_differs_from_calculateHash :
    (Block.new 7 1700000000000 rentPayload "00ab").nonce = Nonce.num 0 ∧
    (Block.new 7 1700000000000 rentPayload "00ab").hash =
      "f680820f525535d72cb97e2332616852d69a5d7d632c5bfa752aba9150d3e96a" ∧
    (Block.new 7 1700000000000 rentPayload "00ab").hash =
      sha256Hex ("7" ++ "00ab" ++ rentPayload.stringify ++ "1700000000000" ++ "undefined") ∧
    (Block.new 7 1700000000000 rentPayload "00ab").calculateHash =
      "2964722c362f23fce061542be6722bc077f4fd6998416e573b2ab4c537149c26" := by
  decide!

/-! ## The validation loop -/

/-- First hit of a search over `a, a+1, ..., a+n-1`. -/
theorem findSome_range'_eq_some {β : Type} (f : Nat → Option β) (a n : Nat) (v : β) :
    (List.range' a n).findSome? f = some v ↔
      ∃ i, a ≤ i ∧ i < a + n ∧ f i = some v ∧ ∀ j, a ≤ j → j < i → f j = none := by
  induction n generalizing a with
  | zero =>
    simp only [List.range'_zero, List.findSome?_nil, Nat.add_zero]
    constructor
    · intro h; cases h
    · rintro ⟨i, h1, h2, _⟩; omega
  | succ n ih =>
    rw [List.range'_succ, List.findSome?_cons]
    cases hfa : f a with
    | some w =>
      simp only
      constructor
      · intro h
        refine ⟨a, Nat.le_refl _, by omega, ?_, ?_⟩
        · rw [hfa]; exact h
        · intro j h1 h2; omega
      · rintro ⟨i, h1, _, hfi, hbefore⟩
        rcases Nat.eq_or_lt_of_le h1 with heq | hlt
        · subst heq; rw [hfa] at hfi; exact hfi
        · have := hbefore a (Nat.le_refl _) hlt
          rw [hfa] at this; cases this
    | none =>
      simp only
      rw [ih (a + 1)]
      constructor
      · rintro ⟨i, h1, h2, hfi, hbefore⟩
        refine ⟨i, by omega, by omega, hfi, ?_⟩
        intro j hj1 hj2
        rcases Nat.eq_or_lt_of_le hj1 with heq | hlt
        · subst heq; exact hfa
        · exact hbefore j hlt hj2
      · rintro ⟨i, h1, h2, hfi, hbefore⟩
        have hne : i ≠ a := by
          intro heq; subst heq; rw [hfa] at hfi; cases hfi
        refine ⟨i, by omega, by omega, hfi, ?_⟩
        intro j hj1 hj2
        exact hbefore j (by omega) hj2

/-- The loop body lets position `i` pass exactly when both checks hold there. -/
theorem checkBlock_eq_none_iff (chain : List Block) (i : Nat) (h1 : 1 ≤ i)
    (hlt : i < chain.length) :
    Blockchain.checkBlock chain i = none ↔ hashCheck chain i ∧ linkCheck chain i := by
  have hc : chain[i]? = some chain[i] := List.getElem?_eq_getElem hlt
  have hp : chain[i - 1]? = some (chain[i - 1]) := List.getElem?_eq_getElem (by omega)
  unfold Blockchain.checkBlock hashCheck linkCheck
  rw [hc, hp]
  simp only [Option.some.injEq, exists_eq_left', bne_iff_ne, ne_eq, ite_not]
  by_cases hh : chain[i].hash = chain[i].calculateHash
  · by_cases hl : chain[i].prevHash = chain[i - 1].hash
    · simp [hh, hl]
    · simp [hh, hl]
  · simp [hh]

/-- Every verdict the loop body returns is a failure at its own position. -/
theorem checkBlock_eq_some (chain : List Block) (i : Nat) (v : Verdict)
    (h : Blockchain.checkBlock chain i = some v) :
    v.valid = false ∧ v.blockIndex = some i ∧
    (¬ hashCheck chain i → v.error = some ("Invalid hash at block " ++ toString i)) ∧
    (hashCheck chain i → v.error = some ("Invalid previous hash at block " ++ toString i)) := by
  unfold Blockchain.checkBlock at h
  unfold hashCheck
  split at h
  · rename_i cur prev hc hp
    simp only [hc, Option.some.injEq, exists_eq_left']
    split at h
    · rename_i hne
      simp only [bne_iff_ne, ne_eq] at hne
      cases h
      simp [hne]
    · rename_i hne
      simp only [bne_iff_ne, ne_eq, not_not] at hne
      split at h
      · cases h
        simp [hne]
      · cases h
  · cases h

/-- The verdict of `isValid()`: either every position passes, or it is the verdict of the
loop body at the first position that does not. -/
theorem isValid_cases (s : Blockchain) :
    ((∀ i, 1 ≤ i → i < s.chain.length → Blockchain.checkBlock s.chain i = none) ∧
      s.isValid = { valid := true, message := some "Blockchain integrity verified" }) ∨
    (∃ i v, 1 ≤ i ∧ i < s.chain.length ∧ Blockchain.checkBlock s.chain i = some v ∧
      (∀ j, 1 ≤ j → j < i → Blockchain.checkBlock s.chain j = none) ∧ s.isValid = v) := by
  unfold Blockchain.isValid
  cases hf : (List.range' 1 (s.chain.length - 1)).findSome? (Blockchain.checkBlock s.chain) with
  | none =>
    left
    refine ⟨?_, rfl⟩
    intro i h1 hlt
    rw [List.findSome?_eq_none_iff] at hf
    exact hf i (List.mem_range'_1.mpr ⟨h1, by omega⟩)
  | some v =>
    right
    obtain ⟨i, h1, h2, hfi, hbefore⟩ := (findSome_range'_eq_some _ _ _ _).mp hf
    exact ⟨i, v, h1, by omega, hfi, hbefore, rfl⟩

/-- A chain in which position `i` fails and the positions before it pass gets the verdict
of the loop body at `i`. -/
theorem isValid_eq_of_first (s : Blockchain) (i : Nat) (v : Verdict) (h1 : 1 ≤ i)
    (hlt : i < s.chain.length) (hfi : Blockchain.checkBlock s.chain i = some v)
    (hbefore : ∀ j, 1 ≤ j → j < i → Blockchain.checkBlock s.chain j = none) :
    s.isValid = v := by
  unfold Blockchain.isValid
  have : (List.range' 1 (s.chain.length - 1)).findSome? (Blockchain.checkBlock s.chain)
      = some v :=
    (findSome_range'_eq_some _ _ _ _).mpr ⟨i, h1, by omega, hfi, hbefore⟩
  rw [this]

theorem isValid_valid_iff_checks (s : Blockchain) :
    s.isValid.valid = true ↔
      ∀ i, 1 ≤ i → i < s.chain.length → hashCheck s.chain i ∧ linkCheck s.chain i := by
  rcases isValid_cases s with ⟨hall, heq⟩ | ⟨i, v, h1, hlt, hfi, _, heq⟩
  · rw [heq]
    simp only [true_iff]
    intro i h1 hlt
    exact (checkBlock_eq_none_iff s.chain i h1 hlt).mp (hall i h1 hlt)
  · rw [heq]
    have hv := (checkBlock_eq_some s.chain i v hfi).1
    simp only [hv, Bool.false_eq_true, false_iff]
    intro hall
    have := (checkBlock_eq_none_iff s.chain i h1 hlt).mpr (hall i h1 hlt)
    rw [this] at hfi
    cases hfi

/-- The hash a block recomputes does not read its `hash` and `validatedBy` fields. -/
theorem calculateHash_congr {b c : Block} (hi : b.index = c.index) (hp : b.prevHash = c.prevHash)
    (hd : b.data = c.data) (ht : b.timestamp = c.timestamp) (hn : b.nonce = c.nonce) :
    b.calculateHash = c.calculateHash := by
  unfold Block.calculateHash
  rw [hi, hp, hd, ht, hn]

/-- A detectable overwrite of a block whose stored hash was the recomputed one leaves a
block whose stored hash is not. -/
theorem tamper_hash_ne {b : Block} {t : Tamper} (hb : b.hash = b.calculateHash)
    (hd : t.detectable b) : (b.tamper t).hash ≠ (b.tamper t).calculateHash := by
  cases t with
  | hash v =>
    have : (b.tamper (.hash v)).calculateHash = b.calculateHash :=
      calculateHash_congr rfl rfl rfl rfl rfl
    rw [this, ← hb]
    exact hd
  | validatedBy v => exact hd.elim
  | index v => intro h; exact hd (by rw [← h, ← hb]; rfl)
  | timestamp v => intro h; exact hd (by rw [← h, ← hb]; rfl)
  | data v => intro h; exact hd (by rw [← h, ← hb]; rfl)
  | prevHash v => intro h; exact hd (by rw [← h, ← hb]; rfl)
  | nonce v => intro h; exact hd (by rw [← h, ← hb]; rfl)

/-- The loop body reads positions `j` and `j - 1` only. -/
theorem checkBlock_congr {chain chain' : List Block} {j : Nat} (hj : chain'[j]? = chain[j]?)
    (hp : chain'[j - 1]? = chain[j - 1]?) :
    Blockchain.checkBlock chain' j = Blockchain.checkBlock chain j := by
  unfold Blockchain.checkBlock
  rw [hj, hp]

/-- The errors of `addBlock` are the `TypeError` on an empty chain and the exhausted
mining budget. -/
theorem addBlock_thrownMsg (s : Blockchain) (data : Json) (now fuel : Nat) :
    (s.chain = [] ∧ thrownMsg (s.addBlock data now fuel).1 = some typeErrorMsg) ∨
    (s.chain ≠ [] ∧ thrownMsg (s.addBlock data now fuel).1 = none) := by
  unfold Blockchain.addBlock Blockchain.getLatestBlock
  cases hc : s.chain with
  | nil => left; simp [thrownMsg]
  | cons b rest =>
    right
    refine ⟨by simp, ?_⟩
    have hlt : (b :: rest).length - 1 < (b :: rest).length := by simp
    rw [List.getElem?_eq_getElem hlt]
    simp only
    split <;> rfl

/-- C6 (counterexample): the payload `{description: Refund, amount: 0}` carries a
description and a numeric amount, and `addTransaction` throws the validation error on
it. -/
theorem addTransaction_rejects_zero_amount :
    zeroAmountPayload.prop "description" = some (.str "Refund") ∧
    zeroAmountPayload.prop "amount" = some (.num 0) ∧
    thrownMsg (genesisLedger.addTransaction zeroAmountPayload
      "0123456789ABCDEF0123456789ABCDEF" "2023-11-14T22:13:21.000Z" 1700000001237 8).1
      = some validationMsg :=
  ⟨rfl, rfl, by decide!⟩

/-- C6 (amended): `addTransaction` throws its validation error exactly when the payload is
not `null` and its description or its amount is falsy (absent, `null`, `false`, 0 or the
empty string); a payload whose description and amount are both truthy is accepted: on a
non-empty chain the call does not throw. -/
theorem addTransaction_throws_iff_falsy (s : Blockchain) (td : Json) (id iso : String)
    (now fuel : Nat) :
    (thrownMsg (s.addTransaction td id iso now fuel).1 = some validationMsg ↔
      td ≠ .null ∧
        (truthy (td.prop "description") = false ∨ truthy (td.prop "amount") = false)) ∧
    (truthy (td.prop "description") = true → truthy (td.prop "amount") = true →
      s.chain ≠ [] → thrownMsg (s.addTransaction td id iso now fuel).1 = none) := by
  have hmsg : typeErrorMsg ≠ validationMsg := by decide
  have key : td ≠ .null →
      (truthy (td.prop "description") = false ∨ truthy (td.prop "amount") = false) →
      (s.addTransaction td id iso now fuel).1 = .error (.thrown validationMsg) := by
    intro hnn hf
    unfold Blockchain.addTransaction
    split
    · exact absurd rfl hnn
    · have : (!truthy (td.prop "description") || !truthy (td.prop "amount")) = true := by
        rcases hf with h | h <;> simp [h]
      rw [if_pos this]
  have pass : truthy (td.prop "description") = true → truthy (td.prop "amount") = true →
      thrownMsg (s.addTransaction td id iso now fuel).1 =
        thrownMsg (s.addBlock (s.enhancedTransaction td id iso) now fuel).1 := by
    intro hd ha
    unfold Blockchain.addTransaction
    split
    · simp [Json.prop, truthy] at hd
    · have : ¬ (!truthy (td.prop "description") || !truthy (td.prop "amount")) = true := by
        simp [hd, ha]
      rw [if_neg this]
      rcases s.addBlock (s.enhancedTransaction td id iso) now fuel with ⟨r, s1⟩
      cases r with
      | error e => cases e <;> simp [thrownMsg]
      | ok b => simp [thrownMsg]
  refine ⟨⟨?_, ?_⟩, ?_⟩
  · intro h
    by_cases hnull : td = .null
    · subst hnull
      simp [Blockchain.addTransaction, thrownMsg] at h
      exact absurd h hmsg
    · refine ⟨hnull, ?_⟩
      by_cases hd : truthy (td.prop "description") = true
      · by_cases ha : truthy (td.prop "amount") = true
        · rw [pass hd ha] at h
          rcases addBlock_thrownMsg s (s.enhancedTransaction td id iso) now fuel with
            ⟨_, h2⟩ | ⟨_, h2⟩
          · rw [h2] at h
            simp only [Option.some.injEq] at h
            exact absurd h hmsg
          · rw [h2] at h; cases h
        · right; simpa using ha
      · left; simpa using hd
  · rintro ⟨hnn, hf⟩
    rw [key hnn hf]
    rfl
  · intro hd ha hne
    rw [pass hd ha]
    rcases addBlock_thrownMsg s (s.enhancedTransaction td id iso) now fuel with
      ⟨h1, _⟩ | ⟨_, h2⟩
    · exact absurd h1 hne
    · exact h2

/-- C7: whenever `addTransaction` throws, the ledger after the call is the ledger before
it: chain, `totalTransactions` and `difficulty` are unchanged. -/
theorem addTransaction_throw_unchanged (s : Blockchain) (td : Json) (id iso : String)
    (now fuel : Nat) (msg : String)
    (h : thrownMsg (s.addTransaction td id iso now fuel).1 = some msg) :
    (s.addTransaction td id iso now fuel).2 = s := by
  unfold Blockchain.addTransaction at h ⊢
  split
  · rfl
  · split
    · rfl
    · rename_i hnn hcond
      simp only [hcond, if_false] at h
      have herr := @addBlock_error s (s.enhancedTransaction td id iso) now fuel
      rcases hres : s.addBlock (s.enhancedTransaction td id iso) now fuel with ⟨r, s1⟩
      rw [hres] at h herr
      cases r with
      | error e => exact herr rfl
      | ok b => simp [thrownMsg] at h

/-- Witness of C7: a payload without an amount, submitted to the fresh ledger. -/
theorem addTransaction_throw_unchanged_witness :
    (genesisLedger.addTransaction noAmountPayload "0123456789ABCDEF0123456789ABCDEF"
      "2023-11-14T22:13:21.000Z" 1700000001237 8).2 = genesisLedger :=
  addTransaction_throw_unchanged genesisLedger noAmountPayload
    "0123456789ABCDEF0123456789ABCDEF" "2023-11-14T22:13:21.000Z" 1700000001237 8
    validationMsg (by decide!)

/-- The ledger `minedLedger` is accepted, has a block 1, and forging the payload of that
block changes the hash recomputed from it. -/
theorem minedLedger_forgery :
    minedLedger.isValid.valid = true ∧
    ∃ h : 1 < minedLedger.chain.length,
      Tamper.detectable minedLedger.chain[1] (.data forgedPayload) := by
  decide!

/-- C8 (counterexample): on the reachable ledger `minedLedger`, which `isValid()` accepts,
overwriting the attribution field of block 1 with another value, or the timestamp of
block 0 with another value, still gives `valid = true`. -/
theorem tamper_undetected :
    Reachable minedLedger ∧
    minedLedger.chain.map (fun b => (b.index, b.timestamp, b.validatedBy)) =
      [(0, 1700000000000, "© Pranav Koradiya"), (1, 1700000001237, "© Pranav Koradiya")] ∧
    (minedLedger.tamperAt 1 (.validatedBy "Mallory")).chain.map
        (fun b => (b.index, b.timestamp, b.validatedBy)) =
      [(0, 1700000000000, "© Pranav Koradiya"), (1, 1700000001237, "Mallory")] ∧
    (minedLedger.tamperAt 1 (.validatedBy "Mallory")).isValid.valid = true ∧
    (minedLedger.tamperAt 0 (.timestamp 0)).chain.map
        (fun b => (b.index, b.timestamp, b.validatedBy)) =
      [(0, 0, "© Pranav Koradiya"), (1, 1700000001237, "© Pranav Koradiya")] ∧
    (minedLedger.tamperAt 0 (.timestamp 0)).isValid.valid = true :=
  ⟨minedLedger_reachable, by decide!⟩

/-- C8 (amended): on a ledger that `isValid()` accepts, overwriting the stored hash of the
block at a position `i ≥ 1` with a different value, or overwriting its index, timestamp,
payload, previous hash or nonce with a value under which the recomputed hash changes,
makes `isValid()` return `valid = false` with `Invalid hash at block i` and
`blockIndex = i`. -/
theorem tamper_detected (s : Blockchain) (i : Nat) (t : Tamper)
    (hv : s.isValid.valid = true) (h1 : 1 ≤ i) (hlt : i < s.chain.length)
    (hd : t.detectable s.chain[i]) :
    (s.tamperAt i t).isValid =
      { valid := false, error := some ("Invalid hash at block " ++ toString i),
        blockIndex := some i } := by
  have hci : s.chain[i]? = some s.chain[i] := List.getElem?_eq_getElem hlt
  have hpi : s.chain[i - 1]? = some s.chain[i - 1] := List.getElem?_eq_getElem (by omega)
  have hall := (isValid_valid_iff_checks s).mp hv
  obtain ⟨⟨cur, hcur, hhash⟩, _⟩ := hall i h1 hlt
  rw [hci] at hcur
  cases hcur
  have hne := tamper_hash_ne hhash hd
  have hchain : (s.tamperAt i t).chain = s.chain.set i (s.chain[i].tamper t) := by
    unfold Blockchain.tamperAt
    rw [hci]
  apply isValid_eq_of_first (s.tamperAt i t) i _ h1
  · rw [hchain, List.length_set]; exact hlt
  · rw [hchain]
    unfold Blockchain.checkBlock
    rw [List.getElem?_set_self hlt, List.getElem?_set_ne (by omega), hpi]
    simp only [bne_iff_ne, ne_eq, hne, not_false_eq_true, if_true]
  · intro j hj1 hj2
    rw [hchain]
    rw [checkBlock_congr (List.getElem?_set_ne (by omega)) (List.getElem?_set_ne (by omega))]
    exact (checkBlock_eq_none_iff s.chain j hj1 (by omega)).mpr (hall j hj1 (by omega))

/-- Witness of C8 (amended): the amount of the transaction in block 1 of `minedLedger` is
overwritten. -/
theorem tamper_detected_witness :
    (minedLedger.tamperAt 1 (.data forgedPayload)).isValid =
      { valid := false, error := some ("Invalid hash at block " ++ toString 1),
        blockIndex := some 1 } :=
  match minedLedger_forgery with
  | ⟨hv, hlt, hd⟩ => tamper_detected minedLedger 1 (.data forgedPayload) hv (by decide) hlt hd

/-- C9: `isValid()` returns `valid = true` if and only if for every `i` with
`1 ≤ i ≤ chain.length - 1` both checks pass: the stored hash of `chain[i]` is the hash
recomputed from its fields, and `chain[i].prevHash` is `chain[i-1].hash`. -/
theorem isValid_valid_iff (s : Blockchain) :
    s.isValid.valid = true ↔
      ∀ i, 1 ≤ i → i ≤ s.chain.length - 1 →
        (∃ cur, s.chain[i]? = some cur ∧ cur.hash = cur.calculateHash) ∧
        (∃ cur prev, s.chain[i]? = some cur ∧ s.chain[i - 1]? = some prev ∧
          cur.prevHash = prev.hash) := by
  rw [isValid_valid_iff_checks]
  constructor
  · intro h i h1 hle
    exact h i h1 (by omega)
  · intro h i h1 hlt
    exact h i h1 (by omega)

/-- C10: when `isValid()` returns `valid = false`, the reported `blockIndex` is the
smallest `i ≥ 1` at which the hash check or the link check fails, and the error names the
hash mismatch when the hash check fails at `i` and the previous-hash mismatch
otherwise. -/
theorem isValid_reports_first_failure (s : Blockchain) (h : s.isValid.valid = false) :
    ∃ i, s.isValid.blockIndex = some i ∧ 1 ≤ i ∧ i < s.chain.length ∧
      ¬ (hashCheck s.chain i ∧ linkCheck s.chain i) ∧
      (∀ j, 1 ≤ j → j < i → hashCheck s.chain j ∧ linkCheck s.chain j) ∧
      (¬ hashCheck s.chain i →
        s.isValid.error = some ("Invalid hash at block " ++ toString i)) ∧
      (hashCheck s.chain i →
        s.isValid.error = some ("Invalid previous hash at block " ++ toString i)) := by
  rcases isValid_cases s with ⟨_, heq⟩ | ⟨i, v, h1, hlt, hfi, hbefore, heq⟩
  · rw [heq] at h
    cases h
  · rw [heq]
    obtain ⟨_, hidx, herr1, herr2⟩ := checkBlock_eq_some s.chain i v hfi
    refine ⟨i, hidx, h1, hlt, ?_, ?_, herr1, herr2⟩
    · intro hboth
      have := (checkBlock_eq_none_iff s.chain i h1 hlt).mpr hboth
      rw [this] at hfi
      cases hfi
    · intro j hj1 hj2
      exact (checkBlock_eq_none_iff s.chain j hj1 (by omega)).mp (hbefore j hj1 hj2)

/-- Witness of C10: the ledger whose block 1 kept the hash of its constructor. -/
theorem isValid_reports_first_failure_witness :
    ∃ i, unminedLedger.isValid.blockIndex = some i ∧ 1 ≤ i ∧ i < unminedLedger.chain.length ∧
      ¬ (hashCheck unminedLedger.chain i ∧ linkCheck unminedLedger.chain i) ∧
      (∀ j, 1 ≤ j → j < i → hashCheck unminedLedger.chain j ∧ linkCheck unminedLedger.chain j) ∧
      (¬ hashCheck unminedLedger.chain i →
        unminedLedger.isValid.error = some ("Invalid hash at block " ++ toString i)) ∧
      (hashCheck unminedLedger.chain i →
        unminedLedger.isValid.error = some ("Invalid previous hash at block " ++ toString i)) :=
  isValid_reports_first_failure unminedLedger (by decide!)

/-! ## Queries and further invariants -/

/-- Mining ends only on a hash whose first `d` characters are zeros. -/
theorem mineBlock_target {b m : Block} {d fuel : Nat} (h : b.mineBlock d fuel = some m) :
    substring0 m.hash d = target d := by
  induction fuel generalizing b with
  | zero =>
    simp only [Block.mineBlock] at h
    split at h
    · cases h
    · rename_i hc
      cases h
      simpa using hc
  | succ n ih =>
    simp only [Block.mineBlock] at h
    split at h
    · exact ih h
    · rename_i hc
      cases h
      simpa using hc

/-- A mining run that ends within a budget ends the same way within any larger one. -/
theorem mineBlock_mono {b m : Block} {d fuel : Nat} (h : b.mineBlock d fuel = some m)
    (k : Nat) : b.mineBlock d (fuel + k) = some m := by
  induction fuel generalizing b with
  | zero =>
    simp only [Block.mineBlock] at h
    split at h
    · cases h
    · rename_i hc
      cases h
      cases k with
      | zero => simp only [Block.mineBlock, hc]; rfl
      | succ k => simp only [Nat.zero_add, Block.mineBlock, hc]; rfl
  | succ n ih =>
    rw [Nat.add_right_comm]
    simp only [Block.mineBlock] at h ⊢
    split at h
    · rename_i hc
      rw [if_pos hc]
      exact ih h
    · rename_i hc
      cases h
      rw [if_neg hc]

/-- Every reachable ledger has difficulty 2. -/
theorem reachable_difficulty {s : Blockchain} (h : Reachable s) : s.difficulty = 2 := by
  induction h with
  | fresh iso now => rfl
  | addBlock data now fuel _ hok ih =>
    obtain ⟨prev, m, _, _, heq⟩ := addBlock_ok hok
    rw [heq]; exact ih
  | addTransaction td id iso now fuel _ hok ih =>
    obtain ⟨hok1, heq1⟩ := addTransaction_ok hok
    obtain ⟨prev, m, _, _, heq⟩ := addBlock_ok hok1
    rw [heq1, heq]; exact ih

/-- The block at position 0 and the index of every block survive an append. -/
theorem index_append {chain : List Block} {m : Block} (hm : m.index = chain.length)
    (hinv : ∀ (i : Nat) (b : Block), chain[i]? = some b → b.index = i) :
    ∀ (i : Nat) (b : Block), (chain ++ [m])[i]? = some b → b.index = i := by
  intro i b hb
  by_cases hi : i < chain.length
  · rw [List.getElem?_append_left hi] at hb
    exact hinv i b hb
  · rw [List.getElem?_append_right (by omega)] at hb
    have h0 : i - chain.length = 0 := by
      by_contra hne
      have h1 : 1 ≤ i - chain.length := by omega
      rw [List.getElem?_eq_none (by simpa using h1)] at hb
      cases hb
    rw [h0] at hb
    simp only [List.getElem?_cons_zero, Option.some.injEq] at hb
    subst hb
    omega

/-- Every reachable ledger starts with a genesis block and numbers its blocks by
position. -/
theorem reachable_indexed {s : Blockchain} (h : Reachable s) :
    (∃ iso now, s.chain[0]? = some (Blockchain.createGenesisBlock iso now)) ∧
    ∀ (i : Nat) (b : Block), s.chain[i]? = some b → b.index = i := by
  induction h with
  | fresh iso now =>
    refine ⟨⟨iso, now, rfl⟩, ?_⟩
    intro i b hb
    cases i with
    | zero =>
      simp only [Blockchain.new, List.getElem?_cons_zero, Option.some.injEq] at hb
      subst hb; rfl
    | succ n => simp [Blockchain.new] at hb
  | addBlock data now fuel _ hok ih =>
    obtain ⟨prev, m, hl, hm, heq⟩ := addBlock_ok hok
    rw [heq]
    obtain ⟨⟨iso0, now0, hg⟩, hidx⟩ := ih
    have hlen : 0 < _ := (List.getElem?_eq_some.mp hg).1
    refine ⟨⟨iso0, now0, ?_⟩, ?_⟩
    · simp only
      rw [List.getElem?_append_left hlen]; exact hg
    · exact index_append (by rw [(mineBlock_fields hm).1]; rfl) hidx
  | addTransaction td id iso now fuel _ hok ih =>
    obtain ⟨hok1, heq1⟩ := addTransaction_ok hok
    obtain ⟨prev, m, hl, hm, heq⟩ := addBlock_ok hok1
    rw [heq1, heq]
    obtain ⟨⟨iso0, now0, hg⟩, hidx⟩ := ih
    have hlen : 0 < _ := (List.getElem?_eq_some.mp hg).1
    refine ⟨⟨iso0, now0, ?_⟩, ?_⟩
    · simp only
      rw [List.getElem?_append_left hlen]; exact hg
    · exact index_append (by rw [(mineBlock_fields hm).1]; rfl) hidx


/-- Facts about `rawLedger`, evaluated once: the call that built it returned the block
`rawBlock`, which mining reached from the constructed block, which is the second block of
the chain and whose hash starts with two zeros; the counter is still 0. -/
theorem rawLedger_facts :
    (genesisLedger.addBlock eventPayload 1700000002117 8).1 = .ok rawBlock ∧
    (Block.new 1 1700000002117 eventPayload
      "c5b7d44f4247f80ca685431597f3b2af69284f4e3237483c54979fa8ed1b03a2").mineBlock 2 8
      = some rawBlock ∧
    rawLedger.chain[1]? = some rawBlock ∧
    rawBlock.hash = "00c4d864352bf3771bd658819cb760692aef80de794900aeda1b9f814c015d20" ∧
    rawBlock.nonce = .num 1 ∧
    rawLedger.chain.length = 2 ∧ rawLedger.totalTransactions = 0 ∧
    rawLedger.isValid.valid = true := by
  decide!

theorem rawLedger_reachable : Reachable rawLedger :=
  Reachable.addBlock eventPayload 1700000002117 8 genesisLedger_reachable
    (by rw [rawLedger_facts.1]; rfl)

/-! ## Claims on queries, mining, genesis and indices -/

/-- C11: for every chain and every integer index, `getBlock(index)` throws if and only if
`index < 0` or `index ≥ chain.length`; otherwise it returns `chain[index]`. So
`getBlock(chain.length)` throws, `getBlock(0)` returns the first block of a non-empty
chain, and on a reachable ledger that block is the genesis block. -/
theorem getBlock_throws_iff (s : Blockchain) (index : Int) :
    (s.getBlock index = .error (.thrown outOfRangeMsg) ↔
      index < 0 ∨ index ≥ s.chain.length) ∧
    ((s.getBlock index).isOk = false ↔ index < 0 ∨ index ≥ s.chain.length) ∧
    (0 ≤ index → index < s.chain.length →
      ∃ b, s.chain[index.toNat]? = some b ∧ s.getBlock index = .ok (some b)) ∧
    s.getBlock s.chain.length = .error (.thrown outOfRangeMsg) ∧
    (∀ g, s.chain[0]? = some g → s.getBlock 0 = .ok (some g)) ∧
    (Reachable s →
      ∃ iso now, s.getBlock 0 = .ok (some (Blockchain.createGenesisBlock iso now))) := by
  have hthrow : ∀ j : Int, (j < 0 ∨ j ≥ s.chain.length) →
      s.getBlock j = .error (.thrown outOfRangeMsg) := by
    intro j hj
    unfold Blockchain.getBlock
    rw [if_pos (by simpa using hj)]
  have hret : ∀ j : Int, ¬ (j < 0 ∨ j ≥ s.chain.length) →
      s.getBlock j = .ok s.chain[j.toNat]? := by
    intro j hj
    unfold Blockchain.getBlock
    rw [if_neg (by simpa using hj)]
  have hzero : ∀ g, s.chain[0]? = some g → s.getBlock 0 = .ok (some g) := by
    intro g hg
    have hlen : 0 < s.chain.length := (List.getElem?_eq_some.mp hg).1
    rw [hret 0 (by omega)]
    simp only [Int.toNat_zero]
    rw [hg]
  refine ⟨⟨?_, hthrow index⟩, ⟨?_, ?_⟩, ?_, hthrow _ (Or.inr (Int.le_refl _)), hzero, ?_⟩
  · intro h
    by_contra hc
    rw [hret index hc] at h
    cases h
  · intro h
    by_contra hc
    rw [hret index hc] at h
    cases h
  · intro h
    rw [hthrow index h]
    rfl
  · intro h0 hlt
    have hlt' : index.toNat < s.chain.length := by omega
    refine ⟨s.chain[index.toNat], List.getElem?_eq_getElem hlt', ?_⟩
    rw [hret index (by omega), List.getElem?_eq_getElem hlt']
  · intro hr
    obtain ⟨iso, now, hg⟩ := (reachable_indexed hr).1
    exact ⟨iso, now, hzero _ hg⟩

/-- C12: whenever `mineBlock(d)` returns, the first `d` characters of the hash of the
block are all zeros; so every block that `addBlock` appends to a reachable ledger (whose
difficulty is 2) has a hash with two leading zeros. -/
theorem mined_hash_leading_zeros :
    (∀ (b : Block) (d fuel : Nat) (m : Block), b.mineBlock d fuel = some m →
      m.hash.data.take d = List.replicate d '0') ∧
    (∀ (s : Blockchain) (data : Json) (now fuel : Nat) (blk : Block), Reachable s →
      (s.addBlock data now fuel).1 = .ok blk →
      s.difficulty = 2 ∧ (s.addBlock data now fuel).2.chain = s.chain ++ [blk] ∧
      blk.hash.data.take 2 = ['0', '0']) := by
  have part1 : ∀ (b : Block) (d fuel : Nat) (m : Block), b.mineBlock d fuel = some m →
      m.hash.data.take d = List.replicate d '0' := by
    intro b d fuel m h
    have := mineBlock_target h
    unfold substring0 target at this
    exact congrArg String.data this
  refine ⟨part1, ?_⟩
  intro s data now fuel blk hr hok
  have hisOk : (s.addBlock data now fuel).1.isOk = true := by rw [hok]; rfl
  obtain ⟨prev, m, _, hm, heq⟩ := addBlock_ok hisOk
  have hd := reachable_difficulty hr
  rw [heq] at hok ⊢
  cases hok
  rw [hd] at hm
  exact ⟨hd, rfl, part1 _ _ _ _ hm⟩

/-- Witness of C12: the block mined by `addBlock(eventPayload)` on the fresh ledger. -/
theorem mined_hash_leading_zeros_witness :
    rawBlock.hash.data.take 2 = List.replicate 2 '0' ∧
    (genesisLedger.difficulty = 2 ∧
      (genesisLedger.addBlock eventPayload 1700000002117 8).2.chain
        = genesisLedger.chain ++ [rawBlock] ∧
      rawBlock.hash.data.take 2 = ['0', '0']) :=
  ⟨mined_hash_leading_zeros.1 _ 2 8 rawBlock rawLedger_facts.2.1,
   mined_hash_leading_zeros.2 genesisLedger eventPayload 1700000002117 8 rawBlock
     genesisLedger_reachable rawLedger_facts.1⟩

/-- C13 (counterexample): the fresh ledger `genesisLedger` has difficulty 2, and the hash of
its genesis block starts with `c5`, not with two zeros. -/
theorem genesis_hash_not_mined :
    genesisLedger.difficulty = 2 ∧
    genesisLedger.chain.map (fun b => (b.index, b.nonce, b.hash.data.take 2)) =
      [(0, .num 0, ['c', '5'])] ∧
    List.replicate 2 '0' ≠ ['c', '5'] := by
  decide!

/-- C13 (amended): the genesis block of every newly constructed Blockchain is not mined:
`chain[0]` is the block as its constructor leaves it, with nonce 0 and, as hash, the
digest the constructor computed (over the input that ends in `undefined`). -/
theorem genesis_block_as_constructed (iso : String) (now : Nat) :
    (Blockchain.new iso now).chain = [Blockchain.createGenesisBlock iso now] ∧
    (Blockchain.createGenesisBlock iso now).nonce = .num 0 ∧
    (Blockchain.createGenesisBlock iso now).hash =
      sha256Hex ("0" ++ "0" ++ (Blockchain.createGenesisBlock iso now).data.stringify
        ++ toString now ++ "undefined") := by
  have h0 : toString (0 : Nat) = "0" := by decide
  refine ⟨rfl, rfl, ?_⟩
  rw [← h0]
  rfl

/-- C14: every reachable ledger has a non-empty chain with `chain[i].index = i` at every
position `i`, and `chain[0]` is the genesis block: index 0, previous hash `0`, payload
type `genesis`. -/
theorem reachable_index_eq (s : Blockchain) (h : Reachable s) :
    s.chain ≠ [] ∧
    (∀ (i : Nat) (b : Block), s.chain[i]? = some b → b.index = i) ∧
    ∃ g, s.chain[0]? = some g ∧ g.index = 0 ∧ g.prevHash = "0" ∧
      g.data.prop "type" = some (.str "genesis") := by
  obtain ⟨⟨iso, now, hg⟩, hidx⟩ := reachable_indexed h
  exact ⟨(reachable_linked h).1, hidx, _, hg, rfl, rfl, rfl⟩

/-- Witness of C14: the ledger with one block appended by `addBlock`. -/
theorem reachable_index_eq_witness :
    rawLedger.chain ≠ [] ∧
    (∀ (i : Nat) (b : Block), rawLedger.chain[i]? = some b → b.index = i) ∧
    ∃ g, rawLedger.chain[0]? = some g ∧ g.index = 0 ∧ g.prevHash = "0" ∧
      g.data.prop "type" = some (.str "genesis") :=
  reachable_index_eq rawLedger rawLedger_reachable

/-! ## Properties of the decorated payload -/

/-- A property that has just been assigned reads back the assigned value. -/
theorem prop_setProp_self (kvs : List (String × Json)) (k : String) (v : Json) :
    (Json.obj (setProp kvs k v)).prop k = some v := by
  induction kvs with
  | nil => simp [setProp, Json.prop]
  | cons kv rest ih =>
    obtain ⟨k1, w⟩ := kv
    simp only [Json.prop] at ih ⊢
    by_cases hk : (k1 == k) = true
    · simp [setProp, hk]
    · simp only [setProp, hk, Bool.false_eq_true, if_false]
      rw [List.find?_cons_of_neg _ (by simpa using hk)]
      exact ih

/-- An assignment leaves the other properties as they were. -/
theorem prop_setProp_ne (kvs : List (String × Json)) (k key : String) (v : Json)
    (h : key ≠ k) : (Json.obj (setProp kvs k v)).prop key = (Json.obj kvs).prop key := by
  induction kvs with
  | nil =>
    have : (k == key) = false := by simpa using fun e => h e.symm
    simp [setProp, Json.prop, this]
  | cons kv rest ih =>
    obtain ⟨k1, w⟩ := kv
    simp only [Json.prop] at ih ⊢
    cases hkey : (k1 == key) with
    | true =>
      have hk1 : k1 = key := by simpa using hkey
      have hk : (k1 == k) = false := by
        simp only [beq_eq_false_iff_ne, ne_eq]
        intro e
        exact h (by rw [← hk1, e])
      simp [setProp, hk, List.find?_cons, hkey]
    | false =>
      cases hk : (k1 == k) with
      | true => simp [setProp, hk, List.find?_cons, hkey]
      | false =>
        simp only [setProp, hk, Bool.false_eq_true, if_false, List.find?_cons, hkey]
        exact ih

/-- A value with a truthy property is an object. -/
theorem obj_of_truthy_prop {td : Json} {key : String} (h : truthy (td.prop key) = true) :
    ∃ kvs, td = .obj kvs := by
  cases td with
  | obj kvs => exact ⟨kvs, rfl⟩
  | null => simp [Json.prop, truthy] at h
  | bool b => simp [Json.prop, truthy] at h
  | num n => simp [Json.prop, truthy] at h
  | str s => simp [Json.prop, truthy] at h
  | arr xs => simp [Json.prop, truthy] at h

/-- A call of `addTransaction` that returns has passed the validation and returns the
decorated payload with the block `addBlock` returned for it. -/
theorem addTransaction_ok_result {s : Blockchain} {td : Json} {id iso : String}
    {now fuel : Nat} (h : (s.addTransaction td id iso now fuel).1.isOk = true) :
    truthy (td.prop "description") = true ∧ truthy (td.prop "amount") = true ∧
    ∃ b, s.addBlock (s.enhancedTransaction td id iso) now fuel
        = (.ok b, { s with chain := s.chain ++ [b] }) ∧
      s.addTransaction td id iso now fuel =
        (.ok { transaction := s.enhancedTransaction td id iso, block := b },
         { s with chain := s.chain ++ [b], totalTransactions := s.totalTransactions + 1 }) := by
  unfold Blockchain.addTransaction at h ⊢
  split at h
  · simp [Except.isOk, Except.toBool] at h
  · split at h
    · simp [Except.isOk, Except.toBool] at h
    · rename_i hcond
      have hboth : truthy (td.prop "description") = true ∧ truthy (td.prop "amount") = true := by
        simpa using hcond
      refine ⟨hboth.1, hboth.2, ?_⟩
      simp only [hcond, if_false]
      rcases hres : s.addBlock (s.enhancedTransaction td id iso) now fuel with ⟨r, s1⟩
      rw [hres] at h
      cases r with
      | error e => simp [Except.isOk, Except.toBool] at h
      | ok b =>
        have hok : (s.addBlock (s.enhancedTransaction td id iso) now fuel).1.isOk = true := by
          rw [hres]; rfl
        obtain ⟨prev, m, _, _, heq⟩ := addBlock_ok hok
        rw [hres] at heq
        cases heq
        exact ⟨_, rfl, rfl⟩

/-- The data of a block that `addBlock` returns is the payload it was given, and its index
is the length of the chain before the call. -/
theorem addBlock_ok_fields {s : Blockchain} {data : Json} {now fuel : Nat} {b : Block}
    {s1 : Blockchain} (h : s.addBlock data now fuel = (.ok b, s1)) :
    b.data = data ∧ b.index = s.chain.length ∧
    ∃ prev, s.chain[s.chain.length - 1]? = some prev ∧ b.prevHash = prev.hash := by
  have hok : (s.addBlock data now fuel).1.isOk = true := by rw [h]; rfl
  obtain ⟨prev, m, hl, hm, heq⟩ := addBlock_ok hok
  rw [h] at heq
  cases heq
  obtain ⟨h1, _, h3, h4, _⟩ := mineBlock_fields hm
  exact ⟨by rw [h3]; rfl, by rw [h1]; rfl, prev, hl, by rw [h4]; rfl⟩

/-! ## Claims on the results of appends and on the counter -/

/-- A call of `addTransaction` that returns has returned `{transaction, block}` where
`block` is the new last block of the chain, `block.data` is the returned decorated
transaction, `transaction.blockIndex = block.index` = the chain length before the call,
`transaction.status` is `validated`, and every field of the submitted payload other than
the five assigned ones is carried over unchanged. -/
theorem addTransaction_result_of_ok (s : Blockchain) (td : Json) (id iso : String) (now fuel : Nat)
    (h : (s.addTransaction td id iso now fuel).1.isOk = true) :
    ∃ r, (s.addTransaction td id iso now fuel).1 = .ok r ∧
      (s.addTransaction td id iso now fuel).2.chain = s.chain ++ [r.block] ∧
      (s.addTransaction td id iso now fuel).2.chain.getLast? = some r.block ∧
      r.block.data = r.transaction ∧
      r.transaction.prop "blockIndex" = some (.num s.chain.length) ∧
      r.block.index = s.chain.length ∧
      r.transaction.prop "status" = some (.str "validated") ∧
      ∀ key, key ∉ ["id", "timestamp", "blockIndex", "status", "signature"] →
        r.transaction.prop key = td.prop key := by
  obtain ⟨hd, _, b, hadd, heq⟩ := addTransaction_ok_result h
  obtain ⟨kvs, htd⟩ := obj_of_truthy_prop hd
  obtain ⟨hdata, hidx, _⟩ := addBlock_ok_fields hadd
  rw [heq]
  refine ⟨_, rfl, rfl, List.getLast?_concat _, hdata, ?_, hidx, ?_, ?_⟩
  · simp only [Blockchain.enhancedTransaction]
    rw [prop_setProp_ne _ _ _ _ (by decide), prop_setProp_ne _ _ _ _ (by decide),
      prop_setProp_self]
  · simp only [Blockchain.enhancedTransaction]
    rw [prop_setProp_ne _ _ _ _ (by decide), prop_setProp_self]
  · intro key hkey
    simp only [List.mem_cons, List.mem_singleton, List.not_mem_nil, or_false, not_or] at hkey
    obtain ⟨h1, h2, h3, h4, h5⟩ := hkey
    simp only [Blockchain.enhancedTransaction]
    rw [prop_setProp_ne _ _ _ _ h5, prop_setProp_ne _ _ _ _ h4, prop_setProp_ne _ _ _ _ h3,
      prop_setProp_ne _ _ _ _ h2, prop_setProp_ne _ _ _ _ h1, htd]
    rfl

/-- The counter is untouched by `addBlock`, whatever the outcome. -/
theorem addBlock_totalTransactions (s : Blockchain) (data : Json) (now fuel : Nat) :
    (s.addBlock data now fuel).2.totalTransactions = s.totalTransactions := by
  cases hok : (s.addBlock data now fuel).1.isOk with
  | false => rw [addBlock_error hok]
  | true =>
    obtain ⟨_, _, _, _, heq⟩ := addBlock_ok hok
    rw [heq]

/-- The counter never decreases in a call of `addTransaction`. -/
theorem addTransaction_totalTransactions_le (s : Blockchain) (td : Json) (id iso : String)
    (now fuel : Nat) :
    s.totalTransactions ≤ (s.addTransaction td id iso now fuel).2.totalTransactions := by
  cases hok : (s.addTransaction td id iso now fuel).1.isOk with
  | true =>
    obtain ⟨_, _, b, _, heq⟩ := addTransaction_ok_result hok
    rw [heq]
    exact Nat.le_succ _
  | false =>
    unfold Blockchain.addTransaction at hok ⊢
    split
    · exact Nat.le_refl _
    · split
      · exact Nat.le_refl _
      · rename_i hnn hcond
        simp only [hcond, if_false] at hok
        have herr := @addBlock_error s (s.enhancedTransaction td id iso) now fuel
        rcases hres : s.addBlock (s.enhancedTransaction td id iso) now fuel with ⟨r, s1⟩
        rw [hres] at hok herr
        cases r with
        | error e =>
          have : s1 = s := herr rfl
          rw [this]
        | ok b => simp [Except.isOk, Except.toBool] at hok

/-- The ledgers counted by `Built` are the reachable ones. -/
theorem reachable_iff_built (s : Blockchain) : Reachable s ↔ ∃ nb nt, Built nb nt s := by
  constructor
  · intro h
    induction h with
    | fresh iso now => exact ⟨0, 0, Built.fresh iso now⟩
    | addBlock data now fuel _ hok ih =>
      obtain ⟨nb, nt, hb⟩ := ih
      exact ⟨nb + 1, nt, Built.addBlock data now fuel hb hok⟩
    | addTransaction td id iso now fuel _ hok ih =>
      obtain ⟨nb, nt, hb⟩ := ih
      exact ⟨nb, nt + 1, Built.addTransaction td id iso now fuel hb hok⟩
  · rintro ⟨nb, nt, h⟩
    induction h with
    | fresh iso now => exact Reachable.fresh iso now
    | addBlock data now fuel _ hok ih => exact Reachable.addBlock data now fuel ih hok
    | addTransaction td id iso now fuel _ hok ih =>
      exact Reachable.addTransaction td id iso now fuel ih hok

/-- C16 (counterexample): the reachable ledger `rawLedger`, built by one call of `addBlock`,
has two blocks and `totalTransactions = 0`, not `chain.length - 1 = 1`. -/
theorem counter_misses_raw_block :
    Reachable rawLedger ∧ rawLedger.chain.length = 2 ∧ rawLedger.totalTransactions = 0 ∧
    rawLedger.totalTransactions ≠ rawLedger.chain.length - 1 :=
  ⟨rawLedger_reachable, rawLedger_facts.2.2.2.2.2.1, rawLedger_facts.2.2.2.2.2.2.1,
   by rw [rawLedger_facts.2.2.2.2.2.1, rawLedger_facts.2.2.2.2.2.2.1]; decide⟩

/-- C16 (amended): in a ledger reached by `nb` returned calls of `addBlock` and `nt`
returned calls of `addTransaction`, `totalTransactions = nt` and
`chain.length - 1 = nb + nt`: the counter counts the blocks appended through
`addTransaction` only; and no call of `addBlock` or `addTransaction` decreases it. -/
theorem counter_counts_transactions (nb nt : Nat) (s : Blockchain) (h : Built nb nt s) :
    s.totalTransactions = nt ∧ s.chain.length - 1 = nb + nt ∧ s.chain.length ≥ 1 ∧
    (∀ data now fuel,
      s.totalTransactions ≤ (s.addBlock data now fuel).2.totalTransactions) ∧
    (∀ td id iso now fuel,
      s.totalTransactions ≤ (s.addTransaction td id iso now fuel).2.totalTransactions) := by
  have hcount : s.totalTransactions = nt ∧ s.chain.length = nb + nt + 1 := by
    induction h with
    | fresh iso now => exact ⟨rfl, rfl⟩
    | addBlock data now fuel _ hok ih =>
      obtain ⟨_, _, _, _, heq⟩ := addBlock_ok hok
      rw [heq]
      simp only [List.length_append, List.length_singleton]
      omega
    | addTransaction td id iso now fuel _ hok ih =>
      obtain ⟨_, _, b, _, heq⟩ := addTransaction_ok_result hok
      rw [heq]
      simp only [List.length_append, List.length_singleton]
      omega
  refine ⟨hcount.1, by omega, by omega, ?_, ?_⟩
  · intro data now fuel
    rw [addBlock_totalTransactions]
  · intro td id iso now fuel
    exact addTransaction_totalTransactions_le s td id iso now fuel

/-- Witness of C16 (amended): one call of `addBlock` on the fresh ledger. -/
theorem counter_counts_transactions_witness :
    rawLedger.totalTransactions = 0 ∧ rawLedger.chain.length - 1 = 1 + 0 ∧
    rawLedger.chain.length ≥ 1 ∧
    (∀ data now fuel,
      rawLedger.totalTransactions ≤ (rawLedger.addBlock data now fuel).2.totalTransactions) ∧
    (∀ td id iso now fuel, rawLedger.totalTransactions ≤
      (rawLedger.addTransaction td id iso now fuel).2.totalTransactions) :=
  counter_counts_transactions 1 0 rawLedger
    (Built.addBlock eventPayload 1700000002117 8 (Built.fresh _ _)
      (by rw [rawLedger_facts.1]; rfl))

/-! ## Claims on the frame of an append, the serialisation and the statistics -/

/-- The chain after `addBlock` is the chain before it, or that chain with one block
appended. -/
theorem addBlock_chain (s : Blockchain) (data : Json) (now fuel : Nat) :
    (s.addBlock data now fuel).2.chain = s.chain ∨
    ∃ m, (s.addBlock data now fuel).2.chain = s.chain ++ [m] := by
  cases hok : (s.addBlock data now fuel).1.isOk with
  | false => left; rw [addBlock_error hok]
  | true =>
    right
    obtain ⟨_, m, _, _, heq⟩ := addBlock_ok hok
    exact ⟨m, by rw [heq]⟩

/-- The chain after `addTransaction` is the chain before it, or that chain with one block
appended. -/
theorem addTransaction_chain (s : Blockchain) (td : Json) (id iso : String) (now fuel : Nat) :
    (s.addTransaction td id iso now fuel).2.chain = s.chain ∨
    ∃ m, (s.addTransaction td id iso now fuel).2.chain = s.chain ++ [m] := by
  cases hok : (s.addTransaction td id iso now fuel).1.isOk with
  | true =>
    right
    obtain ⟨_, _, b, _, heq⟩ := addTransaction_ok_result hok
    exact ⟨b, by rw [heq]⟩
  | false =>
    left
    unfold Blockchain.addTransaction at hok ⊢
    split
    · rfl
    · split
      · rfl
      · rename_i hnn hcond
        simp only [hcond, if_false] at hok
        have herr := @addBlock_error s (s.enhancedTransaction td id iso) now fuel
        rcases hres : s.addBlock (s.enhancedTransaction td id iso) now fuel with ⟨r, s1⟩
        rw [hres] at hok herr
        cases r with
        | error e =>
          have : s1 = s := herr rfl
          rw [this]
        | ok b => simp [Except.isOk, Except.toBool] at hok

/-- A chain that is kept or extended at its end keeps every block in place. -/
theorem kept_or_appended {chain chain' : List Block}
    (h : chain' = chain ∨ ∃ m, chain' = chain ++ [m]) :
    (∀ i, i < chain.length → chain'[i]? = chain[i]?) ∧ chain.length ≤ chain'.length := by
  rcases h with h | ⟨m, h⟩
  · rw [h]
    exact ⟨fun _ _ => rfl, Nat.le_refl _⟩
  · rw [h]
    refine ⟨fun i hi => List.getElem?_append_left hi, ?_⟩
    simp

/-- C18: the chain is append-only: after every call of `addBlock` or `addTransaction`,
whatever its outcome, the blocks at positions `0 .. n-1` (`n` the chain length before the
call) are the same blocks, unchanged in every field, and the chain is not shorter. -/
theorem chain_append_only (s : Blockchain) :
    (∀ (data : Json) (now fuel : Nat),
      (∀ i, i < s.chain.length → (s.addBlock data now fuel).2.chain[i]? = s.chain[i]?) ∧
      s.chain.length ≤ (s.addBlock data now fuel).2.chain.length) ∧
    (∀ (td : Json) (id iso : String) (now fuel : Nat),
      (∀ i, i < s.chain.length →
        (s.addTransaction td id iso now fuel).2.chain[i]? = s.chain[i]?) ∧
      s.chain.length ≤ (s.addTransaction td id iso now fuel).2.chain.length) :=
  ⟨fun data now fuel => kept_or_appended (addBlock_chain s data now fuel),
   fun td id iso now fuel => kept_or_appended (addTransaction_chain s td id iso now fuel)⟩

/-- C19 (counterexample): `rentPayload` and `reorderedPayload` hold the same fields with the
same values in a different order; the two blocks built from them with the same index,
timestamp, previous hash and nonce have different hashes, stored and recomputed. -/
theorem field_order_changes_hash :
    (∀ key, rentPayload.prop key = reorderedPayload.prop key) ∧
    rentPayload.stringify ≠ reorderedPayload.stringify ∧
    (Block.new 1 1700000001237 rentPayload "00ab").nonce
      = (Block.new 1 1700000001237 reorderedPayload "00ab").nonce ∧
    (Block.new 1 1700000001237 rentPayload "00ab").calculateHash
      = "33de8dc9e1f4a57ab8d387e8615cf3fae623af87b81b991ad6e31d483710e943" ∧
    (Block.new 1 1700000001237 reorderedPayload "00ab").calculateHash
      = "ebbcf77ca0884c78d96bd44d70381e0035723908822ae922667e714f3ecd6772" ∧
    (Block.new 1 1700000001237 rentPayload "00ab").hash
      ≠ (Block.new 1 1700000001237 reorderedPayload "00ab").hash := by
  refine ⟨?_, by decide!⟩
  intro key
  unfold rentPayload reorderedPayload
  simp only [Json.prop, List.find?_cons, List.find?_nil]
  cases h1 : ("description" == key) with
  | true =>
    have hk : "description" = key := by simpa using h1
    subst hk
    rfl
  | false =>
    cases h2 : ("amount" == key) <;> rfl

/-- C19 (amended): the hash depends on the payload through its serialisation only: two
blocks with equal index, timestamp, previous hash and nonce whose payloads serialise to
the same string (as payloads with the same fields in the same order do) have equal
hashes. -/
theorem equal_serialisation_equal_hash (b c : Block) (hi : b.index = c.index)
    (ht : b.timestamp = c.timestamp) (hp : b.prevHash = c.prevHash) (hn : b.nonce = c.nonce)
    (hd : b.data.stringify = c.data.stringify) : b.calculateHash = c.calculateHash := by
  unfold Block.calculateHash
  rw [hi, ht, hp, hn, hd]

/-- Witness of C19 (amended): a block and the same block with another attribution. -/
theorem equal_serialisation_equal_hash_witness :
    (Block.new 1 1700000001237 rentPayload "00ab").calculateHash =
      ((Block.new 1 1700000001237 rentPayload "00ab").tamper (.validatedBy "x")).calculateHash :=
  equal_serialisation_equal_hash (Block.new 1 1700000001237 rentPayload "00ab")
    ((Block.new 1 1700000001237 rentPayload "00ab").tamper (.validatedBy "x"))
    rfl rfl rfl rfl rfl

/-- C20: on every ledger (non-empty chain) `getStats()` returns `totalBlocks = chain.length`,
`totalTransactions` = the counter of the ledger, `latestBlockHash` = the hash of the last
block of the chain, `chainValid = isValid().valid` and `difficulty` = the configured
difficulty. -/
theorem getStats_fields (s : Blockchain) (hne : s.chain ≠ []) :
    ∃ st last, s.getStats = .ok st ∧ s.chain.getLast? = some last ∧
      st.totalBlocks = s.chain.length ∧
      st.totalTransactions = s.totalTransactions ∧
      st.latestBlockHash = last.hash ∧
      st.chainValid = s.isValid.valid ∧
      st.difficulty = s.difficulty := by
  have hlen : s.chain.length - 1 < s.chain.length := by
    have : 0 < s.chain.length := List.length_pos.mpr hne
    omega
  have hl : s.getLatestBlock = some s.chain[s.chain.length - 1] := by
    unfold Blockchain.getLatestBlock
    exact List.getElem?_eq_getElem hlen
  have hst : s.getStats = .ok
      { totalBlocks := s.chain.length,
        totalTransactions := s.totalTransactions,
        latestBlockHash := s.chain[s.chain.length - 1].hash,
        chainValid := s.isValid.valid,
        difficulty := s.difficulty,
        createdBy := "© Pranav Koradiya" } := by
    unfold Blockchain.getStats
    rw [hl]
  have hlast : s.chain.getLast? = some s.chain[s.chain.length - 1] := by
    rw [List.getLast?_eq_getElem?]
    exact List.getElem?_eq_getElem hlen
  exact ⟨_, _, hst, hlast, rfl, rfl, rfl, rfl, rfl⟩

/-- Witness of C20: the statistics of the fresh ledger. -/
theorem getStats_fields_witness :
    ∃ st last, genesisLedger.getStats = .ok st ∧ genesisLedger.chain.getLast? = some last ∧
      st.totalBlocks = genesisLedger.chain.length ∧
      st.totalTransactions = genesisLedger.totalTransactions ∧
      st.latestBlockHash = last.hash ∧
      st.chainValid = genesisLedger.isValid.valid ∧
      st.difficulty = genesisLedger.difficulty :=
  getStats_fields genesisLedger (List.cons_ne_nil _ _)

/-! ## Claims on the read-only views -/

/-- The callback of `getAllBlocks` returns on every block with a valid timestamp, and the
entries it builds are, position by position, those of the blocks. -/
theorem summaries_ok (chain : List Block) (h : ∀ b ∈ chain, b.timestamp ≤ maxTime) :
    ∃ entries, Blockchain.summaries chain = .ok entries ∧ entries.length = chain.length ∧
      ∀ (i : Nat) (b : Block), chain[i]? = some b →
        ∃ e, entries[i]? = some e ∧ e.index = b.index ∧ e.hash = b.hash ∧
          e.prevHash = b.prevHash ∧ e.data = b.data := by
  induction chain with
  | nil => exact ⟨[], rfl, rfl, fun i b hb => by simp at hb⟩
  | cons c rest ih =>
    obtain ⟨entries, hrest, hlen, hget⟩ := ih (fun b hb => h b (List.mem_cons_of_mem _ hb))
    have hc : c.timestamp ≤ maxTime := h c (List.mem_cons_self _ _)
    have hsum : ∃ sm, c.getSummary = .ok sm ∧ sm.index = c.index ∧ sm.hash = c.hash ∧
        sm.prevHash = c.prevHash :=
      ⟨_, by unfold Block.getSummary; rw [if_pos hc], rfl, rfl, rfl⟩
    obtain ⟨sm, hsm, h1, h2, h3⟩ := hsum
    refine ⟨{ sm with data := c.data } :: entries, ?_, by simp [hlen], ?_⟩
    · simp only [Blockchain.summaries, hsm, hrest]
    · intro i b hb
      cases i with
      | zero =>
        simp only [List.getElem?_cons_zero, Option.some.injEq] at hb
        subst hb
        exact ⟨{ sm with data := c.data }, List.getElem?_cons_zero, h1, h2, h3, rfl⟩
      | succ n =>
        simp only [List.getElem?_cons_succ] at hb ⊢
        exact hget n b hb

/-- C21: for every chain whose block timestamps are valid time values, `getAllBlocks()`
returns a sequence of length `chain.length` whose `i`-th entry has `index`, `hash` and
`prevHash` equal to those of `chain[i]` and `data` equal to the payload of `chain[i]`. -/
theorem getAllBlocks_entries (s : Blockchain) (h : ∀ b ∈ s.chain, b.timestamp ≤ maxTime) :
    ∃ entries, s.getAllBlocks = .ok entries ∧ entries.length = s.chain.length ∧
      ∀ (i : Nat) (b : Block), s.chain[i]? = some b →
        ∃ e, entries[i]? = some e ∧ e.index = b.index ∧ e.hash = b.hash ∧
          e.prevHash = b.prevHash ∧ e.data = b.data :=
  summaries_ok s.chain h

/-- C22: for every block with a valid timestamp, `getSummary()` returns a summary whose
`transactionCount` is the length of the payload when the payload is a sequence and 1 when
it is not, whose `dataSize` is the length (in UTF-16 code units) of the serialised payload,
and whose `index`, `hash` and `prevHash` are those of the block. -/
theorem getSummary_fields (b : Block) (h : b.timestamp ≤ maxTime) :
    ∃ sm, b.getSummary = .ok sm ∧
      (∀ xs, b.data = .arr xs → sm.transactionCount = xs.length) ∧
      ((∀ xs, b.data ≠ .arr xs) → sm.transactionCount = 1) ∧
      sm.dataSize = jsLength b.data.stringify ∧
      sm.index = b.index ∧ sm.hash = b.hash ∧ sm.prevHash = b.prevHash := by
  refine ⟨_, by unfold Block.getSummary; rw [if_pos h], ?_, ?_, rfl, rfl, rfl, rfl⟩
  · intro xs hxs
    simp only [hxs, transactionCountOf]
  · intro hno
    cases hd : b.data with
    | arr xs => exact absurd hd (hno xs)
    | null => rfl
    | bool _ => rfl
    | num _ => rfl
    | str _ => rfl
    | obj _ => rfl

/-- Witness of C22: the summary of a block whose payload is a sequence of two records. -/
theorem getSummary_fields_witness :
    batchBlock.timestamp ≤ maxTime ∧
    ∃ sm, batchBlock.getSummary = .ok sm ∧
      (∀ xs, batchBlock.data = .arr xs → sm.transactionCount = xs.length) ∧
      ((∀ xs, batchBlock.data ≠ .arr xs) → sm.transactionCount = 1) ∧
      sm.dataSize = jsLength batchBlock.data.stringify ∧
      sm.index = batchBlock.index ∧ sm.hash = batchBlock.hash ∧
      sm.prevHash = batchBlock.prevHash :=
  ⟨by decide, getSummary_fields batchBlock (by decide)⟩

/-! ## The search as a filter -/

/-- The date of a string is the date it parses to. -/
theorem timeValue_str (host : Host) (f : String) :
    host.timeValue (some (.str f)) = host.dateParse f := rfl

/-- When the four tests of the search return on a payload, their outcome is
`payloadMatches`. -/
theorem matchesAll_sound (host : Host) (c : Criteria) (data : Json) (m : Bool)
    (h : host.matchesAll c data = .ok m) : m = host.payloadMatches c data := by
  unfold Host.matchesAll at h
  unfold Host.payloadMatches
  simp only [timeValue_str] at h
  cases hd : supplied c.description with
  | none =>
    simp only [hd, Except.ok.injEq] at h
    rw [← h]
    simp only [bne, Bool.not_not]
  | some d =>
    simp only [hd] at h
    unfold Host.descriptionMisses at h
    unfold Host.describedBy
    cases hp : data.prop "description" with
    | none =>
      simp only [hp, Except.ok.injEq] at h; rw [← h]; simp only [bne, Bool.not_not, Bool.not_true]
    | some v =>
      cases v with
      | null =>
        simp only [hp, Except.ok.injEq] at h; rw [← h]; simp only [bne, Bool.not_not, Bool.not_true]
      | str t =>
        simp only [hp, Except.ok.injEq] at h; rw [← h]; simp only [bne, Bool.not_not, Bool.not_true]
      | bool _ => simp [hp] at h
      | num _ => simp [hp] at h
      | arr _ => simp [hp] at h
      | obj _ => simp [hp] at h

/-- The four tests return when no description is asked for or the description of the
payload is a string, `null` or absent. -/
theorem matchesAll_ok (host : Host) (c : Criteria) (data : Json)
    (h : supplied c.description = none ∨ textDescription data = true) :
    ∃ m, host.matchesAll c data = .ok m := by
  unfold Host.matchesAll
  cases hd : supplied c.description with
  | none => exact ⟨_, rfl⟩
  | some d =>
    rcases h with h | h
    · rw [hd] at h; cases h
    · unfold textDescription at h
      simp only
      unfold Host.descriptionMisses
      cases hp : data.prop "description" with
      | none => exact ⟨_, rfl⟩
      | some v =>
        cases v with
        | null => exact ⟨_, rfl⟩
        | str t => exact ⟨_, rfl⟩
        | bool _ => simp [hp] at h
        | num _ => simp [hp] at h
        | arr _ => simp [hp] at h
        | obj _ => simp [hp] at h

/-- When the loop of the search returns, it has pushed one entry for each block with a
searchable payload that matches, in chain order. -/
theorem scan_sound (host : Host) (c : Criteria) (chain : List Block) :
    ∀ hits, host.scan c chain = .ok hits →
      hits = (chain.filter
        (fun b => searchable b.data && host.payloadMatches c b.data)).map Block.hit := by
  induction chain with
  | nil =>
    intro hits h
    simp only [Host.scan, Except.ok.injEq] at h
    rw [← h]; rfl
  | cons b rest ih =>
    intro hits h
    unfold Host.scan at h
    cases hv : host.visit c b with
    | error e => simp [hv] at h
    | ok found =>
      cases hr : host.scan c rest with
      | error e => simp [hv, hr] at h
      | ok results =>
        simp only [hv, hr, Except.ok.injEq] at h
        have hrest := ih results hr
        unfold Host.visit at hv
        rw [← h, hrest, List.filter_cons]
        cases hs : searchable b.data with
        | false =>
          simp only [hs, Bool.false_eq_true, if_false, Except.ok.injEq] at hv
          rw [← hv]; simp
        | true =>
          simp only [hs, if_true] at hv
          cases hm : host.matchesAll c b.data with
          | error e => simp [hm] at hv
          | ok m =>
            have hmm := matchesAll_sound host c b.data m hm
            cases m with
            | true =>
              simp only [hm, Except.ok.injEq] at hv
              rw [← hv, ← hmm]; simp
            | false =>
              simp only [hm, Except.ok.injEq] at hv
              rw [← hv, ← hmm]; simp

/-- The loop of the search returns when no description is asked for or every searchable
payload has a description that is a string, `null` or absent. -/
theorem scan_ok (host : Host) (c : Criteria) (chain : List Block)
    (h : supplied c.description = none ∨ ∀ b ∈ chain, textDescription b.data = true) :
    ∃ hits, host.scan c chain = .ok hits := by
  induction chain with
  | nil => exact ⟨[], rfl⟩
  | cons b rest ih =>
    have hrest : supplied c.description = none ∨ ∀ b ∈ rest, textDescription b.data = true :=
      h.imp id (fun ht b hb => ht b (List.mem_cons_of_mem _ hb))
    obtain ⟨results, hr⟩ := ih hrest
    have hb : supplied c.description = none ∨ textDescription b.data = true :=
      h.imp id (fun ht => ht b (List.mem_cons_self _ _))
    obtain ⟨m, hm⟩ := matchesAll_ok host c b.data hb
    unfold Host.scan Host.visit
    cases hs : searchable b.data with
    | false => simp only [Bool.false_eq_true, if_false, hr]; exact ⟨_, rfl⟩
    | true =>
      cases m with
      | true => simp only [if_true, hm, hr]; exact ⟨_, rfl⟩
      | false => simp only [if_true, hm, hr]; exact ⟨_, rfl⟩

/-- The entry pushed for a block depends on its index, payload and hash only. -/
theorem visit_congr (host : Host) (c : Criteria) (b b' : Block) (hi : b.index = b'.index)
    (hd : b.data = b'.data) (hh : b.hash = b'.hash) : host.visit c b = host.visit c b' := by
  unfold Host.visit Block.hit
  rw [hi, hd, hh]

/-- Overwriting the timestamp field of a block does not change what the loop of the search
pushes. -/
theorem scan_set_timestamp (host : Host) (c : Criteria) (chain : List Block) :
    ∀ (i : Nat) (b : Block) (v : Nat), chain[i]? = some b →
      host.scan c (chain.set i (b.tamper (.timestamp v))) = host.scan c chain := by
  induction chain with
  | nil => intro i b v hb; simp at hb
  | cons x rest ih =>
    intro i b v hb
    cases i with
    | zero =>
      simp only [List.getElem?_cons_zero, Option.some.injEq] at hb
      subst hb
      simp only [List.set_cons_zero, Host.scan]
      rw [visit_congr host c (x.tamper (.timestamp v)) x rfl rfl rfl]
    | succ n =>
      simp only [List.getElem?_cons_succ] at hb
      simp only [List.set_cons_succ, Host.scan]
      rw [ih n b v hb]

/-! ## The concrete ledgers of the queries -/

/-- The call that makes `taggedLedger` returns, and the chain it leaves. -/
theorem taggedLedger_facts :
    (genesisLedger.addTransaction taggedPayload "0123456789ABCDEF0123456789ABCDEF"
      "2023-11-14T22:13:21.000Z" 1700000001492 8).1.isOk = true ∧
    taggedLedger.chain = [firstBlock, taggedBlock] := by
  decide!

/-- The calls that make `threeLedger` return, and the chain they leave. -/
theorem threeLedger_facts :
    (minedLedger.addTransaction fuelPayload "1111111111111111AAAAAAAAAAAAAAAA"
      "2023-11-15T08:00:00.000Z" 1700035200069 8).1.isOk = true ∧
    (twoLedger.addTransaction dutyPayload "2222222222222222BBBBBBBBBBBBBBBB"
      "2023-11-16T09:30:00.000Z" 1700127000191 8).1.isOk = true ∧
    threeLedger.chain = [firstBlock, rentBlock, fuelBlock, dutyBlock] := by
  decide!

theorem taggedLedger_reachable : Reachable taggedLedger :=
  Reachable.addTransaction taggedPayload "0123456789ABCDEF0123456789ABCDEF"
    "2023-11-14T22:13:21.000Z" 1700000001492 8 genesisLedger_reachable taggedLedger_facts.1

theorem threeLedger_reachable : Reachable threeLedger :=
  Reachable.addTransaction dutyPayload "2222222222222222BBBBBBBBBBBBBBBB"
    "2023-11-16T09:30:00.000Z" 1700127000191 8
    (Reachable.addTransaction fuelPayload "1111111111111111AAAAAAAAAAAAAAAA"
      "2023-11-15T08:00:00.000Z" 1700035200069 8 minedLedger_reachable threeLedger_facts.1)
    threeLedger_facts.2.1

/-- The chain of `rawLedger`. -/
theorem rawLedger_chain : rawLedger.chain = [firstBlock, rawBlock] := by
  obtain ⟨_, m, _, _, heq⟩ := @addBlock_ok genesisLedger eventPayload 1700000002117 8
    (by rw [rawLedger_facts.1]; rfl)
  have hm : m = rawBlock := by
    have h1 := rawLedger_facts.1
    rw [heq] at h1
    exact Except.ok.inj h1
  unfold rawLedger
  rw [heq, hm]
  rfl

/-- The timestamps of the blocks of `threeLedger` are valid time values. -/
theorem threeLedger_times : ∀ b ∈ threeLedger.chain, b.timestamp ≤ maxTime := by
  rw [threeLedger_facts.2.2]
  decide!

/-- The descriptions in `threeLedger` are strings or absent. -/
theorem threeLedger_text : ∀ b ∈ threeLedger.chain, textDescription b.data = true := by
  rw [threeLedger_facts.2.2]
  decide!

/-- Witness of C21: the ledger of three transactions. -/
theorem getAllBlocks_entries_witness :
    (∀ b ∈ threeLedger.chain, b.timestamp ≤ maxTime) ∧
    ∃ entries, threeLedger.getAllBlocks = .ok entries ∧
      entries.length = threeLedger.chain.length ∧
      ∀ (i : Nat) (b : Block), threeLedger.chain[i]? = some b →
        ∃ e, entries[i]? = some e ∧ e.index = b.index ∧ e.hash = b.hash ∧
          e.prevHash = b.prevHash ∧ e.data = b.data :=
  ⟨threeLedger_times, getAllBlocks_entries threeLedger threeLedger_times⟩

/-! ## Claims on the search -/

/-- Searches on `taggedLedger`: whatever is asked for, the appended block is left out. -/
theorem taggedLedger_searches :
    taggedBlock.index = 1 ∧
    taggedBlock.data.prop "type" = some (.str "genesis") ∧
    asciiHost.payloadMatches {} taggedBlock.data = true ∧
    taggedLedger.searchTransactions asciiHost {} = .ok [] ∧
    asciiHost.timeValue (taggedBlock.data.prop "timestamp") = some 1700000001000 ∧
    asciiHost.dateParse "2023-11-14" = some 1699920000000 ∧
    asciiHost.dateParse "2023-11-15" = some 1700006400000 ∧
    taggedLedger.searchTransactions asciiHost
      { dateFrom := some "2023-11-14", dateTo := some "2023-11-15" } = .ok [] := by
  unfold Blockchain.searchTransactions
  rw [taggedLedger_facts.2]
  decide!

/-- C23 (counterexample): `taggedLedger` is the fresh ledger after one `addTransaction`;
its block at index 1 is not the genesis block and, no criterion being supplied, matches
every supplied criterion, yet `searchTransactions` with no criterion returns no entry,
because the payload of the block has `type` equal to `genesis`. -/
theorem search_omits_tagged_block :
    Reachable taggedLedger ∧ taggedLedger.chain = [firstBlock, taggedBlock] ∧
    taggedBlock.index = 1 ∧ taggedBlock.data.prop "type" = some (.str "genesis") ∧
    asciiHost.payloadMatches {} taggedBlock.data = true ∧
    taggedLedger.searchTransactions asciiHost {} = .ok [] :=
  ⟨taggedLedger_reachable, taggedLedger_facts.2, taggedLedger_searches.1,
   taggedLedger_searches.2.1, taggedLedger_searches.2.2.1, taggedLedger_searches.2.2.2.1⟩

/-- C23 (amended): whenever `searchTransactions(criteria)` returns, it returns, in chain
order, exactly one entry `{blockIndex, transaction, blockHash}` for each block whose
payload is an object or array with a `type` other than `genesis` and matches every
supplied criterion, and no other entry; with no criterion supplied it returns one entry
for every block whose payload is an object or array with a `type` other than `genesis`. -/
theorem search_returns_matching (host : Host) (s : Blockchain) (c : Criteria)
    (hits : List SearchHit) (h : s.searchTransactions host c = .ok hits) :
    hits = (s.chain.filter
      (fun b => searchable b.data && host.payloadMatches c b.data)).map Block.hit ∧
    (supplied c.description = none → supplied c.accountType = none →
      supplied c.dateFrom = none → supplied c.dateTo = none →
      hits = (s.chain.filter (fun b => searchable b.data)).map Block.hit) := by
  have hs := scan_sound host c s.chain hits h
  refine ⟨hs, ?_⟩
  intro h1 h2 h3 h4
  rw [hs]
  congr 1
  apply List.filter_congr
  intro b _
  unfold Host.payloadMatches
  rw [h1, h2, h3, h4]
  simp

/-- Searches on `threeLedger` with the host functions on ASCII text. -/
theorem threeLedger_searches :
    threeLedger.searchTransactions asciiHost { accountType := some "expense" }
      = .ok [fuelBlock.hit, dutyBlock.hit] ∧
    threeLedger.searchTransactions asciiHost { description := some "rent" }
      = .ok [rentBlock.hit] ∧
    threeLedger.searchTransactions asciiHost { description := some "RENT" }
      = .ok [rentBlock.hit] ∧
    threeLedger.searchTransactions asciiHost
      { dateFrom := some "2023-11-15T08:00:00.000Z", dateTo := some "2023-11-16" }
      = .ok [fuelBlock.hit] ∧
    rentBlock.data.prop "description" = some (.str "Office rent") ∧
    rentBlock.data.prop "amount" = some (.num 500) ∧
    fuelBlock.timestamp = 1700035200069 ∧
    asciiHost.timeValue (fuelBlock.data.prop "timestamp") = some 1700035200000 ∧
    asciiHost.dateParse "2023-11-15T08:00:00.000Z" = some 1700035200000 ∧
    asciiHost.dateParse "2023-11-16" = some 1700092800000 ∧
    searchable fuelBlock.data = true ∧ fuelBlock ∈ threeLedger.chain := by
  unfold Blockchain.searchTransactions
  rw [threeLedger_facts.2.2]
  decide!

/-- Witness of C23 (amended): the search for the account type `expense` on the ledger of
three transactions returns the second and the third. -/
theorem search_returns_matching_witness :
    threeLedger.searchTransactions asciiHost { accountType := some "expense" }
      = .ok [fuelBlock.hit, dutyBlock.hit] ∧
    [fuelBlock.hit, dutyBlock.hit] = (threeLedger.chain.filter
      (fun b => searchable b.data &&
        asciiHost.payloadMatches { accountType := some "expense" } b.data)).map Block.hit :=
  ⟨threeLedger_searches.1,
   (search_returns_matching asciiHost threeLedger { accountType := some "expense" }
      [fuelBlock.hit, dutyBlock.hit] threeLedger_searches.1).1⟩

/-- A non-empty criterion is supplied. -/
theorem supplied_some (c : String) (h : c ≠ "") : supplied (some c) = some c := by
  unfold supplied
  split
  · rename_i heq
    exact absurd (Option.some.inj heq) h
  · rfl

/-- C24 (amended): the description criterion of `searchTransactions`, when it is not empty,
is case-insensitive substring containment. On every chain whose payload descriptions are
strings, `null` or absent, the search for a non-empty description `c` returns one entry for
each block with a searchable payload whose description is a string that, lower-cased,
contains the lower-cased `c`, in chain order; the result is the same for every criterion
with the same lower-casing, and whether a payload matches is the same for every description
with the same lower-casing. -/
theorem description_search (host : Host) (s : Blockchain) (c : String) (hc : c ≠ "")
    (htext : ∀ b ∈ s.chain, textDescription b.data = true) :
    s.searchTransactions host { description := some c } = .ok ((s.chain.filter
      (fun b => searchable b.data && host.describedBy b.data c)).map Block.hit) ∧
    (∀ c', c' ≠ "" → host.toLowerCase c' = host.toLowerCase c →
      s.searchTransactions host { description := some c' } =
        s.searchTransactions host { description := some c }) ∧
    (∀ data data' d d', data.prop "description" = some (.str d) →
      data'.prop "description" = some (.str d') → host.toLowerCase d = host.toLowerCase d' →
      host.describedBy data c = host.describedBy data' c ∧
      (host.describedBy data c = true ↔
        includes (host.toLowerCase d) (host.toLowerCase c) = true)) := by
  have key : ∀ x : String, x ≠ "" →
      s.searchTransactions host { description := some x } = .ok ((s.chain.filter
        (fun b => searchable b.data && host.describedBy b.data x)).map Block.hit) := by
    intro x hx
    obtain ⟨hits, hh⟩ := scan_ok host { description := some x } s.chain (Or.inr htext)
    have hs := scan_sound host { description := some x } s.chain hits hh
    unfold Blockchain.searchTransactions
    rw [hh, hs]
    congr 2
    apply List.filter_congr
    intro b _
    unfold Host.payloadMatches
    simp only [supplied_some x hx]
    have hn : supplied (none : Option String) = none := rfl
    simp only [hn, Bool.and_true]
  refine ⟨key c hc, ?_, ?_⟩
  · intro c' hc' hlow
    rw [key c' hc', key c hc]
    congr 2
    apply List.filter_congr
    intro b _
    unfold Host.describedBy
    rw [hlow]
  · intro data data' d d' hd hd' hlow
    unfold Host.describedBy
    simp [hd, hd', hlow]

/-- Witness of C24 (amended): in the ledger of three transactions the only payload whose
description contains `rent` is the rent payload of block 1; the searches for `rent` and for
`RENT` return that block and no other. -/
theorem description_search_witness :
    rentBlock.data.prop "description" = some (.str "Office rent") ∧
    rentBlock.data.prop "amount" = some (.num 500) ∧
    threeLedger.searchTransactions asciiHost { description := some "rent" }
      = .ok [rentBlock.hit] ∧
    threeLedger.searchTransactions asciiHost { description := some "RENT" }
      = .ok [rentBlock.hit] ∧
    threeLedger.searchTransactions asciiHost { description := some "rent" } =
      .ok ((threeLedger.chain.filter
        (fun b => searchable b.data && asciiHost.describedBy b.data "rent")).map Block.hit) :=
  ⟨threeLedger_searches.2.2.2.2.1, threeLedger_searches.2.2.2.2.2.1,
   threeLedger_searches.2.1, threeLedger_searches.2.2.1,
   (description_search asciiHost threeLedger "rent" (by decide) threeLedger_text).1⟩

/-- The test of the lower bound passes exactly when the payload time is not before it. -/
theorem fromTest_iff (host : Host) (c : Option String) (lo : Option Int) (ts : Option Json)
    (t : Int) (ht : host.timeValue ts = some t) (hlo : host.parsesTo c lo) :
    (match supplied c with
      | none => true
      | some f => !dateLt (host.timeValue ts) (host.dateParse f)) = true ↔
    ∀ x, lo = some x → x ≤ t := by
  unfold Host.parsesTo at hlo
  cases c with
  | none =>
    simp only at hlo
    subst hlo
    have hn : supplied (none : Option String) = none := rfl
    simp [hn]
  | some s =>
    obtain ⟨hne, hsome, hparse⟩ := hlo
    rw [supplied_some s hne]
    simp only [ht, hparse]
    cases lo with
    | none => exact absurd rfl hsome
    | some x => simp [dateLt]

/-- The test of the upper bound passes exactly when the payload time is not after it. -/
theorem toTest_iff (host : Host) (c : Option String) (hi : Option Int) (ts : Option Json)
    (t : Int) (ht : host.timeValue ts = some t) (hhi : host.parsesTo c hi) :
    (match supplied c with
      | none => true
      | some f => !dateLt (host.dateParse f) (host.timeValue ts)) = true ↔
    ∀ y, hi = some y → t ≤ y := by
  unfold Host.parsesTo at hhi
  cases c with
  | none =>
    simp only at hhi
    subst hhi
    have hn : supplied (none : Option String) = none := rfl
    simp [hn]
  | some s =>
    obtain ⟨hne, hsome, hparse⟩ := hhi
    rw [supplied_some s hne]
    simp only [ht, hparse]
    cases hi with
    | none => exact absurd rfl hsome
    | some y => simp [dateLt]

/-- With date bounds as the only criteria, a payload with a valid time matches exactly
when its time lies within the bounds. -/
theorem payloadMatches_dates (host : Host) (dateFrom dateTo : Option String)
    (lo hi : Option Int) (data : Json) (t : Int)
    (ht : host.timeValue (data.prop "timestamp") = some t)
    (hlo : host.parsesTo dateFrom lo) (hhi : host.parsesTo dateTo hi) :
    host.payloadMatches { dateFrom := dateFrom, dateTo := dateTo } data = true ↔
      (∀ x, lo = some x → x ≤ t) ∧ (∀ y, hi = some y → t ≤ y) := by
  unfold Host.payloadMatches
  have hn : supplied (none : Option String) = none := rfl
  simp only [hn, Bool.true_and, Bool.and_eq_true]
  exact and_congr (fromTest_iff host dateFrom lo _ t ht hlo) (toTest_iff host dateTo hi _ t ht hhi)

/-- Overwriting the timestamp field of a block does not change the result of a search. -/
theorem search_tamper_timestamp (host : Host) (c : Criteria) (s : Blockchain) (i v : Nat) :
    (s.tamperAt i (.timestamp v)).searchTransactions host c = s.searchTransactions host c := by
  unfold Blockchain.tamperAt Blockchain.searchTransactions
  cases hb : s.chain[i]? with
  | none => rfl
  | some b => exact scan_set_timestamp host c s.chain i b v hb

/-- Searches on `rawLedger`, whose block 1 carries no timestamp in its payload. -/
theorem rawLedger_searches :
    rawBlock.index = 1 ∧ rawBlock.data.prop "timestamp" = none ∧
    asciiHost.dateParse "2024-01-01" = some 1704067200000 ∧
    asciiHost.dateParse "2024-01-02" = some 1704153600000 ∧
    rawLedger.searchTransactions asciiHost
      { dateFrom := some "2024-01-01", dateTo := some "2024-01-02" } = .ok [rawBlock.hit] := by
  unfold Blockchain.searchTransactions
  rw [rawLedger_chain]
  decide!

/-- C25 (counterexample): two reachable ledgers searched by date only. The block at index 1
of `taggedLedger` carries the payload timestamp 2023-11-14T22:13:21Z, which lies between
the bounds 2023-11-14 and 2023-11-15, and is not returned; the block at index 1 of
`rawLedger` carries no payload timestamp and is returned for the bounds 2024-01-01 and
2024-01-02. -/
theorem date_search_counterexample :
    (Reachable taggedLedger ∧ taggedLedger.chain = [firstBlock, taggedBlock] ∧
      taggedBlock.index = 1 ∧
      asciiHost.timeValue (taggedBlock.data.prop "timestamp") = some 1700000001000 ∧
      asciiHost.dateParse "2023-11-14" = some 1699920000000 ∧
      asciiHost.dateParse "2023-11-15" = some 1700006400000 ∧
      taggedLedger.searchTransactions asciiHost
        { dateFrom := some "2023-11-14", dateTo := some "2023-11-15" } = .ok []) ∧
    (Reachable rawLedger ∧ rawLedger.chain = [firstBlock, rawBlock] ∧
      rawBlock.index = 1 ∧ rawBlock.data.prop "timestamp" = none ∧
      asciiHost.dateParse "2024-01-01" = some 1704067200000 ∧
      asciiHost.dateParse "2024-01-02" = some 1704153600000 ∧
      rawLedger.searchTransactions asciiHost
        { dateFrom := some "2024-01-01", dateTo := some "2024-01-02" }
        = .ok [rawBlock.hit]) :=
  ⟨⟨taggedLedger_reachable, taggedLedger_facts.2, taggedLedger_searches.1,
    taggedLedger_searches.2.2.2.2.1, taggedLedger_searches.2.2.2.2.2.1,
    taggedLedger_searches.2.2.2.2.2.2.1, taggedLedger_searches.2.2.2.2.2.2.2⟩,
   ⟨rawLedger_reachable, rawLedger_chain, rawLedger_searches⟩⟩

/-- C25 (amended): with `dateFrom` and/or `dateTo` as the only criteria, each supplied
bound a string that parses to a date, a block whose payload is an object or array with a
`type` other than `genesis` and whose payload timestamp is a valid date `t` is returned by
`searchTransactions` if and only if `dateFrom ≤ t` and `t ≤ dateTo` for each supplied
bound (a `t` equal to a bound matches); the result is the same when the `timestamp` field
of any block is overwritten. -/
theorem date_range_inclusive (host : Host) (s : Blockchain) (dateFrom dateTo : Option String)
    (lo hi : Option Int) (b : Block) (t : Int) (hb : b ∈ s.chain)
    (hs : searchable b.data = true)
    (ht : host.timeValue (b.data.prop "timestamp") = some t)
    (hlo : host.parsesTo dateFrom lo) (hhi : host.parsesTo dateTo hi) :
    ∃ hits, s.searchTransactions host { dateFrom := dateFrom, dateTo := dateTo } = .ok hits ∧
      (b.hit ∈ hits ↔ (∀ x, lo = some x → x ≤ t) ∧ (∀ y, hi = some y → t ≤ y)) ∧
      ∀ i v, (s.tamperAt i (.timestamp v)).searchTransactions host
        { dateFrom := dateFrom, dateTo := dateTo } = .ok hits := by
  obtain ⟨hits, hh⟩ := scan_ok host { dateFrom := dateFrom, dateTo := dateTo } s.chain
    (Or.inl rfl)
  have hsound := scan_sound host { dateFrom := dateFrom, dateTo := dateTo } s.chain hits hh
  have hm := payloadMatches_dates host dateFrom dateTo lo hi b.data t ht hlo hhi
  refine ⟨hits, hh, ?_, ?_⟩
  · rw [hsound, ← hm, List.mem_map]
    constructor
    · rintro ⟨b', hb', heq⟩
      have hd : b'.data = b.data := congrArg SearchHit.transaction heq
      have hp := (List.mem_filter.mp hb').2
      rw [hd] at hp
      simp only [Bool.and_eq_true] at hp
      exact hp.2
    · intro hp
      exact ⟨b, List.mem_filter.mpr ⟨hb, by simp [hs, hp]⟩, rfl⟩
  · intro i v
    rw [search_tamper_timestamp]
    exact hh

/-- Witness of C25 (amended): in the ledger of three transactions the payload of block 2
carries the timestamp 2023-11-15T08:00:00.000Z; it is returned for the bounds
2023-11-15T08:00:00.000Z (equal to it) and 2023-11-16. -/
theorem date_range_inclusive_witness :
    threeLedger.searchTransactions asciiHost
      { dateFrom := some "2023-11-15T08:00:00.000Z", dateTo := some "2023-11-16" }
      = .ok [fuelBlock.hit] ∧
    ∃ hits, threeLedger.searchTransactions asciiHost
        { dateFrom := some "2023-11-15T08:00:00.000Z", dateTo := some "2023-11-16" }
        = .ok hits ∧
      (fuelBlock.hit ∈ hits ↔
        (∀ x, some (1700035200000 : Int) = some x → x ≤ 1700035200000) ∧
        (∀ y, some (1700092800000 : Int) = some y → (1700035200000 : Int) ≤ y)) ∧
      ∀ i v, (threeLedger.tamperAt i (.timestamp v)).searchTransactions asciiHost
        { dateFrom := some "2023-11-15T08:00:00.000Z", dateTo := some "2023-11-16" }
        = .ok hits :=
  ⟨threeLedger_searches.2.2.2.1,
   date_range_inclusive asciiHost threeLedger (some "2023-11-15T08:00:00.000Z")
    (some "2023-11-16") (some 1700035200000) (some 1700092800000) fuelBlock 1700035200000
    threeLedger_searches.2.2.2.2.2.2.2.2.2.2.2
    threeLedger_searches.2.2.2.2.2.2.2.2.2.2.1
    threeLedger_searches.2.2.2.2.2.2.2.1
    ⟨by decide, by decide, threeLedger_searches.2.2.2.2.2.2.2.2.1⟩
    ⟨by decide, by decide, threeLedger_searches.2.2.2.2.2.2.2.2.2.1⟩⟩

/-! ## Claims on the recent transactions -/

/-- The filter of `getRecentTransactions` keeps every block when no payload is `null` or
has the type `genesis`. -/
theorem nonGenesis_all (blocks : List Block) (h : ∀ b ∈ blocks, untagged b.data = true) :
    Blockchain.nonGenesis blocks = .ok blocks := by
  induction blocks with
  | nil => rfl
  | cons b rest ih =>
    have hrest := ih (fun x hx => h x (List.mem_cons_of_mem _ hx))
    have hb := h b (List.mem_cons_self _ _)
    unfold untagged at hb
    unfold Blockchain.nonGenesis
    cases hd : b.data with
    | null => simp [hd] at hb
    | bool _ => simp only [hd] at hb ⊢; simp only [hrest, hb, if_true]
    | num _ => simp only [hd] at hb ⊢; simp only [hrest, hb, if_true]
    | str _ => simp only [hd] at hb ⊢; simp only [hrest, hb, if_true]
    | arr _ => simp only [hd] at hb ⊢; simp only [hrest, hb, if_true]
    | obj _ => simp only [hd] at hb ⊢; simp only [hrest, hb, if_true]

/-- When the filter of `getRecentTransactions` returns, the blocks it keeps are among the
blocks it was given, in the same order. -/
theorem nonGenesis_sublist (blocks : List Block) :
    ∀ kept, Blockchain.nonGenesis blocks = .ok kept → kept.Sublist blocks := by
  induction blocks with
  | nil =>
    intro kept h
    simp only [Blockchain.nonGenesis, Except.ok.injEq] at h
    rw [← h]
  | cons b rest ih =>
    intro kept h
    unfold Blockchain.nonGenesis at h
    cases hr : Blockchain.nonGenesis rest with
    | error e => cases hd : b.data <;> simp [hd, hr] at h
    | ok k =>
      have hk := ih k hr
      by_cases ht : (b.data.prop "type" != some (.str "genesis")) = true
      · have : kept = b :: k := by
          cases hd : b.data <;> simp [hd, hr] at h ht <;> simp [ht] at h <;> exact h.symm
        rw [this]
        exact hk.cons₂ b
      · have : kept = k := by
          cases hd : b.data <;> simp [hd, hr] at h ht <;> simp [ht] at h <;> exact h.symm
        rw [this]
        exact hk.cons b

/-- For a limit of at least 1, `slice(-limit)` keeps the last `limit` elements. -/
theorem jsSlice_neg {α : Type} (xs : List α) (limit : Nat) (h : 1 ≤ limit) :
    jsSlice xs (-(limit : Int)) = xs.drop (xs.length - limit) := by
  unfold jsSlice
  have hneg : -(limit : Int) < 0 := by omega
  rw [if_pos hneg]
  congr 2
  omega

/-- For a limit of at least 1, when `getRecentTransactions(limit)` returns, it returns at
most `limit` entries, each built from one of the last `limit` blocks of the chain. -/
theorem recent_at_most (s : Blockchain) (limit : Nat) (h : 1 ≤ limit)
    (entries : List RecentEntry) (hok : s.getRecentTransactions limit = .ok entries) :
    entries.length ≤ limit ∧
    ∀ e ∈ entries, ∃ b ∈ s.chain.drop (s.chain.length - limit), e = b.recent := by
  unfold Blockchain.getRecentTransactions at hok
  rw [jsSlice_neg s.chain limit h] at hok
  cases hk : Blockchain.nonGenesis (s.chain.drop (s.chain.length - limit)) with
  | error e => simp [hk, Except.map] at hok
  | ok kept =>
    simp only [hk, Except.map, Except.ok.injEq] at hok
    have hsub := nonGenesis_sublist _ kept hk
    rw [← hok]
    constructor
    · have h1 := hsub.length_le
      simp only [List.length_reverse, List.length_map]
      simp only [List.length_drop] at h1
      omega
    · intro e he
      simp only [List.mem_reverse, List.mem_map] at he
      obtain ⟨b, hb, rfl⟩ := he
      exact ⟨b, hsub.subset hb, rfl⟩

/-- Calls of `getRecentTransactions` on the concrete ledgers. -/
theorem recent_facts :
    threeLedger.getRecentTransactions 0
      = .ok [dutyBlock.recent, fuelBlock.recent, rentBlock.recent] ∧
    threeLedger.getRecentTransactions 2 = .ok [dutyBlock.recent, fuelBlock.recent] ∧
    (∀ b ∈ threeLedger.chain.tail, untagged b.data = true) ∧
    2 + 1 ≤ threeLedger.chain.length ∧
    [dutyBlock.recent, fuelBlock.recent].map (fun e => e.blockIndex) = [3, 2] ∧
    taggedLedger.getRecentTransactions 1 = .ok [] ∧
    taggedLedger.chain.length = 2 ∧
    truthy (taggedPayload.prop "description") = true ∧
    truthy (taggedPayload.prop "amount") = true := by
  unfold Blockchain.getRecentTransactions
  rw [threeLedger_facts.2.2, taggedLedger_facts.2]
  decide!

/-- C26 (defect in the code): `getRecentTransactions(0)` should return no entry, but on the
reachable ledger of three transactions it returns three entries, one for each block
outside the last 0 blocks: `slice(-0)` is `slice(0)`, the whole chain. -/
theorem recent_zero_returns_all :
    Reachable threeLedger ∧
    ∃ entries, threeLedger.getRecentTransactions 0 = .ok entries ∧
      entries = [dutyBlock.recent, fuelBlock.recent, rentBlock.recent] ∧
      ¬ entries.length ≤ 0 :=
  ⟨threeLedger_reachable, _, recent_facts.1, rfl, by simp⟩

/-- C27 (counterexample): `taggedLedger` is the genesis block followed by one block
appended by `addTransaction` (the payload carries a description and an amount, and the
type `genesis`); `getRecentTransactions(1)` returns no entry instead of one. -/
theorem recent_omits_tagged_block :
    Reachable taggedLedger ∧
    (genesisLedger.addTransaction taggedPayload "0123456789ABCDEF0123456789ABCDEF"
      "2023-11-14T22:13:21.000Z" 1700000001492 8).1.isOk = true ∧
    taggedLedger.chain = [firstBlock, taggedBlock] ∧
    taggedLedger.getRecentTransactions 1 = .ok [] :=
  ⟨taggedLedger_reachable, taggedLedger_facts.1, taggedLedger_facts.2,
   recent_facts.2.2.2.2.2.1⟩

/-- C27 (amended): on every ledger reached by calls of `addBlock` and `addTransaction` in
which no block after the first has a `null` payload or a payload of type `genesis`, and
for every limit with `1 ≤ limit ≤ chain.length - 1`, `getRecentTransactions(limit)`
returns exactly `limit` entries: entry `k` is built from the block at position
`chain.length - 1 - k`, whose index is its position, so the entries are the last `limit`
blocks in strictly descending `blockIndex` order and none of them is the genesis block. -/
theorem recent_descending (s : Blockchain) (limit : Nat) (hr : Reachable s)
    (htag : ∀ b ∈ s.chain.tail, untagged b.data = true)
    (h1 : 1 ≤ limit) (h2 : limit + 1 ≤ s.chain.length) :
    ∃ entries, s.getRecentTransactions limit = .ok entries ∧ entries.length = limit ∧
      (∀ k, k < limit → ∃ b, s.chain[s.chain.length - 1 - k]? = some b ∧
        entries[k]? = some b.recent ∧ b.recent.blockIndex = s.chain.length - 1 - k) ∧
      entries.map (fun e => e.blockIndex)
        = (List.range limit).map (fun k => s.chain.length - 1 - k) ∧
      ∀ e ∈ entries, 1 ≤ e.blockIndex := by
  have hidx := (reachable_indexed hr).2
  have hdrop : s.chain.drop (s.chain.length - limit)
      = s.chain.tail.drop (s.chain.length - limit - 1) := by
    rw [List.drop_tail]
    congr 1
    omega
  have hkept : Blockchain.nonGenesis (s.chain.drop (s.chain.length - limit))
      = .ok (s.chain.drop (s.chain.length - limit)) := by
    apply nonGenesis_all
    intro b hb
    rw [hdrop] at hb
    exact htag b (List.mem_of_mem_drop hb)
  have hres : s.getRecentTransactions limit
      = .ok ((s.chain.drop (s.chain.length - limit)).map Block.recent).reverse := by
    unfold Blockchain.getRecentTransactions
    rw [jsSlice_neg s.chain limit h1, hkept]
    rfl
  have hlen : (((s.chain.drop (s.chain.length - limit)).map Block.recent).reverse).length
      = limit := by
    simp only [List.length_reverse, List.length_map, List.length_drop]
    omega
  have hget : ∀ k, k < limit → ∃ b, s.chain[s.chain.length - 1 - k]? = some b ∧
      (((s.chain.drop (s.chain.length - limit)).map Block.recent).reverse)[k]?
        = some b.recent ∧ b.recent.blockIndex = s.chain.length - 1 - k := by
    intro k hk
    have hpos : s.chain.length - 1 - k < s.chain.length := by omega
    refine ⟨s.chain[s.chain.length - 1 - k], List.getElem?_eq_getElem hpos, ?_, ?_⟩
    · rw [List.getElem?_reverse (by rw [List.length_map, List.length_drop]; omega)]
      rw [List.getElem?_map, List.getElem?_drop, List.length_map, List.length_drop]
      have : s.chain.length - limit + (s.chain.length - (s.chain.length - limit) - 1 - k)
          = s.chain.length - 1 - k := by omega
      rw [this, List.getElem?_eq_getElem hpos]
      rfl
    · exact hidx _ _ (List.getElem?_eq_getElem hpos)
  refine ⟨_, hres, hlen, hget, ?_, ?_⟩
  · apply List.ext_getElem?
    intro k
    by_cases hk : k < limit
    · obtain ⟨b, _, hb, hbi⟩ := hget k hk
      rw [List.getElem?_map, hb, List.getElem?_map, List.getElem?_range hk]
      simp only [Option.map_some']
      rw [hbi]
    · rw [List.getElem?_eq_none (by rw [List.length_map, hlen]; omega),
        List.getElem?_eq_none (by rw [List.length_map, List.length_range]; omega)]
  · intro e he
    obtain ⟨k, hk, hek⟩ := List.getElem_of_mem he
    rw [hlen] at hk
    obtain ⟨b, _, hb, hbi⟩ := hget k hk
    have : some e = some b.recent := by
      rw [← hb, ← hek]
      exact (List.getElem?_eq_getElem _).symm
    rw [Option.some.inj this, hbi]
    omega

/-- Witness of C27 (amended): on the ledger of three transactions `getRecentTransactions(2)`
returns blocks 3 and 2 in that order. -/
theorem recent_descending_witness :
    threeLedger.getRecentTransactions 2 = .ok [dutyBlock.recent, fuelBlock.recent] ∧
    [dutyBlock.recent, fuelBlock.recent].map (fun e => e.blockIndex) = [3, 2] ∧
    ∃ entries, threeLedger.getRecentTransactions (2 : Nat) = .ok entries ∧ entries.length = 2 ∧
      (∀ k, k < 2 → ∃ b, threeLedger.chain[threeLedger.chain.length - 1 - k]? = some b ∧
        entries[k]? = some b.recent ∧
        b.recent.blockIndex = threeLedger.chain.length - 1 - k) ∧
      entries.map (fun e => e.blockIndex)
        = (List.range 2).map (fun k => threeLedger.chain.length - 1 - k) ∧
      ∀ e ∈ entries, 1 ≤ e.blockIndex :=
  ⟨recent_facts.2.1, recent_facts.2.2.2.2.1,
   recent_descending threeLedger 2 threeLedger_reachable recent_facts.2.2.1 (by decide)
    recent_facts.2.2.2.1⟩

/-! ## Claims on the signature and on the callers in the routes -/

/-- C28: the signature depends on the serialised submitted payload only. For every two
calls of `addTransaction` that return, on any two ledgers and with any generated ids and
timestamps, whose submitted payloads serialise to the same string, the `signature` fields
of the two returned transactions are the same string, the SHA-256 digest of that
serialisation followed by the fixed salt. -/
theorem signature_deterministic (s1 s2 : Blockchain) (td1 td2 : Json)
    (id1 iso1 id2 iso2 : String) (now1 fuel1 now2 fuel2 : Nat)
    (h1 : (s1.addTransaction td1 id1 iso1 now1 fuel1).1.isOk = true)
    (h2 : (s2.addTransaction td2 id2 iso2 now2 fuel2).1.isOk = true)
    (hser : td1.stringify = td2.stringify) :
    ∃ r1 r2 sig, (s1.addTransaction td1 id1 iso1 now1 fuel1).1 = .ok r1 ∧
      (s2.addTransaction td2 id2 iso2 now2 fuel2).1 = .ok r2 ∧
      r1.transaction.prop "signature" = some (.str sig) ∧
      r2.transaction.prop "signature" = some (.str sig) ∧
      sig = sha256Hex (td1.stringify ++ "© Pranav Koradiya") := by
  obtain ⟨_, _, b1, _, heq1⟩ := addTransaction_ok_result h1
  obtain ⟨_, _, b2, _, heq2⟩ := addTransaction_ok_result h2
  refine ⟨_, _, _, by rw [heq1], by rw [heq2], ?_, ?_, rfl⟩
  · exact prop_setProp_self _ _ _
  · rw [hser]
    exact prop_setProp_self _ _ _

/-- Two calls with the rent payload return: one on the fresh ledger, one on `rawLedger`
with another id, two seconds later. -/
theorem signature_facts :
    (genesisLedger.addTransaction rentPayload "0123456789ABCDEF0123456789ABCDEF"
      "2023-11-14T22:13:21.000Z" 1700000001237 8).1.isOk = true ∧
    (rawLedger.addTransaction rentPayload "FEDCBA9876543210FEDCBA9876543210"
      "2023-11-14T22:13:23.000Z" 1700000003144 8).1.isOk = true := by
  decide!

/-- Witness of C28: the rent payload submitted to the fresh ledger and to `rawLedger`. -/
theorem signature_deterministic_witness :
    ∃ r1 r2 sig,
      (genesisLedger.addTransaction rentPayload "0123456789ABCDEF0123456789ABCDEF"
        "2023-11-14T22:13:21.000Z" 1700000001237 8).1 = .ok r1 ∧
      (rawLedger.addTransaction rentPayload "FEDCBA9876543210FEDCBA9876543210"
        "2023-11-14T22:13:23.000Z" 1700000003144 8).1 = .ok r2 ∧
      r1.transaction.prop "signature" = some (.str sig) ∧
      r2.transaction.prop "signature" = some (.str sig) ∧
      sig = sha256Hex (rentPayload.stringify ++ "© Pranav Koradiya") :=
  signature_deterministic genesisLedger rawLedger rentPayload rentPayload _ _ _ _ _ _ _ _
    signature_facts.1 signature_facts.2 rfl

/-- The validation of `addTransaction` rejects every object without a `description`. -/
theorem addTransaction_no_description (s : Blockchain) (kvs : List (String × Json))
    (id iso : String) (now fuel : Nat) (h : (Json.obj kvs).prop "description" = none) :
    s.addTransaction (.obj kvs) id iso now fuel = (.error (.thrown validationMsg), s) := by
  unfold Blockchain.addTransaction
  simp [h, truthy]

/-- The record of a contract execution built by the route is rejected by `addTransaction`,
whatever the contract and the ledger. -/
theorem execution_rejected (s : Blockchain) (contractId executedBy executionDate : String)
    (amount : Int) (partyA partyB id iso : String) (now fuel : Nat) :
    s.addTransaction (executionData contractId executedBy executionDate amount partyA partyB)
      id iso now fuel = (.error (.thrown validationMsg), s) :=
  addTransaction_no_description s _ id iso now fuel rfl

/-- The record of a contract cancellation built by the route is rejected by
`addTransaction`, whatever the contract and the ledger. -/
theorem cancellation_rejected (s : Blockchain) (contractId cancelledBy cancellationDate : String)
    (reason : Option Json) (id iso : String) (now fuel : Nat) :
    s.addTransaction (cancellationData contractId cancelledBy cancellationDate reason)
      id iso now fuel = (.error (.thrown validationMsg), s) :=
  addTransaction_no_description s _ id iso now fuel rfl

/-- C29 (defect in the code): the append the contract routes perform for an execution and
for a cancellation should add one block, but the routes call `addTransaction`, whose
validation rejects both records because they carry no `description`: on the fresh ledger
each call throws `Transaction must include description and amount` and the chain keeps
its single block. -/
theorem contract_events_throw :
    genesisLedger.addTransaction
        (executionData "SC-001" "alice" "2023-11-14T22:13:22.000Z" 500 "ACME" "Globex")
        "0123456789ABCDEF0123456789ABCDEF" "2023-11-14T22:13:22.000Z" 1700000002000 8
      = (.error (.thrown "Transaction must include description and amount"), genesisLedger) ∧
    genesisLedger.addTransaction
        (cancellationData "SC-001" "alice" "2023-11-14T22:13:22.000Z" (some (.str "late")))
        "0123456789ABCDEF0123456789ABCDEF" "2023-11-14T22:13:22.000Z" 1700000002000 8
      = (.error (.thrown "Transaction must include description and amount"), genesisLedger) ∧
    genesisLedger.chain.length = 1 :=
  ⟨execution_rejected _ _ _ _ _ _ _ _ _ _ _, cancellation_rejected _ _ _ _ _ _ _ _ _, rfl⟩

/-! ## The report of `GET /verify` -/

/-- At a position `1 ≤ i < chain.length` the loop of `GET /verify` pushes an entry with
`blockIndex = i`; the entry is `valid` exactly when the loop of `isValid()` goes on at
`i`, and otherwise its error is of the kind of the verdict `isValid()` returns at `i`. -/
theorem verifyBlock_spec (chain : List Block) (i : Nat) (h1 : 1 ≤ i) (hlt : i < chain.length) :
    ∃ d, verifyBlock chain i = some d ∧ d.blockIndex = i ∧
      ((Blockchain.checkBlock chain i = none ∧ d.status = "valid" ∧ d.error = none) ∨
       (∃ v, Blockchain.checkBlock chain i = some v ∧ d.status = "invalid" ∧
          v.valid = false ∧ v.blockIndex = some i ∧
          ((d.error = some "Hash mismatch" ∧
              v.error = some ("Invalid hash at block " ++ toString i)) ∨
           (d.error = some "Previous hash mismatch" ∧
              v.error = some ("Invalid previous hash at block " ++ toString i))))) := by
  have hc : chain[i]? = some chain[i] := List.getElem?_eq_getElem hlt
  have hp : chain[i - 1]? = some (chain[i - 1]) := List.getElem?_eq_getElem (by omega)
  unfold verifyBlock Blockchain.checkBlock
  rw [hc, hp]
  by_cases hh : chain[i].hash = chain[i].calculateHash
  · by_cases hl : chain[i].prevHash = chain[i - 1].hash
    · refine ⟨_, by simp [hh, hl]; rfl, ?_⟩
      simp [hh, hl]
    · refine ⟨_, by simp [hh, hl]; rfl, ?_⟩
      simp [hh, hl]
  · refine ⟨_, by simp [hh]; rfl, ?_⟩
    simp [hh]

/-- The two loops agree on every list of positions inside the chain: both find nothing, or
the first verdict of `isValid()` and the first invalid entry of the report are at the same
position and of the same kind. -/
theorem verify_first (chain : List Block) (l : List Nat)
    (hl : ∀ i ∈ l, 1 ≤ i ∧ i < chain.length) :
    (l.findSome? (Blockchain.checkBlock chain) = none ∧
      ∀ d ∈ l.filterMap (verifyBlock chain), d.status = "valid") ∨
    (∃ v d, l.findSome? (Blockchain.checkBlock chain) = some v ∧
      (l.filterMap (verifyBlock chain)).find? (fun d => d.status == "invalid") = some d ∧
      d.status = "invalid" ∧ v.valid = false ∧ v.blockIndex = some d.blockIndex ∧
      ((d.error = some "Hash mismatch" ∧
          v.error = some ("Invalid hash at block " ++ toString d.blockIndex)) ∨
       (d.error = some "Previous hash mismatch" ∧
          v.error = some ("Invalid previous hash at block " ++ toString d.blockIndex)))) := by
  induction l with
  | nil => left; exact ⟨rfl, fun d hd => by simp at hd⟩
  | cons i rest ih =>
    have hi := hl i (List.mem_cons_self _ _)
    have ihr := ih (fun j hj => hl j (List.mem_cons_of_mem _ hj))
    obtain ⟨d, hd, hdi, hcase⟩ := verifyBlock_spec chain i hi.1 hi.2
    rcases hcase with ⟨hnone, hst, _⟩ | ⟨v, hsome, hst, hv, hvi, hkind⟩
    · have hfs : (i :: rest).findSome? (Blockchain.checkBlock chain)
          = rest.findSome? (Blockchain.checkBlock chain) := by
        rw [List.findSome?_cons, hnone]
      have hfm : (i :: rest).filterMap (verifyBlock chain)
          = d :: rest.filterMap (verifyBlock chain) := by
        rw [List.filterMap_cons, hd]
      have hskip : (d.status == "invalid") = false := by rw [hst]; decide
      rw [hfs, hfm]
      rcases ihr with ⟨hn, hall⟩ | ⟨v, e, hv, he, hrest⟩
      · left
        refine ⟨hn, ?_⟩
        intro x hx
        rcases List.mem_cons.mp hx with hx | hx
        · rw [hx]; exact hst
        · exact hall x hx
      · right
        refine ⟨v, e, hv, ?_, hrest⟩
        rw [List.find?_cons, hskip]
        exact he
    · right
      refine ⟨v, d, ?_, ?_, hst, hv, by rw [hdi]; exact hvi, by rw [hdi]; exact hkind⟩
      · rw [List.findSome?_cons, hsome]
      · rw [List.filterMap_cons, hd]
        have hfound : (d.status == "invalid") = true := by rw [hst]; decide
        rw [List.find?_cons, hfound]

/-- C30: for every chain, the per-block report built by `GET /verify` agrees with
`isValid()`: `isValid().valid` is true if and only if every entry of `details` has status
`valid`; and `isValid().valid` is true, or the first entry with status `invalid` has its
`blockIndex` equal to `isValid().blockIndex` and an error of the same kind (`Hash mismatch`
with `Invalid hash at block i`, `Previous hash mismatch` with `Invalid previous hash at
block i`). -/
theorem verify_agrees_with_isValid (s : Blockchain) :
    (s.isValid.valid = true ↔ ∀ d ∈ verifyDetails s, d.status = "valid") ∧
    (s.isValid.valid = true ∨
      ∃ d, (verifyDetails s).find? (fun d => d.status == "invalid") = some d ∧
        s.isValid.valid = false ∧ s.isValid.blockIndex = some d.blockIndex ∧
        ((d.error = some "Hash mismatch" ∧
            s.isValid.error = some ("Invalid hash at block " ++ toString d.blockIndex)) ∨
         (d.error = some "Previous hash mismatch" ∧
            s.isValid.error
              = some ("Invalid previous hash at block " ++ toString d.blockIndex)))) := by
  have hl : ∀ i ∈ List.range' 1 (s.chain.length - 1), 1 ≤ i ∧ i < s.chain.length := by
    intro i hi
    have := List.mem_range'_1.mp hi
    omega
  unfold verifyDetails Blockchain.isValid
  rcases verify_first s.chain _ hl with ⟨hn, hall⟩ | ⟨v, d, hv, hd, hst, hvv, hvi, hkind⟩
  · rw [hn]
    exact ⟨⟨fun _ => hall, fun _ => rfl⟩, Or.inl rfl⟩
  · rw [hv]
    simp only
    refine ⟨⟨fun h => ?_, fun h => ?_⟩, Or.inr ⟨d, hd, hvv, hvi, hkind⟩⟩
    · rw [hvv] at h; cases h
    · have hmem := List.mem_of_find?_eq_some hd
      have := h d hmem
      rw [hst] at this
      exact absurd this (by decide)

/-! ## Termination of the mining loop -/

/-- Once the loop condition is false after `k` iterations, `mineBlock` returns within every
budget of at least `k` iterations. -/
theorem mineBlock_of_solvedAt (d : Nat) :
    ∀ (k : Nat) (b : Block), b.solvedAt d k = true →
      ∀ fuel, k ≤ fuel → ∃ m, b.mineBlock d fuel = some m := by
  intro k
  induction k with
  | zero =>
    intro b hs fuel _
    have hc : ¬ (substring0 b.hash d != target d) = true := by
      simpa [Block.solvedAt, Block.mineIter] using hs
    cases fuel with
    | zero => exact ⟨b, by simp only [Block.mineBlock, if_neg hc]⟩
    | succ f => exact ⟨b, by simp only [Block.mineBlock, if_neg hc]⟩
  | succ k ih =>
    intro b hs fuel hle
    cases fuel with
    | zero => omega
    | succ f =>
      by_cases hc : (substring0 b.hash d != target d) = true
      · obtain ⟨m, hm⟩ := ih b.mineStep hs f (by omega)
        exact ⟨m, by simp only [Block.mineBlock, if_pos hc]; exact hm⟩
      · exact ⟨b, by simp only [Block.mineBlock, if_neg hc]⟩

/-- While `mineBlock` has not returned within a budget, the loop condition was true after
every iteration within that budget. -/
theorem mineBlock_none_unsolved {b : Block} {d fuel : Nat} (h : b.mineBlock d fuel = none) :
    ∀ k, k ≤ fuel → b.solvedAt d k = false := by
  intro k hk
  cases hs : b.solvedAt d k with
  | false => rfl
  | true =>
    obtain ⟨m, hm⟩ := mineBlock_of_solvedAt d k b hs fuel hk
    rw [h] at hm
    cases hm

/-- On a non-empty chain, once the loop condition of the new block is false after `k`
iterations, `addBlock` returns the same block within every budget of at least `k`
iterations, and appends it. -/
theorem addBlock_of_solved {s : Blockchain} {data : Json} {now k : Nat} {prev : Block}
    (hlast : s.chain.getLast? = some prev)
    (hs : (Block.new s.chain.length now data prev.hash).solvedAt s.difficulty k = true) :
    ∃ b, (∀ fuel, k ≤ fuel →
        s.addBlock data now fuel = (.ok b, { s with chain := s.chain ++ [b] })) ∧
      b.index = s.chain.length ∧ b.prevHash = prev.hash ∧ b.data = data := by
  have hl : s.getLatestBlock = some prev := by
    unfold Blockchain.getLatestBlock
    rw [← List.getLast?_eq_getElem?]
    exact hlast
  obtain ⟨m, hm⟩ := mineBlock_of_solvedAt s.difficulty k _ hs k (Nat.le_refl k)
  obtain ⟨h1, _, h3, h4, _⟩ := mineBlock_fields hm
  refine ⟨m, ?_, by rw [h1]; rfl, by rw [h4]; rfl, by rw [h3]; rfl⟩
  intro fuel hle
  obtain ⟨j, rfl⟩ := Nat.exists_eq_add_of_le hle
  unfold Blockchain.addBlock
  rw [hl]
  simp only
  rw [mineBlock_mono hm j]

/-- On a non-empty chain, a call of `addBlock` that has not returned has run out of its
mining budget: the loop condition was true after every iteration within the budget, and
the ledger is as it was. -/
theorem addBlock_not_ok {s : Blockchain} {data : Json} {now fuel : Nat} {prev : Block}
    (hlast : s.chain.getLast? = some prev)
    (h : (s.addBlock data now fuel).1.isOk = false) :
    s.addBlock data now fuel = (.error .outOfFuel, s) ∧
    ∀ k, k ≤ fuel →
      (Block.new s.chain.length now data prev.hash).solvedAt s.difficulty k = false := by
  have hl : s.getLatestBlock = some prev := by
    unfold Blockchain.getLatestBlock
    rw [← List.getLast?_eq_getElem?]
    exact hlast
  unfold Blockchain.addBlock at h ⊢
  rw [hl] at h ⊢
  simp only at h ⊢
  cases hm : (Block.new s.chain.length now data prev.hash).mineBlock s.difficulty fuel with
  | some m => simp [hm, Except.isOk, Except.toBool] at h
  | none => exact ⟨rfl, mineBlock_none_unsolved hm⟩

/-- A call of `addTransaction` on a payload with a truthy description and a truthy amount
is the call of `addBlock` on the decorated payload, followed by the increment of the
counter when `addBlock` returned. -/
theorem addTransaction_accepted (s : Blockchain) (td : Json) (id iso : String)
    (now fuel : Nat) (hd : truthy (td.prop "description") = true)
    (ha : truthy (td.prop "amount") = true) :
    s.addTransaction td id iso now fuel =
      match s.addBlock (s.enhancedTransaction td id iso) now fuel with
      | (.error e, s1) => (.error e, s1)
      | (.ok newBlock, s1) =>
        (.ok { transaction := s.enhancedTransaction td id iso, block := newBlock },
         { s1 with totalTransactions := s1.totalTransactions + 1 }) := by
  obtain ⟨kvs, rfl⟩ := obj_of_truthy_prop hd
  have hcond : ¬ (!truthy ((Json.obj kvs).prop "description") ||
      !truthy ((Json.obj kvs).prop "amount")) = true := by
    simp [hd, ha]
  unfold Blockchain.addTransaction
  simp only [if_neg hcond]

/-- On a non-empty chain, once the loop condition of the new block is false after `k`
iterations, `addTransaction` on an accepted payload returns the same result within every
budget of at least `k` iterations. -/
theorem addTransaction_of_solved {s : Blockchain} {td : Json} {id iso : String} {now k : Nat}
    {prev : Block} (hlast : s.chain.getLast? = some prev)
    (hd : truthy (td.prop "description") = true) (ha : truthy (td.prop "amount") = true)
    (hs : (Block.new s.chain.length now (s.enhancedTransaction td id iso)
      prev.hash).solvedAt s.difficulty k = true) :
    ∃ b, ∀ fuel, k ≤ fuel → s.addTransaction td id iso now fuel =
      (.ok { transaction := s.enhancedTransaction td id iso, block := b },
       { s with chain := s.chain ++ [b], totalTransactions := s.totalTransactions + 1 }) := by
  obtain ⟨b, hb, _⟩ := addBlock_of_solved hlast hs
  refine ⟨b, ?_⟩
  intro fuel hle
  rw [addTransaction_accepted s td id iso now fuel hd ha, hb fuel hle]

/-- On a non-empty chain, a call of `addTransaction` on an accepted payload that has not
returned has run out of its mining budget, and the ledger is as it was. -/
theorem addTransaction_not_ok {s : Blockchain} {td : Json} {id iso : String}
    {now fuel : Nat} {prev : Block} (hlast : s.chain.getLast? = some prev)
    (hd : truthy (td.prop "description") = true) (ha : truthy (td.prop "amount") = true)
    (h : (s.addTransaction td id iso now fuel).1.isOk = false) :
    s.addTransaction td id iso now fuel = (.error .outOfFuel, s) ∧
    ∀ k, k ≤ fuel → (Block.new s.chain.length now (s.enhancedTransaction td id iso)
      prev.hash).solvedAt s.difficulty k = false := by
  have hacc := addTransaction_accepted s td id iso now fuel hd ha
  cases hok : (s.addBlock (s.enhancedTransaction td id iso) now fuel).1.isOk with
  | true =>
    obtain ⟨_, m, _, _, heq⟩ := addBlock_ok hok
    rw [hacc, heq] at h
    simp [Except.isOk, Except.toBool] at h
  | false =>
    obtain ⟨heq, hall⟩ := addBlock_not_ok hlast hok
    rw [hacc, heq]
    exact ⟨rfl, hall⟩

/-- C5: on every ledger (non-empty chain) and for every payload `addTransaction` accepts
(truthy description and amount), the call does not throw, and it returns as soon as the
mining loop of the new block ends: if the loop condition is false after `k` iterations,
then within every budget of at least `k` iterations the call returns and has increased
`chain.length` by exactly 1 and `totalTransactions` by exactly 1. The call fails to return
only while the loop condition has been true after every iteration within the budget, and
then the ledger is unchanged. -/
theorem addTransaction_increments (s : Blockchain) (td : Json) (id iso : String)
    (now : Nat) (prev : Block) (hlast : s.chain.getLast? = some prev)
    (hd : truthy (td.prop "description") = true) (ha : truthy (td.prop "amount") = true) :
    (∀ fuel, thrownMsg (s.addTransaction td id iso now fuel).1 = none) ∧
    (∀ k, (Block.new s.chain.length now (s.enhancedTransaction td id iso)
        prev.hash).solvedAt s.difficulty k = true →
      ∀ fuel, k ≤ fuel →
        (s.addTransaction td id iso now fuel).1.isOk = true ∧
        (s.addTransaction td id iso now fuel).2.chain.length = s.chain.length + 1 ∧
        (s.addTransaction td id iso now fuel).2.totalTransactions
          = s.totalTransactions + 1) ∧
    (∀ fuel, (s.addTransaction td id iso now fuel).1.isOk = false →
      s.addTransaction td id iso now fuel = (.error .outOfFuel, s) ∧
      ∀ k, k ≤ fuel → (Block.new s.chain.length now (s.enhancedTransaction td id iso)
        prev.hash).solvedAt s.difficulty k = false) := by
  refine ⟨?_, ?_, ?_⟩
  · intro fuel
    cases hok : (s.addTransaction td id iso now fuel).1.isOk with
    | false =>
      rw [(addTransaction_not_ok hlast hd ha hok).1]
      rfl
    | true =>
      cases hr : (s.addTransaction td id iso now fuel).1 with
      | ok r => rfl
      | error e => rw [hr] at hok; simp [Except.isOk, Except.toBool] at hok
  · intro k hs fuel hle
    obtain ⟨b, hb⟩ := addTransaction_of_solved hlast hd ha hs
    rw [hb fuel hle]
    exact ⟨rfl, by simp, rfl⟩
  · intro fuel hok
    exact addTransaction_not_ok hlast hd ha hok

/-- C15: on every ledger (non-empty chain) and for every accepted payload, once the loop
condition of the new block is false after `k` iterations, `addTransaction` returns within
every budget of at least `k` iterations the same `{transaction, block}`: `block` is the
new last block of the chain, `block.data` is the returned decorated transaction,
`transaction.blockIndex = block.index` = the chain length before the call,
`transaction.status` is `validated`, and every field of the submitted payload other than
`id`, `timestamp`, `blockIndex`, `status` and `signature` is carried over unchanged. The
call fails to return only while the loop condition has been true after every iteration
within the budget. -/
theorem addTransaction_result (s : Blockchain) (td : Json) (id iso : String)
    (now : Nat) (prev : Block) (hlast : s.chain.getLast? = some prev)
    (hd : truthy (td.prop "description") = true) (ha : truthy (td.prop "amount") = true) :
    (∀ k, (Block.new s.chain.length now (s.enhancedTransaction td id iso)
        prev.hash).solvedAt s.difficulty k = true →
      ∃ r, (∀ fuel, k ≤ fuel →
          (s.addTransaction td id iso now fuel).1 = .ok r ∧
          (s.addTransaction td id iso now fuel).2.chain = s.chain ++ [r.block] ∧
          (s.addTransaction td id iso now fuel).2.chain.getLast? = some r.block) ∧
        r.block.data = r.transaction ∧
        r.transaction.prop "blockIndex" = some (.num s.chain.length) ∧
        r.block.index = s.chain.length ∧
        r.transaction.prop "status" = some (.str "validated") ∧
        ∀ key, key ∉ ["id", "timestamp", "blockIndex", "status", "signature"] →
          r.transaction.prop key = td.prop key) ∧
    (∀ fuel, (s.addTransaction td id iso now fuel).1.isOk = false →
      s.addTransaction td id iso now fuel = (.error .outOfFuel, s) ∧
      ∀ k, k ≤ fuel → (Block.new s.chain.length now (s.enhancedTransaction td id iso)
        prev.hash).solvedAt s.difficulty k = false) := by
  refine ⟨?_, fun fuel hok => addTransaction_not_ok hlast hd ha hok⟩
  intro k hs
  obtain ⟨b, hb⟩ := addTransaction_of_solved hlast hd ha hs
  have hk := hb k (Nat.le_refl k)
  have hok : (s.addTransaction td id iso now k).1.isOk = true := by rw [hk]; rfl
  obtain ⟨r, hr, _, _, h4, h5, h6, h7, h8⟩ := addTransaction_result_of_ok s td id iso now k hok
  have hrb : r = { transaction := s.enhancedTransaction td id iso, block := b } := by
    rw [hk] at hr
    exact (Except.ok.inj hr).symm
  refine ⟨r, ?_, h4, h5, h6, h7, h8⟩
  intro fuel hle
  rw [hb fuel hle, hrb]
  exact ⟨rfl, rfl, by simp⟩

/-- C17: on every ledger (non-empty chain) and for every payload whatsoever, `addBlock` does
not throw, and it returns as soon as the mining loop of the new block ends: if the loop
condition is false after `k` iterations, then within every budget of at least `k`
iterations the call appends exactly one block and returns it, the same block for every
such budget, with index equal to the chain length before the call, `prevHash` equal to the
hash of the previously last block and `data` equal to the payload. The call fails to
return only while the loop condition has been true after every iteration within the
budget, and then the ledger is unchanged. -/
theorem addBlock_appends (s : Blockchain) (data : Json) (now : Nat) (prev : Block)
    (hlast : s.chain.getLast? = some prev) :
    (∀ fuel, thrownMsg (s.addBlock data now fuel).1 = none) ∧
    (∀ k, (Block.new s.chain.length now data prev.hash).solvedAt s.difficulty k = true →
      ∃ b, (∀ fuel, k ≤ fuel →
          s.addBlock data now fuel = (.ok b, { s with chain := s.chain ++ [b] })) ∧
        b.index = s.chain.length ∧ b.prevHash = prev.hash ∧ b.data = data) ∧
    (∀ fuel, (s.addBlock data now fuel).1.isOk = false →
      s.addBlock data now fuel = (.error .outOfFuel, s) ∧
      ∀ k, k ≤ fuel →
        (Block.new s.chain.length now data prev.hash).solvedAt s.difficulty k = false) := by
  have hne : s.chain ≠ [] := by
    intro h
    rw [h] at hlast
    cases hlast
  refine ⟨?_, fun k hs => addBlock_of_solved hlast hs, fun fuel hok => addBlock_not_ok hlast hok⟩
  intro fuel
  rcases addBlock_thrownMsg s data now fuel with ⟨h1, _⟩ | ⟨_, h2⟩
  · exact absurd h1 hne
  · exact h2

/-- On the fresh ledger the mining loop ends after one iteration for the block of the rent
payload created at 1700000001237 and for the block of the event payload created at
1700000002117. -/
theorem solved_facts :
    genesisLedger.chain.getLast? = some firstBlock ∧
    truthy (rentPayload.prop "description") = true ∧
    truthy (rentPayload.prop "amount") = true ∧
    (Block.new genesisLedger.chain.length 1700000001237
      (genesisLedger.enhancedTransaction rentPayload "0123456789ABCDEF0123456789ABCDEF"
        "2023-11-14T22:13:21.000Z") firstBlock.hash).solvedAt genesisLedger.difficulty 1
      = true ∧
    (Block.new genesisLedger.chain.length 1700000002117 eventPayload
      firstBlock.hash).solvedAt genesisLedger.difficulty 1 = true := by
  decide!

/-- Witness of C5: the rent payload submitted to the fresh ledger; the mining loop ends
after one iteration, so the call returns within every budget of at least one iteration. -/
theorem addTransaction_increments_witness :
    genesisLedger.chain.getLast? = some firstBlock ∧
    truthy (rentPayload.prop "description") = true ∧
    truthy (rentPayload.prop "amount") = true ∧
    ∀ fuel, 1 ≤ fuel →
      (genesisLedger.addTransaction rentPayload "0123456789ABCDEF0123456789ABCDEF"
        "2023-11-14T22:13:21.000Z" 1700000001237 fuel).1.isOk = true ∧
      (genesisLedger.addTransaction rentPayload "0123456789ABCDEF0123456789ABCDEF"
        "2023-11-14T22:13:21.000Z" 1700000001237 fuel).2.chain.length
          = genesisLedger.chain.length + 1 ∧
      (genesisLedger.addTransaction rentPayload "0123456789ABCDEF0123456789ABCDEF"
        "2023-11-14T22:13:21.000Z" 1700000001237 fuel).2.totalTransactions
          = genesisLedger.totalTransactions + 1 :=
  ⟨solved_facts.1, solved_facts.2.1, solved_facts.2.2.1,
   (addTransaction_increments genesisLedger rentPayload "0123456789ABCDEF0123456789ABCDEF"
      "2023-11-14T22:13:21.000Z" 1700000001237 firstBlock solved_facts.1 solved_facts.2.1
      solved_facts.2.2.1).2.1 1 solved_facts.2.2.2.1⟩

/-- Witness of C15: the rent payload submitted to the fresh ledger; the call returns the
same result within every budget of at least one iteration. -/
theorem addTransaction_result_witness :
    genesisLedger.chain.getLast? = some firstBlock ∧
    truthy (rentPayload.prop "description") = true ∧
    truthy (rentPayload.prop "amount") = true ∧
    ∃ r, (∀ fuel, 1 ≤ fuel →
        (genesisLedger.addTransaction rentPayload "0123456789ABCDEF0123456789ABCDEF"
          "2023-11-14T22:13:21.000Z" 1700000001237 fuel).1 = .ok r ∧
        (genesisLedger.addTransaction rentPayload "0123456789ABCDEF0123456789ABCDEF"
          "2023-11-14T22:13:21.000Z" 1700000001237 fuel).2.chain
            = genesisLedger.chain ++ [r.block] ∧
        (genesisLedger.addTransaction rentPayload "0123456789ABCDEF0123456789ABCDEF"
          "2023-11-14T22:13:21.000Z" 1700000001237 fuel).2.chain.getLast? = some r.block) ∧
      r.block.data = r.transaction ∧
      r.transaction.prop "blockIndex" = some (.num genesisLedger.chain.length) ∧
      r.block.index = genesisLedger.chain.length ∧
      r.transaction.prop "status" = some (.str "validated") ∧
      ∀ key, key ∉ ["id", "timestamp", "blockIndex", "status", "signature"] →
        r.transaction.prop key = rentPayload.prop key :=
  ⟨solved_facts.1, solved_facts.2.1, solved_facts.2.2.1,
   (addTransaction_result genesisLedger rentPayload "0123456789ABCDEF0123456789ABCDEF"
      "2023-11-14T22:13:21.000Z" 1700000001237 firstBlock solved_facts.1 solved_facts.2.1
      solved_facts.2.2.1).1 1 solved_facts.2.2.2.1⟩

/-- Witness of C17: `addBlock(eventPayload)` on the fresh ledger; the call returns the same
block within every budget of at least one iteration. -/
theorem addBlock_appends_witness :
    genesisLedger.chain.getLast? = some firstBlock ∧
    (∀ fuel, thrownMsg (genesisLedger.addBlock eventPayload 1700000002117 fuel).1 = none) ∧
    ∃ b, (∀ fuel, 1 ≤ fuel → genesisLedger.addBlock eventPayload 1700000002117 fuel
          = (.ok b, { genesisLedger with chain := genesisLedger.chain ++ [b] })) ∧
      b.index = genesisLedger.chain.length ∧ b.prevHash = firstBlock.hash ∧
      b.data = eventPayload :=
  ⟨solved_facts.1,
   (addBlock_appends genesisLedger eventPayload 1700000002117 firstBlock
      solved_facts.1).1,
   (addBlock_appends genesisLedger eventPayload 1700000002117 firstBlock
      solved_facts.1).2.1 1 solved_facts.2.2.2.2⟩

/-- The call that makes `numberLedger` returns, and the chain it leaves. -/
theorem numberLedger_facts :
    (genesisLedger.addTransaction numberPayload "0123456789ABCDEF0123456789ABCDEF"
      "2023-11-14T22:13:21.000Z" 1700000001444 8).1.isOk = true ∧
    numberLedger.chain = [firstBlock, numberBlock] := by
  decide!

theorem numberLedger_reachable : Reachable numberLedger :=
  Reachable.addTransaction numberPayload "0123456789ABCDEF0123456789ABCDEF"
    "2023-11-14T22:13:21.000Z" 1700000001444 8 genesisLedger_reachable numberLedger_facts.1

/-- Searches by description on `rawLedger` and on `numberLedger`. -/
theorem description_facts :
    rawBlock.data.prop "description" = none ∧
    rawLedger.searchTransactions asciiHost { description := some "" } = .ok [rawBlock.hit] ∧
    numberBlock.data.prop "description" = some (.num 5) ∧
    thrownMsg (numberLedger.searchTransactions asciiHost { description := some "rent" })
      = some notAFunctionMsg := by
  unfold Blockchain.searchTransactions
  rw [rawLedger_chain, numberLedger_facts.2]
  decide!

/-- C24 (counterexample): two reachable ledgers searched by description. On `rawLedger` the
search for the empty description returns block 1, whose payload has no description: an empty
criterion is not applied. On `numberLedger`, whose block 1 was appended by `addTransaction`
with the description 5, the search for `rent` returns nothing: it throws a `TypeError`. -/
theorem description_search_counterexample :
    (Reachable rawLedger ∧ rawLedger.chain = [firstBlock, rawBlock] ∧
      rawBlock.data.prop "description" = none ∧
      rawLedger.searchTransactions asciiHost { description := some "" }
        = .ok [rawBlock.hit]) ∧
    (Reachable numberLedger ∧ numberLedger.chain = [firstBlock, numberBlock] ∧
      numberBlock.data.prop "description" = some (.num 5) ∧
      thrownMsg (numberLedger.searchTransactions asciiHost { description := some "rent" })
        = some notAFunctionMsg) :=
  ⟨⟨rawLedger_reachable, rawLedger_chain, description_facts.1, description_facts.2.1⟩,
   ⟨numberLedger_reachable, numberLedger_facts.2, description_facts.2.2.1,
    description_facts.2.2.2⟩⟩

end Ledger
